import Mathlib

/-
Verification development for the STOMP performance-scheduler core
(`SchedulingAlgorithm` in backend/schedule algorithm source; the current
version with fairness-based OFF selection, company-day-off handling and
forced RED-day creation).  The TypeScript code is shallowly embedded as
executable Lean definitions:

* calendar dates are modelled as epoch-day numbers (`Nat`) and times of day
  as minutes since midnight; `YYYY-MM-DD` strings sort lexicographically in
  the same order as their epoch-day numbers, and all datetime arithmetic in
  the source is difference-based, so this is faithful under the assumption
  that the server runs in UTC (date-only and date-time parses then agree up
  to a constant offset that cancels in every difference the code takes);
* `Math.random()` is modelled by an abstract tape `g : Nat -> Nat` with an
  explicit counter; a Fisher-Yates step `Math.floor(Math.random()*(i+1))`
  reads `g ctr % (i+1)`, which ranges over exactly the values the real draw
  can produce;
* JavaScript `Array.prototype.sort` with a consistent comparator is modelled
  by a stable insertion sort; `sort` with a comparator that calls
  `Math.random()` (implementation-defined result) is modelled by a
  tape-driven permutation, which over-approximates the set of reachable
  results (sound for the universally quantified theorems below; every
  counterexample below goes through code paths whose result does not depend
  on the comparator outcome at all);
* the `Map`/object state of the class is modelled by association lists in
  insertion order, matching `Map` iteration order;
* the one reachable runtime exception (iterating `showsByDate[undefined]` in
  `assignRedDays` when a forced RED day is needed but there are no
  show-status dates) is modelled by an `Option` result, and the top-level
  `try/catch` of `autoGenerate` by matching on it.
-/

namespace Stomp

set_option maxRecDepth 4000000

/-- Substring test, modelling JavaScript `String.prototype.includes`. -/
def strIncludes (needle hay : String) : Bool := decide (needle.data <:+: hay.data)

/-- Stable insertion of `x` into a list: `x` is placed before the first
element `y` with `le x y`.  Together with `stableSortBy` this models
`Array.prototype.sort` with a consistent comparator `cmp`, where
`le a b` means `cmp(a,b) <= 0`: output ordered by `cmp`, ties keeping the
original relative order (ES2019 sorts are stable). -/
def insertLe (le : α → α → Bool) (x : α) : List α → List α
  | [] => [x]
  | y :: ys => if le x y then x :: y :: ys else y :: insertLe le x ys

/-- Stable sort by a boolean total preorder (see `insertLe`). -/
def stableSortBy (le : α → α → Bool) : List α → List α
  | [] => []
  | x :: xs => insertLe le x (stableSortBy le xs)

theorem insertLe_perm (le : α → α → Bool) (x : α) (l : List α) :
    (insertLe le x l).Perm (x :: l) := by
  induction l with
  | nil => exact List.Perm.refl _
  | cons y ys ih =>
    simp only [insertLe]
    by_cases h : le x y = true
    · simp [h]
    · simp only [h, if_neg]
      exact (ih.cons y).trans (List.Perm.swap x y ys)

theorem stableSortBy_perm (le : α → α → Bool) (l : List α) :
    (stableSortBy le l).Perm l := by
  induction l with
  | nil => exact List.Perm.refl _
  | cons x xs ih =>
    exact (insertLe_perm le x (stableSortBy le xs)).trans (ih.cons x)

theorem mem_stableSortBy (le : α → α → Bool) (l : List α) (x : α) :
    x ∈ stableSortBy le l ↔ x ∈ l :=
  (stableSortBy_perm le l).mem_iff

theorem length_stableSortBy (le : α → α → Bool) (l : List α) :
    (stableSortBy le l).length = l.length :=
  (stableSortBy_perm le l).length_eq

theorem pairwise_insertLe (le : α → α → Bool)
    (htot : ∀ a b, le a b = true ∨ le b a = true)
    (htrans : ∀ a b c, le a b = true → le b c = true → le a c = true)
    (x : α) (l : List α) (h : l.Pairwise (fun a b => le a b = true)) :
    (insertLe le x l).Pairwise (fun a b => le a b = true) := by
  induction l with
  | nil => simp [insertLe]
  | cons y ys ih =>
    simp only [insertLe]
    rcases List.pairwise_cons.mp h with ⟨hy, hys⟩
    by_cases hxy : le x y = true
    · rw [if_pos hxy]
      refine List.pairwise_cons.mpr ⟨?_, h⟩
      intro z hz
      rcases List.mem_cons.mp hz with rfl | hz
      · exact hxy
      · exact htrans x y z hxy (hy z hz)
    · rw [if_neg hxy]
      refine List.pairwise_cons.mpr ⟨?_, ih hys⟩
      intro z hz
      have hz2 := (insertLe_perm le x ys).mem_iff.mp hz
      rcases List.mem_cons.mp hz2 with rfl | hz2
      · rcases htot z y with hc | hc
        · exact absurd hc hxy
        · exact hc
      · exact hy z hz2

theorem pairwise_stableSortBy (le : α → α → Bool)
    (htot : ∀ a b, le a b = true ∨ le b a = true)
    (htrans : ∀ a b c, le a b = true → le b c = true → le a c = true)
    (l : List α) :
    (stableSortBy le l).Pairwise (fun a b => le a b = true) := by
  induction l with
  | nil => simp [stableSortBy]
  | cons x xs ih => exact pairwise_insertLe le htot htrans x _ ih

/-- Swap the elements at positions `i` and `j` (no-op when an index is out
of bounds); one step of the Fisher-Yates shuffle. -/
def listSwap (l : List α) (i j : Nat) : List α :=
  match l[i]?, l[j]? with
  | some x, some y => (l.set i y).set j x
  | _, _ => l

theorem count_listSwap [DecidableEq α] (l : List α) (i j : Nat) (a : α) :
    (listSwap l i j).count a = l.count a := by
  unfold listSwap
  cases hi : l[i]? with
  | none => rfl
  | some x =>
    cases hj : l[j]? with
    | none => rfl
    | some y =>
      have hil : i < l.length := (List.getElem?_eq_some.mp hi).1
      have hjl : j < l.length := (List.getElem?_eq_some.mp hj).1
      have hx : l[i] = x := (List.getElem?_eq_some.mp hi).2
      have hy : l[j] = y := (List.getElem?_eq_some.mp hj).2
      have hjl2 : j < (l.set i y).length := by simpa using hjl
      rw [List.count_set x a _ j hjl2, List.count_set y a l i hil]
      have hgj : (l.set i y)[j] = y := by
        by_cases hij : i = j
        · subst hij; rw [List.getElem_set_self]
        · rw [List.getElem_set_ne hij, hy]
      rw [hgj, hx]
      simp only [beq_iff_eq]
      have hcx : x = a → 1 ≤ l.count a := by
        intro hxa
        have hmem : a ∈ l := by
          rw [← hxa, ← hx]
          exact l.getElem_mem hil
        exact List.count_pos_iff.mpr hmem
      by_cases hxa2 : x = a
      · by_cases hya2 : y = a
        · simp only [if_pos hxa2, if_pos hya2]
          have := hcx hxa2
          omega
        · simp only [if_pos hxa2, if_neg hya2]
          have := hcx hxa2
          omega
      · by_cases hya2 : y = a
        · simp only [if_neg hxa2, if_pos hya2]
          omega
        · simp only [if_neg hxa2, if_neg hya2]
          omega

theorem listSwap_perm [DecidableEq α] (l : List α) (i j : Nat) :
    (listSwap l i j).Perm l :=
  List.perm_iff_count.mpr (fun a => count_listSwap l i j a)

/-- Fisher-Yates shuffle loop, modelling the `shuffle` method of
`SchedulingAlgorithm`: iteration `i` draws `j = g ctr % (i+1)` (the possible
values of `Math.floor(Math.random()*(i+1))`) and swaps positions `i` and
`j`.  Returns the shuffled list and the advanced tape counter. -/
def fyGo (g : Nat → Nat) : Nat → List α → Nat → List α × Nat
  | ctr, l, 0 => (l, ctr)
  | ctr, l, i + 1 => fyGo g (ctr + 1) (listSwap l (i + 1) (g ctr % (i + 2))) i

/-- Fisher-Yates shuffle of a list (see `fyGo`). -/
def shuffle (g : Nat → Nat) (ctr : Nat) (l : List α) : List α × Nat :=
  fyGo g ctr l (l.length - 1)

theorem fyGo_perm [DecidableEq α] (g : Nat → Nat) (ctr : Nat) (l : List α) (i : Nat) :
    (fyGo g ctr l i).1.Perm l := by
  induction i generalizing ctr l with
  | zero => exact List.Perm.refl _
  | succ i ih => exact (ih _ _).trans (listSwap_perm l (i + 1) (g ctr % (i + 2)))

theorem shuffle_perm [DecidableEq α] (g : Nat → Nat) (ctr : Nat) (l : List α) :
    (shuffle g ctr l).1.Perm l :=
  fyGo_perm g ctr l (l.length - 1)

theorem mem_shuffle [DecidableEq α] (g : Nat → Nat) (ctr : Nat) (l : List α) (x : α) :
    x ∈ (shuffle g ctr l).1 ↔ x ∈ l :=
  (shuffle_perm g ctr l).mem_iff

/-- Deduplication loop keeping the first occurrence of each element, the
`seen` accumulator holding already-emitted elements. -/
def dedupKFAux [DecidableEq α] (seen : List α) : List α → List α
  | [] => []
  | x :: xs => if x ∈ seen then dedupKFAux seen xs else x :: dedupKFAux (x :: seen) xs

/-- Deduplication keeping the first occurrence of each element, modelling
iteration order of a JavaScript `Set` and of object keys (insertion order,
first insertion wins). -/
def dedupKF [DecidableEq α] (l : List α) : List α := dedupKFAux [] l

theorem mem_dedupKFAux [DecidableEq α] (seen l : List α) (x : α) :
    x ∈ dedupKFAux seen l ↔ x ∈ l ∧ x ∉ seen := by
  induction l generalizing seen with
  | nil => simp [dedupKFAux]
  | cons y ys ih =>
    simp only [dedupKFAux]
    by_cases hy : y ∈ seen
    · rw [if_pos hy, ih]
      constructor
      · rintro ⟨h1, h2⟩
        exact ⟨List.mem_cons_of_mem y h1, h2⟩
      · rintro ⟨h1, h2⟩
        rcases List.mem_cons.mp h1 with rfl | h1
        · exact absurd hy h2
        · exact ⟨h1, h2⟩
    · rw [if_neg hy]
      simp only [List.mem_cons, ih, List.mem_cons]
      constructor
      · rintro (rfl | ⟨h1, h2⟩)
        · exact ⟨Or.inl rfl, hy⟩
        · exact ⟨Or.inr h1, fun hs => h2 (Or.inr hs)⟩
      · rintro ⟨rfl | h1, h2⟩
        · exact Or.inl rfl
        · by_cases hxy : x = y
          · exact Or.inl hxy
          · exact Or.inr ⟨h1, fun hs => (by
              rcases hs with hs | hs
              · exact hxy hs
              · exact h2 hs)⟩

theorem mem_dedupKF [DecidableEq α] (l : List α) (x : α) :
    x ∈ dedupKF l ↔ x ∈ l := by
  unfold dedupKF
  rw [mem_dedupKFAux]
  simp

theorem nodup_dedupKFAux [DecidableEq α] (seen l : List α) :
    (dedupKFAux seen l).Nodup := by
  induction l generalizing seen with
  | nil => simp [dedupKFAux]
  | cons y ys ih =>
    simp only [dedupKFAux]
    by_cases hy : y ∈ seen
    · rw [if_pos hy]; exact ih seen
    · rw [if_neg hy]
      refine List.nodup_cons.mpr ⟨?_, ih (y :: seen)⟩
      intro hmem
      exact ((mem_dedupKFAux _ _ y).mp hmem).2 (List.mem_cons_self y seen)

theorem nodup_dedupKF [DecidableEq α] (l : List α) : (dedupKF l).Nodup :=
  nodup_dedupKFAux [] l

theorem length_dedupKFAux_le [DecidableEq α] (seen l : List α) :
    (dedupKFAux seen l).length ≤ l.length := by
  induction l generalizing seen with
  | nil => simp [dedupKFAux]
  | cons y ys ih =>
    simp only [dedupKFAux]
    by_cases hy : y ∈ seen
    · rw [if_pos hy]
      exact le_trans (ih seen) (Nat.le_succ _)
    · rw [if_neg hy]
      exact Nat.succ_le_succ (ih (y :: seen))

theorem length_dedupKF_le [DecidableEq α] (l : List α) :
    (dedupKF l).length ≤ l.length := length_dedupKFAux_le [] l

/-- Number of distinct elements of a list (length of the keep-first dedup). -/
def distinctCount [DecidableEq α] (l : List α) : Nat := (dedupKF l).length

theorem flatMap_eq_nil_of_forall {f : α → List β} (l : List α)
    (h : ∀ x ∈ l, f x = []) : l.flatMap f = [] := by
  induction l with
  | nil => rfl
  | cons a t ih =>
    simp only [List.flatMap_cons, h a (List.mem_cons_self a t), List.nil_append]
    exact ih (fun x hx => h x (List.mem_cons_of_mem a hx))

theorem dedupKFAux_eq_self [DecidableEq α] (seen l : List α) (h : l.Nodup)
    (hd : ∀ x ∈ l, x ∉ seen) : dedupKFAux seen l = l := by
  induction l generalizing seen with
  | nil => rfl
  | cons y ys ih =>
    rcases List.nodup_cons.mp h with ⟨hy, hys⟩
    rw [dedupKFAux, if_neg (hd y (List.mem_cons_self y ys))]
    congr 1
    refine ih (y :: seen) hys ?_
    intro x hx
    intro hmem
    rcases List.mem_cons.mp hmem with rfl | hmem
    · exact hy hx
    · exact hd x (List.mem_cons_of_mem y hx) hmem

theorem dedupKF_eq_self [DecidableEq α] (l : List α) (h : l.Nodup) : dedupKF l = l :=
  dedupKFAux_eq_self [] l h (by simp)

theorem foldl_invariant {P : σ → Prop} (f : σ → α → σ) (l : List α) (s : σ)
    (h0 : P s) (hstep : ∀ s a, a ∈ l → P s → P (f s a)) : P (l.foldl f s) := by
  induction l generalizing s with
  | nil => exact h0
  | cons a t ih =>
    exact ih (f s a) (hstep s a (List.mem_cons_self a t) h0)
      (fun s b hb hP => hstep s b (List.mem_cons_of_mem a hb) hP)

/-! ## Data model

Mirrors the `Show`, `CastMember`, `Assignment` types and the module-level
constants of the scheduler source (`types.ts` re-exported constants
`FEMALE_ONLY_ROLES`, and the `roles` field / female-name allow-list of
`SchedulingAlgorithm`).  Dates are epoch-day numbers, times minutes since
midnight; the `callTime` field is never read by the algorithm and is
omitted. -/

structure Show where
  id : String
  date : Nat
  time : Nat
  status : String
deriving DecidableEq

structure CastMember where
  name : String
  eligibleRoles : List String
deriving DecidableEq

structure Assignment where
  showId : String
  role : String
  performer : String
  isRedDay : Bool
deriving DecidableEq

/-- The fixed 8-role list (the `roles` field of `SchedulingAlgorithm`). -/
def rolesList : List String :=
  ["Sarge", "Potato", "Mozzie", "Ringo", "Particle", "Bin", "Cornish", "Who"]

/-- The female-only roles (`FEMALE_ONLY_ROLES` from types.ts). -/
def FEMALE_ONLY_ROLES : List String := ["Bin", "Cornish"]

/-- Hardcoded female-name allow-list used by `isPerformerEligibleForRole`
and `validateSchedule`. -/
def femaleNames : List String := ["MOLLY", "JASMINE", "SERENA"]

/-- Datetime of a show in minutes, modelling
`new Date(date + "T" + time).getTime()` up to a positive scale factor (and a
fixed timezone offset that cancels in all differences the code takes). -/
def dateTime (s : Show) : Nat := s.date * 1440 + s.time

/-- Per-show role map (`ShowAssignment`): role name to performer name, the
empty string meaning unfilled. -/
abbrev ShowAsg := List (String × String)

/-- The `assignments` Map of the class, in insertion order. -/
abbrev AssignMap := List (String × ShowAsg)

def emptyShowAsg : ShowAsg := rolesList.map (fun r => (r, ""))

/-- Lookup in an association list (JavaScript `Map.get`). -/
def lookupAL (m : List (String × β)) (k : String) : Option β :=
  (m.find? (fun e => e.1 == k)).map (fun e => e.2)

/-- Insert-or-overwrite in an association list preserving insertion order
(JavaScript `Map.set`). -/
def upsertAL (m : List (String × β)) (k : String) (v : β) : List (String × β) :=
  if m.any (fun e => e.1 == k) then
    m.map (fun e => if e.1 == k then (k, v) else e)
  else m ++ [(k, v)]

/-- Fresh assignment map: one entry per show, all role cells empty (the
constructor / `clearAllAssignments`). -/
def mkInit (shows : List Show) : AssignMap :=
  shows.foldl (fun m s => upsertAL m s.id emptyShowAsg) []

/-- Fresh OFF-assignment map (the `offAssignments` Map). -/
def mkInitOff (shows : List Show) : List (String × List String) :=
  shows.foldl (fun m s => upsertAL m s.id []) []

/-- Reading one role cell, `showAssignment[role]` (missing key behaves like
the empty string: both are falsy and only compared to truthiness or ""). -/
def asgGet (asg : ShowAsg) (role : String) : String :=
  match asg.find? (fun rc => rc.1 == role) with
  | some rc => rc.2
  | none => ""

/-- Writing one role cell, `showAssignment[role] = p`. -/
def asgSet (asg : ShowAsg) (role p : String) : ShowAsg :=
  asg.map (fun rc => if rc.1 == role then (rc.1, p) else rc)

/-- Committing a performer to a role of a show in the assignments map. -/
def setRole (m : AssignMap) (sid role p : String) : AssignMap :=
  m.map (fun e => if e.1 == sid then (e.1, asgSet e.2 role p) else e)

/-! ## Indexing and caching layer (`getSortedActiveShows`, `getShowIndexMap`)

The caches are recomputed from `shows` alone and are cleared by
`clearAllAssignments` before every attempt, so they are modelled as pure
functions of the show list. -/

/-- Shows with status "show" sorted ascending by datetime
(`getSortedActiveShows`; JavaScript sort is stable, ties keep list order). -/
def sortedActiveShows (shows : List Show) : List Show :=
  stableSortBy (fun a b => decide (dateTime a ≤ dateTime b))
    (shows.filter (fun s => s.status == "show"))

/-- Map from show id to its position in the sorted active order
(`getShowIndexMap`; built by forEach + Map.set, so a duplicated id keeps the
last position). -/
def showIndexMap (shows : List Show) : List (String × Nat) :=
  ((sortedActiveShows shows).enum).foldl (fun m p => upsertAL m p.2.id p.1) []

def idxOf? (shows : List Show) (sid : String) : Option Nat :=
  lookupAL (showIndexMap shows) sid

def defaultShow : Show := ⟨"", 0, 0, ""⟩

/-- Indexing into the sorted active list (`sortedShows[i]`). -/
def getShowAt (ss : List Show) (i : Nat) : Show := ss.getD i defaultShow

/-- Helper: every binding of the show index map points at a position of the
sorted active list holding a show with that id. -/
theorem lookupAL_mem {β : Type} (m : List (String × β)) (k : String) (v : β)
    (h : lookupAL m k = some v) : (k, v) ∈ m := by
  unfold lookupAL at h
  cases hf : m.find? (fun e => e.1 == k) with
  | none => rw [hf] at h; exact absurd h (by simp)
  | some e =>
    rw [hf] at h
    have hv : e.2 = v := by simpa using h
    have hk : e.1 = k := by simpa using List.find?_some hf
    have he := List.mem_of_find?_eq_some hf
    obtain ⟨a, b⟩ := e
    simp only at hk hv
    subst hk
    subst hv
    exact he

theorem showIndexMap_spec (shows : List Show) (k : String) (v : Nat)
    (h : lookupAL (showIndexMap shows) k = some v) :
    v < (sortedActiveShows shows).length ∧
      (getShowAt (sortedActiveShows shows) v).id = k := by
  have hmem : (k, v) ∈ showIndexMap shows := lookupAL_mem _ k v h
  set ss := sortedActiveShows shows with hss
  have hP : ∀ e ∈ showIndexMap shows,
      e.2 < ss.length ∧ (getShowAt ss e.2).id = e.1 := by
    intro e he
    unfold showIndexMap at he
    revert e he
    refine foldl_invariant (P := fun (m : List (String × Nat)) => ∀ e ∈ m,
      e.2 < ss.length ∧ (getShowAt ss e.2).id = e.1) _ _ _ ?_ ?_
    · intro e he
      exact absurd he (List.not_mem_nil e)
    intro m p hp hPm e he
    obtain ⟨i, s⟩ := p
    have hidx : ss[i]? = some s := List.mk_mem_enum_iff_getElem?.mp hp
    have hlt : i < ss.length := (List.getElem?_eq_some.mp hidx).1
    have hget : ss[i] = s := (List.getElem?_eq_some.mp hidx).2
    have hkey : (getShowAt ss i).id = s.id := by
      unfold getShowAt
      simp only [List.getD_eq_getElem?_getD, List.getElem?_eq_getElem hlt, hget,
        Option.getD_some]
    simp only [upsertAL] at he
    by_cases hc : m.any (fun e => e.1 == s.id)
    · rw [if_pos hc] at he
      rcases List.mem_map.mp he with ⟨e0, he0, heq⟩
      by_cases hk : e0.1 == s.id
      · rw [if_pos hk] at heq
        subst heq
        exact ⟨hlt, hkey⟩
      · rw [if_neg hk] at heq
        subst heq
        exact hPm e0 he0
    · rw [if_neg hc] at he
      rcases List.mem_append.mp he with he0 | he0
      · exact hPm e he0
      · have : e = (s.id, i) := by simpa using he0
        subst this
        exact ⟨hlt, hkey⟩
  rcases hP (k, v) hmem with ⟨h1, h3⟩
  exact ⟨h1, h3⟩

/-! ## Constraint checkers (pure predicates over the current state) -/

/-- Test whether two sorted shows count as consecutive
(`areShowsConsecutive`): the floor of their datetime difference in days is
at most 2.  `Int.fdiv` is floor division, matching `Math.floor` on the
(possibly negative) real quotient. -/
def areShowsConsecutive (s1 s2 : Show) : Bool :=
  decide ((((dateTime s2 : Int) - (dateTime s1 : Int)).fdiv 1440) ≤ 2)

/-- Sort a list of naturals ascending (JavaScript `.sort((a,b) => a-b)`). -/
def sortNat (l : List Nat) : List Nat :=
  stableSortBy (fun a b => decide (a ≤ b)) l

/-- Loop of the longest-consecutive-run computation shared by
`canAssignPerformerToShow` and `getConsecutiveShowCount`: state is the
previous index, the current run length and the maximum so far. -/
def maxRunGo (ss : List Show) : Nat → Nat → Nat → List Nat → Nat
  | _, _, mx, [] => mx
  | prev, cur, mx, i :: rest =>
    if areShowsConsecutive (getShowAt ss prev) (getShowAt ss i) then
      maxRunGo ss i (cur + 1) (max mx (cur + 1)) rest
    else
      maxRunGo ss i 1 mx rest

/-- Longest run of pairwise-consecutive shows over a sorted index list
(`maxConsecutive` / `currentConsecutive` initialised to 1). -/
def maxConsecRun (ss : List Show) : List Nat → Nat
  | [] => 1
  | i :: rest => maxRunGo ss i 1 1 rest

/-- Test whether a performer holds a non-OFF role cell of one show entry. -/
def entryHasStage (p : String) (e : String × ShowAsg) : Bool :=
  e.2.any (fun rc => rc.2 == p && rc.1 != "OFF")

/-- Show ids in which the performer currently holds a non-OFF role, in map
iteration order (the `performerShows` Set built from `this.assignments`). -/
def performerShowIds (m : AssignMap) (p : String) : List String :=
  (m.filter (entryHasStage p)).map (fun e => e.1)

/-- Show ids in which the performer appears in any role cell
(`Object.values(showAssignment).includes(performer)` as used by the weekend
and back-to-back checks). -/
def performerAnyShowIds (m : AssignMap) (p : String) : List String :=
  (m.filter (fun e => e.2.any (fun rc => rc.2 == p))).map (fun e => e.1)

/-- Consecutive-show constraint check (`canAssignPerformerToShow`): false
exactly when the combined sorted index list (current non-OFF shows plus the
target appended, duplicates kept) contains a run of more than 6
pairwise-consecutive shows; a show id absent from the index map is allowed.
The source returns false from inside the loop as soon as the running
maximum exceeds 6, which is equivalent to comparing the final maximum. -/
def canAssignPerformerToShow (shows : List Show) (m : AssignMap) (p sid : String) : Bool :=
  match idxOf? shows sid with
  | none => true
  | some target =>
    let idxs := sortNat ((performerShowIds m p).filterMap (idxOf? shows))
    let newIdxs := sortNat (idxs ++ [target])
    decide (maxConsecRun (sortedActiveShows shows) newIdxs ≤ 6)

/-- Any adjacent pair of a list satisfying a test. -/
def adjPairsAny (f : Nat → Nat → Bool) : List Nat → Bool
  | a :: b :: rest => f a b || adjPairsAny f (b :: rest)
  | _ => false

/-- Back-to-back double-days check (`wouldViolateBackToBackDoubleDays`):
grouping the performer shows (current any-role shows plus the target) by
date, two adjacent sorted dates one day apart each holding exactly two
shows. -/
def wouldViolateBackToBackDoubleDays (shows : List Show) (m : AssignMap) (p sid : String) : Bool :=
  let allShows := sortedActiveShows shows
  match allShows.find? (fun s => s.id == sid) with
  | none => false
  | some targetShow =>
    let performerShows := targetShow ::
      (performerAnyShowIds m p).filterMap (fun cur =>
        match allShows.find? (fun s => s.id == cur) with
        | some sh => if sh.id != sid then some sh else none
        | none => none)
    let dates := sortNat (dedupKF (performerShows.map (fun s => s.date)))
    adjPairsAny (fun d1 d2 =>
      decide (d2 - d1 = 1 ∧ d1 < d2) &&
      decide ((performerShows.filter (fun s => s.date == d1)).length = 2) &&
      decide ((performerShows.filter (fun s => s.date == d2)).length = 2)) dates

/-- Day of week of an epoch day (0 = Sunday ... 6 = Saturday), modelling
`getUTCDay` of the noon-UTC parse, and `getDay` of the date-only parse under
the UTC-server assumption (epoch day 0 = Thursday = 4). -/
def dayOfWeek (d : Nat) : Nat := (d + 4) % 7

/-- Weekend grouping key (`wouldViolateWeekendRule`): for a Friday, Saturday
or Sunday, the Monday of the ISO week containing that weekend. -/
def weekendKey? (d : Nat) : Option Int :=
  let dow := dayOfWeek d
  if dow ≥ 5 || dow == 0 then
    some ((d : Int) + (if dow == 0 then (-6 : Int) else 1 - (dow : Int)))
  else none

/-- Weekend 4-show cap check (`wouldViolateWeekendRule`): more than 4 of the
performer shows (current any-role shows plus the target) fall in one
Friday-Sunday span. -/
def wouldViolateWeekendRule (shows : List Show) (m : AssignMap) (p sid : String) : Bool :=
  let allShows := sortedActiveShows shows
  match allShows.find? (fun s => s.id == sid) with
  | none => false
  | some targetShow =>
    let performerShows := targetShow ::
      (performerAnyShowIds m p).filterMap (fun cur =>
        match allShows.find? (fun s => s.id == cur) with
        | some sh => if sh.id != sid then some sh else none
        | none => none)
    let keys := (performerShows.map (fun s => s.date)).filterMap weekendKey?
    (dedupKF keys).any (fun k => decide (keys.count k > 4))

/-- Weekly cap check (`hasExceededWeeklyLimit`): the performer already holds
non-OFF roles in at least 6 shows. -/
def hasExceededWeeklyLimit (m : AssignMap) (p : String) : Bool :=
  decide ((performerShowIds m p).length ≥ 6)

/-- Already-on-this-show check (`isPerformerAssignedToShow`). -/
def isPerformerAssignedToShow (m : AssignMap) (p sid : String) : Bool :=
  match lookupAL m sid with
  | none => false
  | some asg => asg.any (fun rc => rc.2 == p)

/-- Current non-OFF show count (`getCurrentShowCount`), for load
balancing. -/
def getCurrentShowCount (m : AssignMap) (p : String) : Nat :=
  (performerShowIds m p).length

/-- Role and gender eligibility (`isPerformerEligibleForRole`): the
performer must exist in the roster, hold the role in `eligibleRoles`, and
for the female-only roles be on the female-name allow-list. -/
def isPerformerEligibleForRole (cast : List CastMember) (p role : String) : Bool :=
  match cast.find? (fun c => c.name == p) with
  | none => false
  | some c =>
    c.eligibleRoles.contains role &&
      (!(FEMALE_ONLY_ROLES.contains role) || femaleNames.contains p)

/-- Legal candidates for a role of a show (`getEligiblePerformers`): roster
members holding the role that pass all six checks. -/
def getEligiblePerformers (shows : List Show) (cast : List CastMember)
    (m : AssignMap) (role sid : String) : List CastMember :=
  (cast.filter (fun mem => mem.eligibleRoles.contains role)).filter (fun mem =>
    !(isPerformerAssignedToShow m mem.name sid) &&
    canAssignPerformerToShow shows m mem.name sid &&
    !(wouldViolateWeekendRule shows m mem.name sid) &&
    !(wouldViolateBackToBackDoubleDays shows m mem.name sid) &&
    !(hasExceededWeeklyLimit m mem.name) &&
    isPerformerEligibleForRole cast mem.name role)

/-! ## Sorting facts used to compare the checker with its specification -/

theorem sortNat_pairwise (l : List Nat) : (sortNat l).Pairwise (fun a b => a ≤ b) := by
  have h := pairwise_stableSortBy (fun a b : Nat => decide (a ≤ b))
    (fun a b => by rcases Nat.le_total a b with h | h <;> simp [h])
    (fun a b c h1 h2 => by
      simp only [decide_eq_true_eq] at h1 h2 ⊢
      exact le_trans h1 h2) l
  exact h.imp (fun h => of_decide_eq_true h)

theorem sortNat_eq_of_perm (l₁ l₂ : List Nat) (h : l₁.Perm l₂) :
    sortNat l₁ = sortNat l₂ := by
  refine List.eq_of_perm_of_sorted ?_ (sortNat_pairwise l₁) (sortNat_pairwise l₂)
  exact (stableSortBy_perm _ l₁).trans (h.trans (stableSortBy_perm _ l₂).symm)

theorem lookupAL_eq_of_mem_nodup {β : Type} (m : List (String × β)) (k : String) (v : β)
    (hm : (m.map (fun e => e.1)).Nodup) (hmem : (k, v) ∈ m) :
    lookupAL m k = some v := by
  induction m with
  | nil => exact absurd hmem (List.not_mem_nil _)
  | cons e rest ih =>
    have hm2 : (e.1 :: rest.map (fun e => e.1)).Nodup := by simpa using hm
    rcases List.nodup_cons.mp hm2 with ⟨hk, hrest⟩
    rcases List.mem_cons.mp hmem with rfl | hmem2
    · simp [lookupAL, List.find?]
    · have hne : e.1 ≠ k := by
        intro heq
        exact hk (heq ▸ List.mem_map.mpr ⟨(k, v), hmem2, rfl⟩)
      have : lookupAL rest k = some v := ih hrest hmem2
      simpa [lookupAL, List.find?_cons, hne] using this

/-! ## Claim C5 -/

/-- Claim-side predicate for C5, modelled from the specification text: adding
the target show to the performer's current SET of non-OFF shows (a no-op when
the show is already in the set) creates a run of more than 6 shows in which
every adjacent pair in global sorted show order is consecutive (floor of the
datetime difference in days at most 2). -/
def specConsecViolation (shows : List Show) (m : AssignMap) (p sid : String) : Bool :=
  match idxOf? shows sid with
  | none => false
  | some _ =>
    let ids := dedupKF (sid :: performerShowIds m p)
    decide (maxConsecRun (sortedActiveShows shows) (sortNat (ids.filterMap (idxOf? shows))) > 6)

/-- Six consecutive one-show days, all weekdays plus the weekend. -/
def showsC5 : List Show :=
  [⟨"c1", 20003, 1140, "show"⟩, ⟨"c2", 20004, 1140, "show"⟩,
   ⟨"c3", 20005, 1140, "show"⟩, ⟨"c4", 20006, 1140, "show"⟩,
   ⟨"c5", 20007, 1140, "show"⟩, ⟨"c6", 20008, 1140, "show"⟩]

/-- State with performer P holding Sarge in all six shows. -/
def mC5 : AssignMap :=
  List.foldl (fun m sid => setRole m sid "Sarge" "P") (mkInit showsC5)
    ["c1", "c2", "c3", "c4", "c5", "c6"]

/-- C5: the claim "canAssignPerformerToShow returns false if and only if
adding that show to the performer's current set of non-OFF shows creates a
run of more than 6 consecutive shows" fails when the performer already holds
a role in the target show: the code appends the target index to the index
array without deduplication, counts it twice, and reports a run of 7 where
the set semantics sees a run of 6.  Concretely, with P holding a role in six
consecutive shows and the target being one of them, the function returns
false although the set-semantics run is 6 and the claim predicts true. -/
theorem C5_counterexample :
    (idxOf? showsC5 "c3").isSome = true ∧
    canAssignPerformerToShow showsC5 mC5 "P" "c3" = false ∧
    specConsecViolation showsC5 mC5 "P" "c3" = false := by decide

/-- C5 (amended): for a performer that does not already appear in the target
show the claim holds: `canAssignPerformerToShow` returns false exactly when
the set-semantics run bound is violated, and a show id missing from the
index map is always allowed. -/
theorem C5_amended (shows : List Show) (m : AssignMap) (p sid : String)
    (hm : (m.map (fun e => e.1)).Nodup)
    (h : isPerformerAssignedToShow m p sid = false) :
    (canAssignPerformerToShow shows m p sid = !(specConsecViolation shows m p sid)) ∧
    (idxOf? shows sid = none → canAssignPerformerToShow shows m p sid = true) := by
  constructor
  · cases hidx : idxOf? shows sid with
    | none => simp [canAssignPerformerToShow, specConsecViolation, hidx]
    | some target =>
      have hnotin : sid ∉ performerShowIds m p := by
        intro hin
        unfold performerShowIds at hin
        rcases List.mem_map.mp hin with ⟨e, he, heq⟩
        have hfil := List.mem_filter.mp he
        have hlook : lookupAL m sid = some e.2 := by
          have : (sid, e.2) ∈ m := by
            have : e = (sid, e.2) := by
              cases e
              simp only at heq
              rw [heq]
            exact this ▸ hfil.1
          exact lookupAL_eq_of_mem_nodup m sid e.2 hm this
        have : isPerformerAssignedToShow m p sid = true := by
          unfold isPerformerAssignedToShow
          rw [hlook]
          have := hfil.2
          rcases List.any_eq_true.mp this with ⟨rc, hrc, hrc2⟩
          refine List.any_eq_true.mpr ⟨rc, hrc, ?_⟩
          have hsplit : (rc.2 == p) = true ∧ (rc.1 != "OFF") = true := by
            simpa using hrc2
          exact hsplit.1
        rw [this] at h
        exact absurd h (by simp)
      have hnodup : (sid :: performerShowIds m p).Nodup := by
        refine List.nodup_cons.mpr ⟨hnotin, ?_⟩
        unfold performerShowIds
        have hsub : ((m.filter (fun e => e.2.any (fun rc => rc.2 == p && rc.1 != "OFF"))).map
            (fun e => e.1)).Sublist (m.map (fun e => e.1)) :=
          (List.filter_sublist m).map (fun e => e.1)
        exact hm.sublist hsub
      have hded : dedupKF (sid :: performerShowIds m p) = sid :: performerShowIds m p :=
        dedupKF_eq_self _ hnodup
      have hlist : sortNat ((dedupKF (sid :: performerShowIds m p)).filterMap (idxOf? shows)) =
          sortNat (sortNat ((performerShowIds m p).filterMap (idxOf? shows)) ++ [target]) := by
        rw [hded]
        apply sortNat_eq_of_perm
        simp only [List.filterMap_cons, hidx]
        exact ((List.perm_append_singleton target _).trans
          ((stableSortBy_perm _ _).cons target)).symm
      unfold canAssignPerformerToShow specConsecViolation
      rw [hidx]
      simp only
      rw [hlist]
      by_cases h6 : maxConsecRun (sortedActiveShows shows)
          (sortNat (sortNat ((performerShowIds m p).filterMap (idxOf? shows)) ++ [target])) ≤ 6
      · simp [h6, Nat.not_lt.mpr h6]
      · simp [h6, Nat.lt_of_not_le h6]
  · intro hidx
    simp [canAssignPerformerToShow, hidx]

/-- State with performer P holding Sarge in the first two shows only. -/
def mW5 : AssignMap :=
  List.foldl (fun m sid => setRole m sid "Sarge" "P") (mkInit showsC5) ["c1", "c2"]

/-- Witness for C5 (amended) at a concrete state where P is not on the
target show. -/
theorem C5_witness :
    (mW5.map (fun e => e.1)).Nodup ∧
    isPerformerAssignedToShow mW5 "P" "c4" = false ∧
    canAssignPerformerToShow showsC5 mW5 "P" "c4" = !(specConsecViolation showsC5 mW5 "P" "c4") := by
  refine ⟨by decide, by decide, ?_⟩
  exact (C5_amended showsC5 mW5 "P" "c4" (by decide) (by decide)).1

/-! ## Validator (`validateSchedule`, `analyzeConsecutiveShows`)

Error message strings are reproduced exactly.  The date rendering
`formatDateForValidation` produces a locale string ("Mon Sep 23 8:00 PM") in
the source; it is abstracted here to a digits-and-space rendering of the
(epoch-day, minutes) pair, which like the original cannot contain any of the
eight acceptance substrings, the only way the claims observe message
content. -/

def formatDateForValidation (date time : Nat) : String :=
  toString date ++ " " ++ toString time

def showDateStr (s : Show) : String := formatDateForValidation s.date s.time

def mkUnderCountError (d : String) (missing : Nat) : String :=
  "Show " ++ d ++ ": Missing " ++ toString missing ++ " performer" ++
    (if missing > 1 then "s" else "") ++ " - must have exactly 8 on stage"

def mkOverCountError (d : String) (n : Nat) : String :=
  "Show " ++ d ++ ": Has " ++ toString n ++
    " performers but can only have 8 - remove duplicate assignments"

def mkMissingRolesError (d : String) (missing : List String) : String :=
  "Show " ++ d ++ ": Missing roles: " ++ String.intercalate ", " missing ++
    " - assign performers to these roles"

def mkUnknownPerformerError (d p role : String) : String :=
  "Show " ++ d ++ ": Unknown performer \"" ++ p ++ "\" assigned to " ++ role

def mkRoleEligError (d p role : String) : String :=
  "Show " ++ d ++ ": " ++ p ++ " cannot perform " ++ role ++ " - not in eligible roles"

def mkGenderEligError (d p role : String) : String :=
  "Show " ++ d ++ ": " ++ p ++ " cannot perform " ++ role ++ " - role requires female performer"

def mkDupRolesError (d p : String) (roles : List String) : String :=
  "Show " ++ d ++ ": " ++ p ++ " assigned to multiple roles (" ++
    String.intercalate ", " roles ++ ") - each performer can only have one role per show"

def mkConsecError (p : String) (count : Nat) (d1 d2 : String) : String :=
  p ++ " has " ++ toString count ++ " consecutive shows (" ++ d1 ++ " to " ++ d2 ++
    ") - exceeds maximum of 6 consecutive shows"

def mkBTBError (p : String) (d1 d2 : Nat) : String :=
  p ++ " has 4 shows across 2 consecutive days (" ++ toString d1 ++ " and " ++
    toString d2 ++ ") - violates back-to-back double days rule"

def mkWeekendError (p : String) (n : Nat) : String :=
  p ++ " has " ++ toString n ++ " shows over a weekend (Fri-Sun) - exceeds maximum of 4."

def mkMultiRedError (p : String) : String :=
  p ++ " has more than one RED day assigned."

def mkNoRedWarning (p : String) : String :=
  p ++ " does not have a RED day assigned."

def mkRedRoleError (p : String) (d : Nat) : String :=
  p ++ " has a RED day on " ++ toString d ++ " but is also assigned to a role on that day."

def mkUnderutilizedWarning (p : String) (n : Nat) : String :=
  p ++ " only has " ++ toString n ++ " show" ++ (if n == 1 then "" else "s") ++ " (underutilized)"

def mkOverworkedWarning (p : String) (n : Nat) : String :=
  p ++ " has " ++ toString n ++ " shows (potentially overworked)"

/-- Stage rows of one show: its assignment group without the OFF rows. -/
def stageRowsOf (A : List Assignment) (sid : String) : List Assignment :=
  (A.filter (fun a => a.showId == sid)).filter (fun a => a.role != "OFF")

/-- Number of distinct performers holding a non-OFF role in one show (the
validator's `uniquePerformers.size`). -/
def stagePerformerCount (A : List Assignment) (sid : String) : Nat :=
  distinctCount ((stageRowsOf A sid).map (fun a => a.performer))

/-- Errors of the per-show section for one show (headcount, unfilled roles,
eligibility, duplicate role-holding), in source push order. -/
def perShowErrorsFor (cast : List CastMember) (A : List Assignment) (s : Show) : List String :=
  let d := showDateStr s
  let stage := stageRowsOf A s.id
  let uniq := stagePerformerCount A s.id
  let headcount :=
    if uniq ≠ 8 then
      if uniq < 8 then [mkUnderCountError d (8 - uniq)]
      else [mkOverCountError d uniq]
    else []
  let filled := dedupKF (stage.map (fun a => a.role))
  let rolesMissing :=
    if filled.length ≠ 8 then
      if filled.length < 8 then
        [mkMissingRolesError d (rolesList.filter (fun r => !(filled.contains r)))]
      else []
    else []
  let elig := stage.flatMap (fun a =>
    match cast.find? (fun c => c.name == a.performer) with
    | none => [mkUnknownPerformerError d a.performer a.role]
    | some c =>
      if !(c.eligibleRoles.contains a.role) then [mkRoleEligError d a.performer a.role]
      else if FEMALE_ONLY_ROLES.contains a.role && !(femaleNames.contains a.performer) then
        [mkGenderEligError d a.performer a.role]
      else [])
  let dups := (dedupKF (stage.map (fun a => a.performer))).filterMap (fun p =>
    let rows := stage.filter (fun a => a.performer == p)
    if rows.length > 1 then some (mkDupRolesError d p (rows.map (fun a => a.role)))
    else none)
  headcount ++ rolesMissing ++ elig ++ dups

def perShowErrors (shows : List Show) (cast : List CastMember) (A : List Assignment) : List String :=
  (shows.filter (fun s => s.status == "show")).flatMap (perShowErrorsFor cast A)

/-- Consecutive-run record (`ConsecutiveSequence`). -/
structure ConsecutiveSequence where
  startIndex : Nat
  endIndex : Nat
  count : Nat
  startDate : String
  endDate : String
deriving DecidableEq

/-- Per-performer derived data (`PerformerShowData`; the `sortedShows` field
of the source interface is recomputable from `showIndexes` and is not read
by validation, so it is omitted). -/
structure PerformerShowData where
  showIndexes : List Nat
  maxConsecutive : Nat
  sequences : List ConsecutiveSequence
deriving DecidableEq

/-- Split a sorted index list into maximal runs of pairwise-consecutive
shows, the segmentation performed by `findConsecutiveSequences`. -/
def splitRunsGo (ss : List Show) (run : List Nat) : List Nat → List (List Nat)
  | [] => [run.reverse]
  | i :: rest =>
    match run with
    | [] => splitRunsGo ss [i] rest
    | prev :: _ =>
      if areShowsConsecutive (getShowAt ss prev) (getShowAt ss i) then
        splitRunsGo ss (i :: run) rest
      else
        run.reverse :: splitRunsGo ss [i] rest

def splitRuns (ss : List Show) : List Nat → List (List Nat)
  | [] => []
  | i :: rest => splitRunsGo ss [i] rest

/-- Sequence records of `findConsecutiveSequences`: one record per maximal
run longer than 6, with formatted boundary dates. -/
def findConsecutiveSequences (ss : List Show) (sortedIdxs : List Nat) :
    Nat × List ConsecutiveSequence :=
  let runs := splitRuns ss sortedIdxs
  let seqs := runs.filterMap (fun run =>
    if run.length > 6 then
      some ⟨run.headD 0, run.getLastD 0, run.length,
        showDateStr (getShowAt ss (run.headD 0)),
        showDateStr (getShowAt ss (run.getLastD 0))⟩
    else none)
  let mx := runs.foldl (fun mx r => max mx r.length) 1
  (mx, seqs)

/-- Per-performer consecutive-show analysis (`analyzeConsecutiveShows`),
cache-free form: one entry per roster name (first occurrence order), show
index sets built from the non-OFF assignments. -/
def analyzeConsecutiveShows (shows : List Show) (cast : List CastMember)
    (A : List Assignment) : List (String × PerformerShowData) :=
  let ss := sortedActiveShows shows
  let names := dedupKF (cast.map (fun c => c.name))
  names.map (fun n =>
    let idxs := dedupKF ((A.filter (fun a => a.role != "OFF" && a.performer == n)).filterMap
      (fun a => idxOf? shows a.showId))
    if idxs.length = 0 then (n, ⟨idxs, 0, []⟩)
    else
      let (mx, seqs) := findConsecutiveSequences ss (sortNat idxs)
      (n, ⟨idxs, mx, seqs⟩))

/-- Errors produced from the consecutive analysis (count above 6). -/
def consecErrorsOf (data : List (String × PerformerShowData)) : List String :=
  data.flatMap (fun nd => nd.2.sequences.filterMap (fun seq =>
    if seq.count > 6 then some (mkConsecError nd.1 seq.count seq.startDate seq.endDate)
    else none))

/-- Collect an optional error per adjacent pair of a sorted date list. -/
def adjPairsCollect (f : Nat → Nat → Option String) : List Nat → List String
  | a :: b :: rest =>
    (match f a b with
     | some e => [e]
     | none => []) ++ adjPairsCollect f (b :: rest)
  | _ => []

/-- Back-to-back double day errors for one roster member (the validator
loop: exactly two shows on each of two dates one day apart). -/
def btbErrorsFor (activeShows : List Show) (A : List Assignment) (mem : CastMember) : List String :=
  let performerShows := (A.filter (fun a => a.performer == mem.name && a.role != "OFF")).filterMap
    (fun a => activeShows.find? (fun s => s.id == a.showId))
  let dates := sortNat (dedupKF (performerShows.map (fun s => s.date)))
  adjPairsCollect (fun d1 d2 =>
    if (performerShows.filter (fun s => s.date == d1)).length = 2 ∧
        (performerShows.filter (fun s => s.date == d2)).length = 2 ∧
        d1 < d2 ∧ d2 - d1 = 1 then
      some (mkBTBError mem.name d1 d2)
    else none) dates

/-- Weekend-cap errors for one roster member (more than 4 shows in one
Friday-Sunday span). -/
def weekendErrorsFor (activeShows : List Show) (A : List Assignment) (mem : CastMember) : List String :=
  let performerShows := (A.filter (fun a => a.performer == mem.name && a.role != "OFF")).filterMap
    (fun a => activeShows.find? (fun s => s.id == a.showId))
  let keys := (performerShows.map (fun s => s.date)).filterMap weekendKey?
  (dedupKF keys).filterMap (fun k =>
    if keys.count k > 4 then some (mkWeekendError mem.name (keys.count k))
    else none)

/-- RED-day validation section: per roster name the deduplicated dates of
its RED OFF assignments; errors for more than one RED date and for RED
dates on which the performer still holds a role, a warning for zero RED
dates.  Returns (errors, warnings) in source push order. -/
def redSection (activeShows : List Show) (cast : List CastMember) (A : List Assignment) :
    List String × List String :=
  let names := dedupKF (cast.map (fun c => c.name))
  let redDatesOf := fun (p : String) =>
    dedupKF ((A.filter (fun a => a.role == "OFF" && a.isRedDay && a.performer == p)).filterMap
      (fun a => (activeShows.find? (fun s => s.id == a.showId)).map (fun s => s.date)))
  let errs := names.flatMap (fun p =>
    let reds := redDatesOf p
    (if reds.length > 1 then [mkMultiRedError p] else []) ++
    reds.filterMap (fun redDate =>
      let showsOnRedDate := activeShows.filter (fun s => s.date == redDate)
      let onDate := A.filter (fun a =>
        a.performer == p && showsOnRedDate.any (fun s => s.id == a.showId))
      if onDate.all (fun a => a.role == "OFF") then none
      else some (mkRedRoleError p redDate)))
  let warns := names.filterMap (fun p =>
    if cast.any (fun m => m.name == p) && (redDatesOf p).length = 0 then
      some (mkNoRedWarning p)
    else none)
  (errs, warns)

/-- Distinct active-show counts per roster name (`getShowCounts`). -/
def getShowCounts (cast : List CastMember) (activeShows : List Show)
    (A : List Assignment) : List (String × Nat) :=
  (dedupKF (cast.map (fun c => c.name))).map (fun n =>
    (n, distinctCount ((A.filter (fun a =>
      a.role != "OFF" && a.performer == n &&
        activeShows.any (fun s => s.id == a.showId))).map (fun a => a.showId))))

/-- Ceiling of `3*n / (2*m)`, the exact value of
`Math.ceil(averageShows * 1.5)`; double rounding of `n/m` can in principle
shift the float result by one ulp, which none of the claims observe since
these warnings never block acceptance. -/
def overworkThreshold (aLen castLen : Nat) : Nat :=
  if aLen = 0 then 0 else (3 * aLen + 2 * castLen - 1) / (2 * castLen)

/-- Workload distribution warnings (underutilized / potentially
overworked). -/
def distWarnings (cast : List CastMember) (activeShows : List Show)
    (A : List Assignment) : List String :=
  let counts := getShowCounts cast activeShows A
  let aLen := activeShows.length
  counts.filterMap (fun pc =>
    if pc.2 < 2 ∧ pc.2 > 0 ∧ aLen ≥ 4 then some (mkUnderutilizedWarning pc.1 pc.2)
    else if pc.2 > overworkThreshold aLen cast.length ∧ aLen > 4 then
      some (mkOverworkedWarning pc.1 pc.2)
    else none)

structure ConstraintResult where
  isValid : Bool
  errors : List String
  warnings : List String
deriving DecidableEq

/-- Validation given the consecutive-analysis data (every other section is
recomputed from the assignments on each call). -/
def validateCore (shows : List Show) (cast : List CastMember) (A : List Assignment)
    (data : List (String × PerformerShowData)) : ConstraintResult :=
  let activeShows := shows.filter (fun s => s.status == "show")
  let e1 := perShowErrors shows cast A
  let e2 := consecErrorsOf data
  let e3 := cast.flatMap (btbErrorsFor activeShows A)
  let e4 := cast.flatMap (weekendErrorsFor activeShows A)
  let rs := redSection activeShows cast A
  let errors := e1 ++ e2 ++ e3 ++ e4 ++ rs.1
  ⟨errors.isEmpty, errors, rs.2 ++ distWarnings cast activeShows A⟩

/-- Stateful `validateSchedule`: the consecutive analysis is cached in the
instance field `_performerShowCache` and reused by any later call on the
same instance while the cache is set. -/
def validateSt (shows : List Show) (cast : List CastMember)
    (c : Option (List (String × PerformerShowData))) (A : List Assignment) :
    ConstraintResult × Option (List (String × PerformerShowData)) :=
  let d := match c with
    | some d => d
    | none => analyzeConsecutiveShows shows cast A
  (validateCore shows cast A d, some d)

/-- Public `validateSchedule` on a fresh instance (empty cache). -/
def validateSchedule (shows : List Show) (cast : List CastMember)
    (A : List Assignment) : ConstraintResult :=
  (validateSt shows cast none A).1

/-- Acceptance filter of the retry loop (`autoGenerate` lines 691-697):
substring tests over the validator error strings. -/
def hasCriticalErrors (errs : List String) : Bool :=
  errs.any (fun e =>
    strIncludes "exactly 8" e || strIncludes "needs exactly" e ||
    strIncludes "multiple roles" e || strIncludes "not eligible" e ||
    strIncludes "exceeds maximum of 6 consecutive" e ||
    strIncludes "back-to-back double days" e ||
    strIncludes "shows over a weekend" e || strIncludes "exceeds maximum of 4" e)

theorem strIncludes_append_right (pat pre suf : String) (h : strIncludes pat suf = true) :
    strIncludes pat (pre ++ suf) = true := by
  unfold strIncludes at h ⊢
  apply decide_eq_true
  rw [String.data_append]
  exact (of_decide_eq_true h).trans (List.suffix_append pre.data suf.data).isInfix

theorem strIncludes_append_left (pat pre suf : String) (h : strIncludes pat pre = true) :
    strIncludes pat (pre ++ suf) = true := by
  unfold strIncludes at h ⊢
  apply decide_eq_true
  rw [String.data_append]
  exact (of_decide_eq_true h).trans (List.prefix_append pre.data suf.data).isInfix

/-! ## Claim C4 -/

/-- Roster and shows for the validator statefulness claim: one performer,
seven consecutive show days. -/
def castC4 : List CastMember := [⟨"P", ["Sarge"]⟩]

def showsC4 : List Show :=
  [⟨"v1", 20003, 1140, "show"⟩, ⟨"v2", 20004, 1140, "show"⟩,
   ⟨"v3", 20005, 1140, "show"⟩, ⟨"v4", 20006, 1140, "show"⟩,
   ⟨"v5", 20007, 1140, "show"⟩, ⟨"v6", 20008, 1140, "show"⟩,
   ⟨"v7", 20009, 1140, "show"⟩]

/-- Empty assignment list (first validation input). -/
def AC4 : List Assignment := []

/-- Second validation input: P holds a role in all seven consecutive
shows. -/
def BC4 : List Assignment :=
  [⟨"v1", "Sarge", "P", false⟩, ⟨"v2", "Sarge", "P", false⟩,
   ⟨"v3", "Sarge", "P", false⟩, ⟨"v4", "Sarge", "P", false⟩,
   ⟨"v5", "Sarge", "P", false⟩, ⟨"v6", "Sarge", "P", false⟩,
   ⟨"v7", "Sarge", "P", false⟩]

/-- C4: validateSchedule is not stateless across calls on one instance.
Validating B directly after validating A reuses the consecutive-show
analysis cached from A (`_performerShowCache` is non-null and returned
as-is by `analyzeConsecutiveShows`), so B's 7-show consecutive violation is
missed; a fresh instance reports it.  The errors of the two runs differ,
refuting the purity claim. -/
theorem C4_counterexample :
    ((validateSt showsC4 castC4 (validateSt showsC4 castC4 none AC4).2 BC4).1).errors ≠
      (validateSchedule showsC4 castC4 BC4).errors := by decide

/-- C4 (amended): calling validateSchedule twice with the same assignments
on the same instance does return identical results (the second call reuses
the cache the first call computed from exactly these assignments, or both
reuse the same pre-existing cache), for every starting cache state. -/
theorem C4_amended (shows : List Show) (cast : List CastMember)
    (c : Option (List (String × PerformerShowData))) (A : List Assignment) :
    (validateSt shows cast c A).1 =
      (validateSt shows cast (validateSt shows cast c A).2 A).1 := by
  cases c <;> rfl

/-! ## Claim C3 -/

/-- Roster for the acceptance-filter claim: eight performers, BOB not
eligible for Sarge. -/
def castC3 : List CastMember :=
  [⟨"BOB", ["Potato"]⟩, ⟨"P2", ["Potato"]⟩, ⟨"P3", ["Mozzie"]⟩, ⟨"P4", ["Ringo"]⟩,
   ⟨"P5", ["Particle"]⟩, ⟨"MOLLY", ["Bin"]⟩, ⟨"JASMINE", ["Cornish"]⟩, ⟨"P8", ["Who"]⟩]

def showsC3 : List Show := [⟨"t1", 20003, 1140, "show"⟩]

/-- A full 8-role assignment of the single show in which BOB holds Sarge
without being eligible for it. -/
def AC3 : List Assignment :=
  [⟨"t1", "Sarge", "BOB", false⟩, ⟨"t1", "Potato", "P2", false⟩,
   ⟨"t1", "Mozzie", "P3", false⟩, ⟨"t1", "Ringo", "P4", false⟩,
   ⟨"t1", "Particle", "P5", false⟩, ⟨"t1", "Bin", "MOLLY", false⟩,
   ⟨"t1", "Cornish", "JASMINE", false⟩, ⟨"t1", "Who", "P8", false⟩]

/-- C3: an attempt whose validation output consists of exactly one
role-eligibility error is ACCEPTED by the retry-loop filter, contradicting
the claim that role-eligibility errors are rejected: the emitted message
"... cannot perform ... - not in eligible roles" does not contain the
tested substring "not eligible" (nor any other of the eight patterns), so
`hasCriticalErrors` is false. -/
theorem C3_counterexample :
    (validateSchedule showsC3 castC3 AC3).errors =
      [mkRoleEligError (showDateStr ⟨"t1", 20003, 1140, "show"⟩) "BOB" "Sarge"] ∧
    hasCriticalErrors (validateSchedule showsC3 castC3 AC3).errors = false := by decide

/-- C3 (amended): the retry loop accepts an attempt exactly when no
validator error string contains one of the eight tested substrings; this
blocks every under-headcount, duplicate-role, over-6-consecutive,
back-to-back and weekend error (their fixed message parts always match),
while role-eligibility, gender-eligibility and over-headcount errors never
block, and warnings are not consulted at all. -/
theorem C3_amended :
    (∀ (errs : List String) (e : String), e ∈ errs → hasCriticalErrors [e] = true →
      hasCriticalErrors errs = true) ∧
    (∀ (d : String) (k : Nat), hasCriticalErrors [mkUnderCountError d k] = true) ∧
    (∀ (d p : String) (roles : List String), hasCriticalErrors [mkDupRolesError d p roles] = true) ∧
    (∀ (p : String) (c : Nat) (d1 d2 : String), hasCriticalErrors [mkConsecError p c d1 d2] = true) ∧
    (∀ (p : String) (d1 d2 : Nat), hasCriticalErrors [mkBTBError p d1 d2] = true) ∧
    (∀ (p : String) (n : Nat), hasCriticalErrors [mkWeekendError p n] = true) ∧
    hasCriticalErrors [mkRoleEligError "20003 1140" "ALICE" "Sarge"] = false ∧
    hasCriticalErrors [mkGenderEligError "20003 1140" "ALICE" "Bin"] = false ∧
    hasCriticalErrors [mkOverCountError "20003 1140" 9] = false ∧
    (∀ r1 r2 : ConstraintResult, r1.errors = r2.errors →
      hasCriticalErrors r1.errors = hasCriticalErrors r2.errors) := by
  refine ⟨?_, ?_, ?_, ?_, ?_, ?_, by decide, by decide, by decide, ?_⟩
  · intro errs e hmem hcrit
    unfold hasCriticalErrors at hcrit ⊢
    rcases List.any_eq_true.mp hcrit with ⟨e2, he2, hp⟩
    have : e2 = e := by simpa using he2
    subst this
    exact List.any_eq_true.mpr ⟨e2, hmem, hp⟩
  · intro d k
    unfold hasCriticalErrors mkUnderCountError
    have h : strIncludes "exactly 8"
        (("Show " ++ d ++ ": Missing " ++ toString k ++ " performer" ++
          (if k > 1 then "s" else "")) ++ " - must have exactly 8 on stage") = true :=
      strIncludes_append_right _ _ _ (by decide)
    simp only [List.any_cons, List.any_nil]
    rw [show ("Show " ++ d ++ ": Missing " ++ toString k ++ " performer" ++
          (if k > 1 then "s" else "") ++ " - must have exactly 8 on stage") =
        (("Show " ++ d ++ ": Missing " ++ toString k ++ " performer" ++
          (if k > 1 then "s" else "")) ++ " - must have exactly 8 on stage") from rfl]
    rw [h]
    simp
  · intro d p roles
    unfold hasCriticalErrors mkDupRolesError
    have h : strIncludes "multiple roles"
        ((("Show " ++ d ++ ": " ++ p ++ " assigned to multiple roles (") ++
          String.intercalate ", " roles) ++
          ") - each performer can only have one role per show") = true := by
      apply strIncludes_append_left
      apply strIncludes_append_left
      exact strIncludes_append_right _ _ _ (by decide)
    simp only [List.any_cons, List.any_nil]
    rw [show ("Show " ++ d ++ ": " ++ p ++ " assigned to multiple roles (" ++
          String.intercalate ", " roles ++
          ") - each performer can only have one role per show") =
        ((("Show " ++ d ++ ": " ++ p ++ " assigned to multiple roles (") ++
          String.intercalate ", " roles) ++
          ") - each performer can only have one role per show") from rfl]
    rw [h]
    simp
  · intro p c d1 d2
    unfold hasCriticalErrors mkConsecError
    have h : strIncludes "exceeds maximum of 6 consecutive"
        ((p ++ " has " ++ toString c ++ " consecutive shows (" ++ d1 ++ " to " ++ d2) ++
          ") - exceeds maximum of 6 consecutive shows") = true :=
      strIncludes_append_right _ _ _ (by decide)
    simp only [List.any_cons, List.any_nil]
    rw [show (p ++ " has " ++ toString c ++ " consecutive shows (" ++ d1 ++ " to " ++ d2 ++
          ") - exceeds maximum of 6 consecutive shows") =
        ((p ++ " has " ++ toString c ++ " consecutive shows (" ++ d1 ++ " to " ++ d2) ++
          ") - exceeds maximum of 6 consecutive shows") from rfl]
    rw [h]
    simp
  · intro p d1 d2
    unfold hasCriticalErrors mkBTBError
    have h : strIncludes "back-to-back double days"
        ((p ++ " has 4 shows across 2 consecutive days (" ++ toString d1 ++ " and " ++
          toString d2) ++ ") - violates back-to-back double days rule") = true :=
      strIncludes_append_right _ _ _ (by decide)
    simp only [List.any_cons, List.any_nil]
    rw [show (p ++ " has 4 shows across 2 consecutive days (" ++ toString d1 ++ " and " ++
          toString d2 ++ ") - violates back-to-back double days rule") =
        ((p ++ " has 4 shows across 2 consecutive days (" ++ toString d1 ++ " and " ++
          toString d2) ++ ") - violates back-to-back double days rule") from rfl]
    rw [h]
    simp
  · intro p n
    unfold hasCriticalErrors mkWeekendError
    have h : strIncludes "shows over a weekend"
        ((p ++ " has " ++ toString n) ++
          " shows over a weekend (Fri-Sun) - exceeds maximum of 4.") = true :=
      strIncludes_append_right _ _ _ (by decide)
    simp only [List.any_cons, List.any_nil]
    rw [show (p ++ " has " ++ toString n ++
          " shows over a weekend (Fri-Sun) - exceeds maximum of 4.") =
        ((p ++ " has " ++ toString n) ++
          " shows over a weekend (Fri-Sun) - exceeds maximum of 4.") from rfl]
    rw [h]
    simp
  · intro r1 r2 h
    rw [h]

/-- Witness for C3 (amended): the propagation conjunct applied at a
concrete error list containing an under-headcount message. -/
theorem C3_witness :
    mkUnderCountError "20003 1140" 3 ∈ [mkUnderCountError "20003 1140" 3] ∧
    hasCriticalErrors [mkUnderCountError "20003 1140" 3] = true := by
  refine ⟨List.mem_cons_self _ _, ?_⟩
  exact C3_amended.1 [mkUnderCountError "20003 1140" 3] (mkUnderCountError "20003 1140" 3)
    (List.mem_cons_self _ _) (C3_amended.2.1 "20003 1140" 3)

/-! ## Constructive assignment engine (`generateScheduleAttempt` and parts) -/

/-- Generation state: the `assignments` and `offAssignments` maps plus the
random-tape counter. -/
structure GenState where
  m : AssignMap
  off : List (String × List String)
  ctr : Nat
deriving DecidableEq

/-- Fresh per-attempt state (`clearAllAssignments`). -/
def clearedState (shows : List Show) (ctr : Nat) : GenState :=
  ⟨mkInit shows, mkInitOff shows, ctr⟩

/-- Selection of the performer for a role (`selectBestPerformer`).  The
source sorts the candidates with a comparator that mixes the workload
difference with `Math.random()` for near ties; a sort with an inconsistent
comparator is implementation-defined in ECMAScript but always returns a
permutation of its input, so the result is modelled as a tape-driven
permutation, of which the head is returned (`sortedPerformers[0]`; `null`
on an empty candidate list). -/
def selectBestPerformer (g : Nat → Nat) (ctr : Nat) (eligible : List CastMember) :
    Option String × Nat :=
  match shuffle g ctr eligible with
  | ([], c) => (none, c)
  | (mem :: _, c) => (some mem.name, c)

/-- OFF-member selection for a show.  `selectOffMembersWithFairness` ranks
the unassigned roster members by a deterministic priority with a random
tiebreak and takes the top 4, returning the whole list when fewer than 4
are unassigned, in which case `assignRolesForShow` falls back to
`selectOffMembersOld`, a uniformly random pick of up to 4.  Every reachable
outcome is a tape-dependent choice of min(4, unassigned) unassigned names,
modelled as the 4-prefix of a tape-driven permutation of the unassigned
roster. -/
def selectOffMembers (g : Nat → Nat) (ctr : Nat) (cast : List CastMember)
    (m : AssignMap) (sid : String) : List String × Nat :=
  let assigned : List String := match lookupAL m sid with
    | some asg => asg.map (fun rc => rc.2)
    | none => []
  let eligibleForOff := (cast.map (fun c => c.name)).filter (fun n => !(assigned.contains n))
  match shuffle g ctr eligibleForOff with
  | (l, c) => (l.take 4, c)

/-- Role-filling loop of `assignRolesForShow`: for each role in the shuffled
order, fill an empty cell with the selected legal candidate, failing the
whole attempt when a role has no candidate. -/
def fillRolesGo (g : Nat → Nat) (shows : List Show) (cast : List CastMember) (sid : String) :
    List String → AssignMap → Nat → Bool × AssignMap × Nat
  | [], m, ctr => (true, m, ctr)
  | role :: rest, m, ctr =>
    let asg := (lookupAL m sid).getD emptyShowAsg
    if asgGet asg role == "" then
      let elig := getEligiblePerformers shows cast m role sid
      match selectBestPerformer g ctr elig with
      | (some p, c2) => fillRolesGo g shows cast sid rest (setRole m sid role p) c2
      | (none, c2) => (false, m, c2)
    else fillRolesGo g shows cast sid rest m ctr

/-- Fill all roles and then the OFF list for one show
(`assignRolesForShow`): non-show-status shows succeed unchanged; roles are
attempted in a freshly shuffled order (no scarcity sort in this version of
the engine); afterwards the OFF members are selected and stored. -/
def rolesToFillPair (g : Nat → Nat) (ctr : Nat) : List String × Nat :=
  shuffle g ctr rolesList

def assignRolesForShow (g : Nat → Nat) (shows : List Show) (cast : List CastMember)
    (st : GenState) (sid : String) : Bool × GenState :=
  match shows.find? (fun s => s.id == sid) with
  | none => (true, st)
  | some sh =>
    if sh.status != "show" then (true, st)
    else
      match fillRolesGo g shows cast sid (rolesToFillPair g st.ctr).1 st.m
          (rolesToFillPair g st.ctr).2 with
      | (false, m2, c2) => (false, ⟨m2, st.off, c2⟩)
      | (true, m2, c2) =>
        (true, ⟨m2, upsertAL st.off sid (selectOffMembers g c2 cast m2 sid).1,
          (selectOffMembers g c2 cast m2 sid).2⟩)

/-- The role order attempted by `assignRolesForShow` in this engine: a
plain Fisher-Yates shuffle of the role list (line `const rolesToFill =
this.shuffle([...this.roles])`). -/
def rolesToFillOf (g : Nat → Nat) (ctr : Nat) : List String :=
  (rolesToFillPair g ctr).1

/-- Per-attempt loop over the shuffled active shows
(`generateScheduleAttempt`). -/
def attemptGo (g : Nat → Nat) (shows : List Show) (cast : List CastMember) :
    List Show → GenState → Bool × GenState
  | [], st => (true, st)
  | s :: rest, st =>
    match assignRolesForShow g shows cast st s.id with
    | (true, st2) => attemptGo g shows cast rest st2
    | (false, st2) => (false, st2)

def generateScheduleAttempt (g : Nat → Nat) (shows : List Show) (cast : List CastMember)
    (st : GenState) : Bool × GenState :=
  let sh := shuffle g st.ctr (sortedActiveShows shows)
  attemptGo g shows cast sh.1 ⟨st.m, st.off, sh.2⟩

/-- Flatten the working maps into the output rows (`convertToAssignments`):
stage rows for every non-empty cell, then OFF rows, all with
`isRedDay: false`. -/
def convertToAssignments (m : AssignMap) (off : List (String × List String)) :
    List Assignment :=
  (m.flatMap (fun e => (e.2.filter (fun rc => rc.2 != "")).map (fun rc =>
    (⟨e.1, rc.1, rc.2, false⟩ : Assignment)))) ++
  (off.flatMap (fun e => e.2.map (fun p => (⟨e.1, "OFF", p, false⟩ : Assignment))))

/-- Retry loop of `autoGenerate` (up to 100 attempts, each from a cleared
state): an attempt that passes construction is accepted when its validation
has no critical errors. -/
def attemptLoop (g : Nat → Nat) (shows : List Show) (cast : List CastMember) :
    Nat → Nat → Option (List Assignment × Nat)
  | 0, _ => none
  | fuel + 1, ctr =>
    let st0 := clearedState shows ctr
    match generateScheduleAttempt g shows cast st0 with
    | (true, st1) =>
      let A := convertToAssignments st1.m st1.off
      let v := validateSchedule shows cast A
      if hasCriticalErrors v.errors then attemptLoop g shows cast fuel st1.ctr
      else some (A, st1.ctr)
    | (false, st1) => attemptLoop g shows cast fuel st1.ctr

/-! ## Partial schedule generation (fallback) -/

/-- Number of roster members whose eligible-role list contains a role. -/
def eligCountFor (cast : List CastMember) (role : String) : Nat :=
  (cast.filter (fun mem => mem.eligibleRoles.contains role)).length

/-- Roles sorted by scarcity, fewest eligible roster members first
(`getRolesByDifficulty`, used only by the partial fallback in this
engine). -/
def getRolesByDifficulty (cast : List CastMember) : List String :=
  stableSortBy (fun a b => decide (eligCountFor cast a ≤ eligCountFor cast b)) rolesList

/-- Partial fill of one role across the chronologically ordered shows
(`generatePartialSchedule` inner loop): only the already-on-show, weekly
cap and gender checks are enforced, the least-loaded candidate is taken,
and an error string is recorded for an unfillable slot. -/
def partialForRole (shows : List Show) (cast : List CastMember) (role : String) :
    List Show → AssignMap → List String → AssignMap × List String
  | [], m, errs => (m, errs)
  | sh :: rest, m, errs =>
    if asgGet ((lookupAL m sh.id).getD emptyShowAsg) role == "" then
      match stableSortBy (fun a b => decide
          (getCurrentShowCount m a.name ≤ getCurrentShowCount m b.name))
          ((cast.filter (fun mem => mem.eligibleRoles.contains role)).filter (fun mem =>
            !(isPerformerAssignedToShow m mem.name sh.id) &&
            !(hasExceededWeeklyLimit m mem.name) &&
            isPerformerEligibleForRole cast mem.name role)) with
      | [] => partialForRole shows cast role rest m (errs ++
          ["Could not assign " ++ role ++ " for show on " ++ showDateStr sh ++
            " - no available performers"])
      | best :: _ => partialForRole shows cast role rest (setRole m sh.id role best.name) errs
    else partialForRole shows cast role rest m errs

/-- Result record of `autoGenerate` (`AutoGenerateResult`); the random
`generationId` token and `generatedAt` timestamp are traceability metadata
and are not modelled. -/
structure AutoResult where
  success : Bool
  assignments : List Assignment
  errors : Option (List String)
  warnings : Option (List String)
  dayOffStats : Option (List (String × Nat))
deriving DecidableEq

/-- The partial fallback (`generatePartialSchedule`), deterministic: roles
in scarcity order, shows in chronological order, success defined as having
produced at least one assignment row. -/
def generatePartialSchedule (shows : List Show) (cast : List CastMember)
    (m0 : AssignMap) (off0 : List (String × List String)) : AutoResult :=
  let fill := (getRolesByDifficulty cast).foldl
    (fun acc role => partialForRole shows cast role (sortedActiveShows shows) acc.1 acc.2)
    (m0, ([] : List String))
  let A := convertToAssignments fill.1 off0
  ⟨decide (0 < A.length), A, if fill.2.isEmpty then none else some fill.2, none, none⟩

/-! ## Day-off utilities and the RED-day pass -/

/-- Earliest date carrying a `dayoff`-status show (`detectCompanyDayOff`). -/
def detectCompanyDayOff (shows : List Show) : Option Nat :=
  let dayOffShows := shows.filter (fun s => s.status == "dayoff")
  match stableSortBy (fun a b => decide (a.date ≤ b.date)) dayOffShows with
  | [] => none
  | s :: _ => some s.date

/-- Weekend test on a date (`isWeekend`, `getDay` of the date-only parse
under the UTC-server assumption). -/
def isWeekend (d : Nat) : Bool :=
  dayOfWeek d == 0 || dayOfWeek d == 6

/-- Back-to-back-double test on a date (`isBackToBackDoubleDay`): at least
two shows on the date and at least two on the previous or next calendar
day.  Epoch day 0 has no previous day in the model; real inputs are far
from it. -/
def isBackToBackDoubleDay (shows : List Show) (d : Nat) : Bool :=
  let countOn := fun (x : Nat) => (shows.filter (fun s => s.date == x && s.status == "show")).length
  let nextShows := countOn (d + 1)
  let prevShows := if d = 0 then 0 else countOn (d - 1)
  decide (countOn d ≥ 2) && (decide (nextShows ≥ 2) || decide (prevShows ≥ 2))

/-- Dates (in first-occurrence order of the show list) on which a performer
has no assignment row at all (`getPerformerDaysOff`; note: OFF rows also
count as presence here). -/
def getPerformerDaysOff (shows : List Show) (cast : List CastMember)
    (A : List Assignment) : List (String × List Nat) :=
  let activeShows := shows.filter (fun s => s.status == "show")
  let dateKeys := dedupKF (activeShows.map (fun s => s.date))
  (dedupKF (cast.map (fun c => c.name))).map (fun n =>
    (n, dateKeys.filter (fun d =>
      (A.filter (fun a => a.performer == n &&
        (activeShows.filter (fun s => s.date == d)).any (fun s => s.id == a.showId))).isEmpty)))

/-- Day-off fairness report (`validateDayOffFairness`): per-performer
day-off counts (plus one for a company day off not already counted) and
advisory warnings.  The emoji prefixes of the source messages are rendered
as "W3 " / "W2 " / "WC "; no claim observes these strings. -/
def validateDayOffFairness (shows : List Show) (cast : List CastMember)
    (A : List Assignment) : List String × List (String × Nat) :=
  let pdo := getPerformerDaysOff shows cast A
  let cdo := detectCompanyDayOff shows
  let countOf := fun (e : String × List Nat) =>
    e.2.length + (match cdo with
      | some c => if e.2.contains c then 0 else 1
      | none => 0)
  let warns := pdo.flatMap (fun e =>
    let cnt := countOf e
    (if cnt ≥ 3 then ["W3 " ++ e.1 ++ " has " ++ toString cnt ++ " days off (target is 1)"]
     else if cnt ≥ 2 then ["W2 " ++ e.1 ++ " has " ++ toString cnt ++ " days off (target is 1)"]
     else []) ++
    adjPairsCollect (fun d1 d2 =>
      if d1 < d2 ∧ d2 - d1 = 1 then
        some ("WC " ++ e.1 ++ " has consecutive days off: " ++ toString d1 ++ " and " ++ toString d2)
      else none) (sortNat e.2))
  (warns, pdo.map (fun e => (e.1, countOf e)))

/-- Remove the first assignment row of a performer for a show
(`findIndex` + `splice(i, 1)` in the forced RED-day branch). -/
def removeFirstAssignment (A : List Assignment) (sid p : String) : List Assignment :=
  match A.findIdx? (fun a => a.showId == sid && a.performer == p) with
  | some i => A.eraseIdx i
  | none => A

/-- Forced RED date: the best-scoring available date (weekday +10, not a
back-to-back-double date +5, plus 3 minus the number of shows that day),
the first date winning ties; identical for every forced performer because
the score does not depend on the accumulated state (the `continue` guard in
the source can never fire: `performerRedDays[performer]` is only set after
the date loop). -/
def bestForcedDate (shows : List Show) (availableDates : List Nat) : Option Nat :=
  match availableDates with
  | [] => none
  | d0 :: _ =>
    let activeShows := shows.filter (fun s => s.status == "show")
    some ((availableDates.foldl (fun (best : Nat × Int) d =>
      let score : Int :=
        (if !(isWeekend d) then 10 else 0) +
        (if !(isBackToBackDoubleDay shows d) then 5 else 0) +
        (3 - ((activeShows.filter (fun s => s.date == d)).length : Int))
      if score > best.2 then (d, score) else best) (d0, (-1 : Int))).1)

/-- Shows requiring staffing (`this.shows.filter(s => s.status === "show")`
in list order). -/
def activeShowsOf (shows : List Show) : List Show :=
  shows.filter (fun s => s.status == "show")

/-- Dates of active shows, sorted ascending
(`Object.keys(showsByDate).sort()`). -/
def availableDatesOf (shows : List Show) : List Nat :=
  sortNat (dedupKF ((activeShowsOf shows).map (fun s => s.date)))

/-- Active shows on one date (`showsByDate[date]`). -/
def showsOnDate (shows : List Show) (d : Nat) : List Show :=
  (activeShowsOf shows).filter (fun s => s.date == d)

/-- Ids of the dayoff-status shows on the company day-off date. -/
def companyDayOffShowIds (shows : List Show) : List String :=
  match detectCompanyDayOff shows with
  | none => []
  | some companyDayOff =>
    (shows.filter (fun s => s.date == companyDayOff && s.status == "dayoff")).map (fun s => s.id)

/-- Dates on which a performer holds no non-OFF role on any show
(`performerNaturalDaysOff`, collected in ascending date order). -/
def naturalDaysOff (shows : List Show) (A : List Assignment) (p : String) : List Nat :=
  (availableDatesOf shows).filter (fun d =>
    (A.filter (fun a => a.performer == p && a.role != "OFF" &&
      (showsOnDate shows d).any (fun s => s.id == a.showId))).isEmpty)

/-- Comparator key of the natural-RED-day preference sort: weekdays first,
then fewer shows on the date (`showsByDate[a]?.length || 99`). -/
def lenOr99 (shows : List Show) (d : Nat) : Nat :=
  let k := (showsOnDate shows d).length
  if k = 0 then 99 else k

/-- RED-day choice among natural days off, one binding per performer that
has any (the first `performerRedDays` pass). -/
def redDaysNaturalMap (shows : List Show) (cast : List CastMember)
    (A : List Assignment) : List (String × Nat) :=
  (cast.map (fun c => c.name)).foldl (fun acc p =>
    match stableSortBy (fun a b =>
        if (isWeekend a != isWeekend b) then !(isWeekend a)
        else decide (lenOr99 shows a ≤ lenOr99 shows b)) (naturalDaysOff shows A p) with
    | [] => acc
    | d :: _ => upsertAL acc p d) []

/-- Performers with no natural full day off (`performersWithoutRedDays`). -/
def performersWithoutRed (shows : List Show) (cast : List CastMember)
    (A : List Assignment) : List String :=
  (cast.map (fun c => c.name)).filter (fun p =>
    (lookupAL (redDaysNaturalMap shows cast A) p).isNone)

/-- Dates on which the RED-day pass force-deletes role assignments: the
single best forced date when some performer needs a forced RED day and no
company day off exists, empty otherwise. -/
def forcedRedDates (shows : List Show) (cast : List CastMember)
    (A : List Assignment) : List Nat :=
  match detectCompanyDayOff shows with
  | some _ => []
  | none =>
    match performersWithoutRed shows cast A with
    | [] => []
    | _ =>
      match bestForcedDate shows (availableDatesOf shows) with
      | none => []
      | some bd => [bd]

/-- Final RED-day map and stage rows after the forced-deletion loop. -/
def forcedFold (shows : List Show) (cast : List CastMember) (A : List Assignment)
    (bd : Nat) (base : List Assignment) : List Assignment × List (String × Nat) :=
  (performersWithoutRed shows cast A).foldl
    (fun (acc : List Assignment × List (String × Nat)) p =>
      ((showsOnDate shows bd).foldl (fun f sh => removeFirstAssignment f sh.id p) acc.1,
        upsertAL acc.2 p bd)) (base, redDaysNaturalMap shows cast A)

/-- OFF rows added at the end of the no-company-day-off branch: one per
(active show, performer not on its stage), RED-flagged exactly on the
performer's chosen date. -/
def redOffRows (shows : List Show) (cast : List CastMember)
    (stage : List Assignment) (redDays : List (String × Nat)) : List Assignment :=
  (activeShowsOf shows).flatMap (fun sh =>
    let assignedPerformers :=
      (stage.filter (fun a => a.showId == sh.id && a.role != "OFF")).map (fun a => a.performer)
    ((cast.map (fun c => c.name)).filter (fun p => !(assignedPerformers.contains p))).map (fun p =>
      (⟨sh.id, "OFF", p, lookupAL redDays p == some sh.date⟩ : Assignment)))

/-- RED-day pass (`assignRedDays`).  Returns `none` exactly where the
source throws: a performer needs a forced RED day but there are no
show-status dates, so `showsByDate[undefined]` is iterated. -/
def assignRedDays (shows : List Show) (cast : List CastMember)
    (A : List Assignment) : Option (List Assignment) :=
  let allPerformers := cast.map (fun c => c.name)
  match detectCompanyDayOff shows with
  | some _ =>
    let ids := companyDayOffShowIds shows
    let withRed := A ++ ids.flatMap (fun sid =>
      allPerformers.map (fun p => (⟨sid, "OFF", p, true⟩ : Assignment)))
    some (withRed.map (fun a =>
      if a.role == "OFF" && !(ids.contains a.showId) then
        { a with isRedDay := false }
      else a))
  | none =>
    let base := (A.filter (fun a => a.role != "OFF")).map (fun a => { a with isRedDay := false })
    match performersWithoutRed shows cast A with
    | [] => some (base ++ redOffRows shows cast base (redDaysNaturalMap shows cast A))
    | _ =>
      match bestForcedDate shows (availableDatesOf shows) with
      | none => none
      | some bd =>
        let forced := forcedFold shows cast A bd base
        some (forced.1 ++ redOffRows shows cast forced.1 forced.2)

/-! ## autoGenerate -/

/-- Path taken by a run of `autoGenerate`, exposed for the theorems. -/
inductive GPath
  | fetchFail
  | main
  | partialFull
  | partialBare
  | caught
deriving DecidableEq

/-- Run output together with the path tag and the pre-RED accepted or
partial assignments (`[]` on the fetch-failure path). -/
structure AuxOut where
  res : AutoResult
  path : GPath
  accA : List Assignment
deriving DecidableEq

/-- Message text of the TypeError raised by the forced-RED-day branch when
no show-status dates exist (iterating `showsByDate[undefined]`); the exact
wording is engine-dependent and immaterial, only the "Algorithm error: "
prefix added by the catch is observable to the claims. -/
def redDayCrashMsg : String := "undefined is not iterable"

def fetchFailResult : AutoResult :=
  ⟨false, [], some ["Failed to load cast members from company system"], none, none⟩

def caughtResult : AutoResult :=
  ⟨false, [], some ["Algorithm error: " ++ redDayCrashMsg], none, none⟩

/-- Generation pipeline after roster resolution: the 100-attempt retry
loop, the partial fallback, the RED-day pass and the fairness report.
The top-level try/catch appears as the `.caught` branches wrapping the one
reachable exception site (`assignRedDays` returning `none`). -/
def autoGenerateBody (g : Nat → Nat) (shows : List Show)
    (cast : List CastMember) : AuxOut :=
  match attemptLoop g shows cast 100 0 with
  | some (A, _) =>
    match assignRedDays shows cast A with
    | none => ⟨caughtResult, .caught, A⟩
    | some finalA =>
      let vf := validateDayOffFairness shows cast finalA
      ⟨⟨true, finalA, none, some vf.1, some vf.2⟩, .main, A⟩
  | none =>
    let pr := generatePartialSchedule shows cast (mkInit shows) (mkInitOff shows)
    if pr.success || !pr.assignments.isEmpty then
      match assignRedDays shows cast pr.assignments with
      | none => ⟨caughtResult, .caught, pr.assignments⟩
      | some finalA =>
        let vf := validateDayOffFairness shows cast finalA
        ⟨⟨true, finalA, pr.errors, some vf.1, some vf.2⟩, .partialFull, pr.assignments⟩
    else ⟨pr, .partialBare, []⟩

/-- The full `autoGenerate` pipeline.  `fetched` models the external
company-directory fetch used when the supplied roster is empty (`none`
standing for a fetch that throws, which the inner try/catch converts into
the fetch-failure result). -/
def autoGenerateAux (g : Nat → Nat) (shows : List Show) (cast0 : List CastMember)
    (fetched : Option (List CastMember)) : AuxOut :=
  let castOpt : Option (List CastMember) :=
    if cast0.isEmpty then fetched else some cast0
  match castOpt with
  | none => ⟨fetchFailResult, .fetchFail, []⟩
  | some cast => autoGenerateBody g shows cast

def autoGenerate (g : Nat → Nat) (shows : List Show) (cast : List CastMember)
    (fetched : Option (List CastMember)) : AutoResult :=
  (autoGenerateAux g shows cast fetched).res

/-! ## Claim-observable quantities -/

/-- Number of distinct shows in which a performer holds a non-OFF role in
an assignment list. -/
def distinctStageShows (A : List Assignment) (p : String) : Nat :=
  distinctCount ((A.filter (fun a => a.performer == p && a.role != "OFF")).map
    (fun a => a.showId))

/-- Distinct dates of a performer's `isRedDay = true` assignments, dates
resolved through the show list. -/
def redDatesOf (shows : List Show) (A : List Assignment) (p : String) : List Nat :=
  dedupKF ((A.filter (fun a => a.performer == p && a.isRedDay)).filterMap (fun a =>
    (shows.find? (fun s => s.id == a.showId)).map (fun s => s.date)))

/-- The constant-zero random tape (a run in which every
`Math.floor(Math.random()*(i+1))` draw came out 0, and every
randomized sort returned its deterministically reachable permutation). -/
def tape0 : Nat → Nat := fun _ => 0

theorem pairwise_stableSortBy_key (key : α → Nat) (l : List α) :
    (stableSortBy (fun a b => decide (key a ≤ key b)) l).Pairwise
      (fun a b => key a ≤ key b) := by
  have h := pairwise_stableSortBy (fun a b => decide (key a ≤ key b))
    (fun a b => by rcases Nat.le_total (key a) (key b) with h | h <;> simp [h])
    (fun a b c h1 h2 => by
      simp only [decide_eq_true_eq] at h1 h2 ⊢
      exact le_trans h1 h2) l
  exact h.imp (fun h => of_decide_eq_true h)

/-! ## Claim C8 -/

/-- Role order of the per-show fill in the older engine
(backend/scheduler/algorithm.ts `assignRolesForShow` lines 394-467): the
shuffled role list stably sorted by eligible-performer count
(`rolesByDifficulty`). -/
def backendRolesByDifficulty (g : Nat → Nat) (ctr : Nat) (cast : List CastMember) : List String :=
  stableSortBy (fun a b => decide (eligCountFor cast a ≤ eligCountFor cast b))
    (rolesToFillOf g ctr)

/-- Roster in which the eligible-performer counts of the eight roles are
pairwise distinct (Sarge 1, Potato 2, ..., Who 8). -/
def castC8 : List CastMember :=
  [⟨"M0", ["Sarge", "Potato", "Mozzie", "Ringo", "Particle", "Bin", "Cornish", "Who"]⟩,
   ⟨"M1", ["Potato", "Mozzie", "Ringo", "Particle", "Bin", "Cornish", "Who"]⟩,
   ⟨"M2", ["Mozzie", "Ringo", "Particle", "Bin", "Cornish", "Who"]⟩,
   ⟨"M3", ["Ringo", "Particle", "Bin", "Cornish", "Who"]⟩,
   ⟨"M4", ["Particle", "Bin", "Cornish", "Who"]⟩,
   ⟨"M5", ["Bin", "Cornish", "Who"]⟩,
   ⟨"M6", ["Cornish", "Who"]⟩,
   ⟨"M7", ["Who"]⟩]

/-- C8: the current engine's per-attempt fill does not attempt roles in
scarcity order.  `assignRolesForShow` iterates `rolesToFillOf`, a plain
shuffle of the role list with no scarcity sort; at the constant-zero tape
the attempted order is [Potato, ..., Who, Sarge] although Sarge has the
fewest eligible performers (1) and Potato more (2), so the order is not
sorted by eligible-count. -/
theorem C8_counterexample :
    ¬ (rolesToFillOf tape0 0).Pairwise
        (fun a b => eligCountFor castC8 a ≤ eligCountFor castC8 b) := by decide

/-- C8 (amended): the current engine attempts roles in a uniformly shuffled
order (a permutation of the fixed role list, independent of scarcity);
scarcity ordering (fewest eligible performers first) holds for the role
iteration of the partial fallback (`getRolesByDifficulty`) and for the
per-show fill of the older backend/scheduler engine, which sorts the
shuffled roles by eligible count before computing candidates. -/
theorem C8_amended :
    (∀ (g : Nat → Nat) (ctr : Nat), (rolesToFillOf g ctr).Perm rolesList) ∧
    (∀ cast : List CastMember, (getRolesByDifficulty cast).Pairwise
      (fun a b => eligCountFor cast a ≤ eligCountFor cast b)) ∧
    (∀ (g : Nat → Nat) (ctr : Nat) (cast : List CastMember),
      (backendRolesByDifficulty g ctr cast).Pairwise
        (fun a b => eligCountFor cast a ≤ eligCountFor cast b)) := by
  refine ⟨?_, ?_, ?_⟩
  · intro g ctr
    exact shuffle_perm g ctr rolesList
  · intro cast
    exact pairwise_stableSortBy_key (eligCountFor cast) rolesList
  · intro g ctr cast
    exact pairwise_stableSortBy_key (eligCountFor cast) (rolesToFillOf g ctr)

/-! ## Claim C1: counterexample -/

/-- Two one-show weekdays, two days apart. -/
def showsC1 : List Show :=
  [⟨"s1", 20003, 1140, "show"⟩, ⟨"s2", 20005, 1140, "show"⟩]

/-- Eight performers, one per role (Bin and Cornish on the female
allow-list), so every performer must play every show and nobody has a
natural day off. -/
def castC1 : List CastMember :=
  [⟨"SA", ["Sarge"]⟩, ⟨"PO", ["Potato"]⟩, ⟨"MO", ["Mozzie"]⟩, ⟨"RI", ["Ringo"]⟩,
   ⟨"PA", ["Particle"]⟩, ⟨"MOLLY", ["Bin"]⟩, ⟨"JASMINE", ["Cornish"]⟩, ⟨"WH", ["Who"]⟩]

/-- C1: a run accepted through the main path (attempt 0 passes construction
and validation with no critical errors) whose returned assignments leave a
status-show show with 0 distinct performers on stage: every performer lacks
a natural day off, so the RED-day pass force-creates a day off on the first
show's date and deletes all eight role assignments there. -/
theorem C1_counterexample :
    (autoGenerateAux tape0 showsC1 castC1 none).path = GPath.main ∧
    (⟨"s1", 20003, 1140, "show"⟩ : Show) ∈ showsC1 ∧
    stagePerformerCount (autoGenerate tape0 showsC1 castC1 none).assignments "s1" = 0 := by
  decide

/-! ## Claim C7: counterexample -/

/-- One company day off plus one staffable show. -/
def showsC7 : List Show :=
  [⟨"d1", 20004, 0, "dayoff"⟩, ⟨"w1", 20003, 1140, "show"⟩]

/-- A nonempty roster whose single member is eligible for no role, making
even the partial fallback produce zero assignments. -/
def castC7 : List CastMember := [⟨"P", []⟩]

/-- C7: with a dayoff-status show present but generation failing completely
(the bare partial-result return), autoGenerate returns an empty assignment
list, so the roster performer P has no OFF assignment with isRedDay = true
for the company day-off date; the claim as stated (without restricting to
successful returns) is false. -/
theorem C7_counterexample :
    (∃ s ∈ showsC7, s.status = "dayoff") ∧
    castC7 ≠ [] ∧
    (autoGenerate tape0 showsC7 castC7 none).assignments = [] ∧
    (autoGenerate tape0 showsC7 castC7 none).success = false := by decide

/-! ## Claims C10 and C9 -/

theorem foldl_upsert_const_values {β : Type} (v : β) (l : List Show) (f : Show → String) :
    ∀ e ∈ l.foldl (fun m s => upsertAL m (f s) v) ([] : List (String × β)), e.2 = v := by
  refine foldl_invariant (P := fun (m : List (String × β)) => ∀ e ∈ m, e.2 = v) _ _ _ ?_ ?_
  · intro e he
    exact absurd he (List.not_mem_nil e)
  · intro m s _ hP e he
    unfold upsertAL at he
    by_cases hc : m.any (fun e => e.1 == f s)
    · rw [if_pos hc] at he
      rcases List.mem_map.mp he with ⟨e0, he0, heq⟩
      by_cases hk : e0.1 == f s
      · rw [if_pos hk] at heq
        subst heq
        rfl
      · rw [if_neg hk] at heq
        subst heq
        exact hP e0 he0
    · rw [if_neg hc] at he
      rcases List.mem_append.mp he with he0 | he0
      · exact hP e he0
      · have : e = (f s, v) := by simpa using he0
        subst this
        rfl

theorem mkInit_values (shows : List Show) : ∀ e ∈ mkInit shows, e.2 = emptyShowAsg :=
  foldl_upsert_const_values emptyShowAsg shows (fun s => s.id)

theorem mkInitOff_values (shows : List Show) : ∀ e ∈ mkInitOff shows, e.2 = [] :=
  foldl_upsert_const_values [] shows (fun s => s.id)

theorem convert_cleared (shows : List Show) :
    convertToAssignments (mkInit shows) (mkInitOff shows) = [] := by
  unfold convertToAssignments
  rw [flatMap_eq_nil_of_forall _ (fun e he => by
    rw [mkInit_values shows e he]
    rfl)]
  rw [flatMap_eq_nil_of_forall _ (fun e he => by
    rw [mkInitOff_values shows e he]
    rfl)]
  rfl

theorem sortedActiveShows_nil (shows : List Show)
    (h1 : ∀ s ∈ shows, ¬ s.status = "show") : sortedActiveShows shows = [] := by
  unfold sortedActiveShows
  rw [List.filter_eq_nil_iff.mpr (fun s hs => by simpa using h1 s hs)]
  rfl

theorem activeShowsOf_nil (shows : List Show)
    (h1 : ∀ s ∈ shows, ¬ s.status = "show") : activeShowsOf shows = [] := by
  unfold activeShowsOf
  exact List.filter_eq_nil_iff.mpr (fun s hs => by simpa using h1 s hs)

theorem validate_empty_errors (shows : List Show) (cast : List CastMember)
    (h1 : ∀ s ∈ shows, ¬ s.status = "show") :
    (validateSchedule shows cast []).errors = [] := by
  unfold validateSchedule validateSt validateCore
  simp only
  have hfil : shows.filter (fun s => s.status == "show") = [] :=
    List.filter_eq_nil_iff.mpr (fun s hs => by simpa using h1 s hs)
  have e1 : perShowErrors shows cast [] = [] := by
    unfold perShowErrors
    rw [hfil]
    rfl
  have e2 : consecErrorsOf (analyzeConsecutiveShows shows cast []) = [] := by
    unfold consecErrorsOf
    apply flatMap_eq_nil_of_forall
    intro nd hnd
    unfold analyzeConsecutiveShows at hnd
    rcases List.mem_map.mp hnd with ⟨n, _, heq⟩
    simp only at heq
    rw [← heq]
    rfl
  have e3 : cast.flatMap (btbErrorsFor (shows.filter (fun s => s.status == "show")) []) = [] := by
    apply flatMap_eq_nil_of_forall
    intro mem _
    rfl
  have e4 : cast.flatMap (weekendErrorsFor (shows.filter (fun s => s.status == "show")) []) = [] := by
    apply flatMap_eq_nil_of_forall
    intro mem _
    rfl
  have e5 : (redSection (shows.filter (fun s => s.status == "show")) cast []).1 = [] := by
    unfold redSection
    simp only
    apply flatMap_eq_nil_of_forall
    intro p _
    rfl
  rw [e1, e2, e3, e4, e5]
  rfl

theorem attempt_no_active (g : Nat → Nat) (shows : List Show) (cast : List CastMember)
    (ctr : Nat) (h1 : ∀ s ∈ shows, ¬ s.status = "show") :
    generateScheduleAttempt g shows cast (clearedState shows ctr) =
      (true, clearedState shows ctr) := by
  unfold generateScheduleAttempt
  rw [sortedActiveShows_nil shows h1]
  rfl

theorem attemptLoop_no_active (g : Nat → Nat) (shows : List Show) (cast : List CastMember)
    (h1 : ∀ s ∈ shows, ¬ s.status = "show") :
    attemptLoop g shows cast 100 0 = some ([], 0) := by
  have hcrit : hasCriticalErrors (validateSchedule shows cast []).errors = false := by
    rw [validate_empty_errors shows cast h1]
    rfl
  show attemptLoop g shows cast (99 + 1) 0 = some ([], 0)
  rw [attemptLoop]
  have hat : generateScheduleAttempt g shows cast ⟨mkInit shows, mkInitOff shows, 0⟩ =
      (true, ⟨mkInit shows, mkInitOff shows, 0⟩) := attempt_no_active g shows cast 0 h1
  simp only [clearedState, hat, convert_cleared shows, hcrit]
  simp

theorem detect_none (shows : List Show) (h2 : ∀ s ∈ shows, ¬ s.status = "dayoff") :
    detectCompanyDayOff shows = none := by
  unfold detectCompanyDayOff
  rw [List.filter_eq_nil_iff.mpr (fun s hs => by simpa using h2 s hs)]
  rfl

theorem availableDates_nil (shows : List Show)
    (h1 : ∀ s ∈ shows, ¬ s.status = "show") : availableDatesOf shows = [] := by
  unfold availableDatesOf
  rw [activeShowsOf_nil shows h1]
  rfl

theorem redDaysNatural_nil (shows : List Show) (cast : List CastMember)
    (A : List Assignment) (h1 : ∀ s ∈ shows, ¬ s.status = "show") :
    redDaysNaturalMap shows cast A = [] := by
  unfold redDaysNaturalMap
  have hnat : ∀ p, naturalDaysOff shows A p = [] := by
    intro p
    unfold naturalDaysOff
    rw [availableDates_nil shows h1]
    rfl
  refine foldl_invariant (P := fun (m : List (String × Nat)) => m = []) _ _ _ rfl ?_
  intro m p _ hP
  rw [hnat p]
  simpa using hP

theorem assignRedDays_crash (shows : List Show) (cast : List CastMember)
    (h1 : ∀ s ∈ shows, ¬ s.status = "show")
    (h2 : ∀ s ∈ shows, ¬ s.status = "dayoff") (h3 : cast ≠ []) :
    assignRedDays shows cast [] = none := by
  unfold assignRedDays
  rw [detect_none shows h2]
  simp only
  have hw : performersWithoutRed shows cast [] = cast.map (fun c => c.name) := by
    unfold performersWithoutRed
    rw [redDaysNatural_nil shows cast [] h1]
    exact List.filter_eq_self.mpr (fun p _ => by rfl)
  rw [hw]
  cases hcast : cast with
  | nil => exact absurd hcast h3
  | cons c rest =>
    simp only [List.map_cons]
    rw [availableDates_nil shows h1]
    rfl

/-- C10: with a nonempty supplied roster and no show-status and no
dayoff-status shows, autoGenerate accepts the trivially empty schedule on
attempt 0, then the RED-day pass faults on the empty date set
(`showsByDate[undefined]` is iterated), and the top-level catch converts
the exception into a failure result with an empty assignment list and
exactly one error string beginning "Algorithm error:". -/
theorem C10_empty_week (g : Nat → Nat) (shows : List Show) (cast : List CastMember)
    (fetched : Option (List CastMember))
    (h1 : ∀ s ∈ shows, ¬ s.status = "show")
    (h2 : ∀ s ∈ shows, ¬ s.status = "dayoff")
    (h3 : cast ≠ []) :
    autoGenerate g shows cast fetched = caughtResult ∧
    (autoGenerate g shows cast fetched).success = false ∧
    (autoGenerate g shows cast fetched).assignments = [] ∧
    ∃ msg, (autoGenerate g shows cast fetched).errors = some ["Algorithm error: " ++ msg] := by
  have hmain : autoGenerate g shows cast fetched = caughtResult := by
    have hne : cast.isEmpty = false := by
      cases cast with
      | nil => exact absurd rfl h3
      | cons c rest => rfl
    have hbody : autoGenerateBody g shows cast = ⟨caughtResult, .caught, []⟩ := by
      rw [autoGenerateBody, attemptLoop_no_active g shows cast h1]
      simp only [assignRedDays_crash shows cast h1 h2 h3]
    unfold autoGenerate autoGenerateAux
    simp only [hne, Bool.false_eq_true, if_false, hbody]
  refine ⟨hmain, ?_, ?_, ?_⟩
  · rw [hmain]; rfl
  · rw [hmain]; rfl
  · exact ⟨redDayCrashMsg, by rw [hmain]; rfl⟩

/-- Witness for C10 at a concrete travel-only week. -/
theorem C10_witness :
    autoGenerate tape0 [⟨"t", 20003, 1140, "travel"⟩] [⟨"P", ["Sarge"]⟩] none = caughtResult ∧
    (autoGenerate tape0 [⟨"t", 20003, 1140, "travel"⟩] [⟨"P", ["Sarge"]⟩] none).success = false := by
  have h := C10_empty_week tape0 [⟨"t", 20003, 1140, "travel"⟩] [⟨"P", ["Sarge"]⟩] none
    (by decide) (by decide) (by decide)
  exact ⟨h.1, h.2.1⟩

/-- C9: the pipeline always returns a structured result.  A failing
external roster fetch (empty supplied roster, fetch throwing) is converted
by the inner try/catch into the fetch-failure result, and the one reachable
exception inside generation (the forced-RED-day fault of `assignRedDays`)
is converted by the top-level catch into success=false with the single
"Algorithm error: ..." string; no other control path exists, as
`autoGenerate` is total on its input. -/
theorem C9_no_escape (g : Nat → Nat) (shows : List Show) (cast : List CastMember)
    (fetched : Option (List CastMember)) :
    (cast = [] → fetched = none → autoGenerate g shows cast fetched = fetchFailResult) ∧
    ((autoGenerateAux g shows cast fetched).path = GPath.caught →
      autoGenerate g shows cast fetched = caughtResult ∧
      ∃ msg, (autoGenerate g shows cast fetched).errors = some ["Algorithm error: " ++ msg]) := by
  constructor
  · intro hc hf
    subst hc
    subst hf
    rfl
  · have hbody : ∀ cast2 : List CastMember,
        (autoGenerateBody g shows cast2).path = GPath.caught →
        (autoGenerateBody g shows cast2).res = caughtResult := by
      intro cast2
      unfold autoGenerateBody
      split
      · split
        · intro _
          rfl
        · intro hp
          exact absurd hp (by simp)
      · simp only
        split
        · split
          · intro _
            rfl
          · intro hp
            exact absurd hp (by simp)
        · intro hp
          exact absurd hp (by simp)
    intro hp
    unfold autoGenerateAux at hp
    unfold autoGenerate autoGenerateAux
    by_cases hce : cast.isEmpty = true
    · simp only [hce, if_true] at hp ⊢
      cases fetched with
      | none => exact absurd hp (by simp [fetchFailResult])
      | some cs =>
        have hp2 : (autoGenerateBody g shows cs).path = GPath.caught := hp
        have hgoal : (autoGenerateBody g shows cs).res = caughtResult := hbody cs hp2
        exact ⟨hgoal, redDayCrashMsg, by rw [hgoal]; rfl⟩
    · have hne : cast.isEmpty = false := by
        cases hb : cast.isEmpty
        · rfl
        · exact absurd hb hce
      simp only [hne, Bool.false_eq_true, if_false] at hp ⊢
      have hp2 : (autoGenerateBody g shows cast).path = GPath.caught := hp
      have hgoal : (autoGenerateBody g shows cast).res = caughtResult := hbody cast hp2
      exact ⟨hgoal, redDayCrashMsg, by rw [hgoal]; rfl⟩

/-- Witness for C9: the travel-only week reaches the caught path, and an
empty roster with a failing fetch returns the fetch-failure result. -/
theorem C9_witness :
    autoGenerate tape0 [⟨"t", 20003, 1140, "travel"⟩] [⟨"P", ["Sarge"]⟩] none = caughtResult ∧
    autoGenerate tape0 [⟨"t", 20003, 1140, "travel"⟩] [] none = fetchFailResult := by
  constructor
  · exact ((C9_no_escape tape0 [⟨"t", 20003, 1140, "travel"⟩] [⟨"P", ["Sarge"]⟩] none).2
      (by decide)).1
  · exact (C9_no_escape tape0 [⟨"t", 20003, 1140, "travel"⟩] [] none).1 rfl rfl

/-! ## Counting, lookup and removal lemmas for the engine invariants -/

theorem countP_or_le (p q : α → Bool) (l : List α) :
    l.countP (fun a => p a || q a) ≤ l.countP p + l.countP q := by
  induction l with
  | nil => simp
  | cons a t ih =>
    by_cases hp : p a = true <;> by_cases hq : q a = true <;>
      simp [List.countP_cons, hp, hq] <;> omega

theorem countP_beq_le_one (l : List String) (h : l.Nodup) (k : String) :
    l.countP (fun x => x == k) ≤ 1 := by
  induction l with
  | nil => simp
  | cons a t ih =>
    rw [List.nodup_cons] at h
    by_cases ha : (a == k) = true
    · have hak : a = k := by simpa using ha
      have hz : t.countP (fun x => x == k) = 0 := by
        apply List.countP_eq_zero.mpr
        intro x hx hxk
        have hxk2 : x = k := by simpa using hxk
        exact h.1 (by rw [hak, ← hxk2]; exact hx)
      simp [List.countP_cons, ha, hz]
    · have ih2 := ih h.2
      have hz : (if (a == k) = true then 1 else 0) = 0 := by simp [ha]
      rw [List.countP_cons, hz]
      omega

theorem countP_key_le_one {β : Type} (m : List (String × β))
    (h : (m.map (fun e => e.1)).Nodup) (k : String) :
    m.countP (fun e => e.1 == k) ≤ 1 := by
  have h2 := countP_beq_le_one (m.map (fun e => e.1)) h k
  rwa [List.countP_map] at h2

/-- A `Map.set` keeps the key list duplicate-free. -/
theorem upsertAL_keys_nodup {β : Type} (m : List (String × β)) (k : String) (v : β)
    (h : (m.map (fun e => e.1)).Nodup) : ((upsertAL m k v).map (fun e => e.1)).Nodup := by
  unfold upsertAL
  by_cases ha : m.any (fun e => e.1 == k) = true
  · rw [if_pos ha]
    have hmap : (m.map (fun e => if e.1 == k then (k, v) else e)).map (fun e => e.1) =
        m.map (fun e => e.1) := by
      rw [List.map_map]
      apply List.map_eq_map_iff.mpr
      intro e _
      simp only [Function.comp_apply]
      by_cases hek : (e.1 == k) = true
      · rw [if_pos hek]
        exact ((by simpa using hek : e.1 = k)).symm
      · rw [if_neg hek]
    rw [hmap]; exact h
  · rw [if_neg ha]
    rw [List.map_append]
    have hafalse : m.any (fun e => e.1 == k) = false := Bool.eq_false_iff.mpr ha
    have hk : k ∉ m.map (fun e => e.1) := by
      intro hkm
      rcases List.mem_map.mp hkm with ⟨e, he, hek⟩
      have h3 := List.any_eq_false.mp hafalse e he
      rw [hek] at h3
      simp at h3
    simp [List.nodup_append, h]
    intro x hx
    exact hk (List.mem_map.mpr ⟨(k, x), hx, rfl⟩)

theorem lookupAL_upsert_self {β : Type} (m : List (String × β)) (k : String) (v : β) :
    lookupAL (upsertAL m k v) k = some v := by
  unfold upsertAL lookupAL
  by_cases ha : m.any (fun e => e.1 == k) = true
  · rw [if_pos ha]
    induction m with
    | nil => simp at ha
    | cons a t ih =>
      by_cases hak : (a.1 == k) = true
      · simp [List.find?, hak]
      · have hak2 : (a.1 == k) = false := by simpa using hak
        have hat : t.any (fun e => e.1 == k) = true := by
          simpa [hak2] using ha
        simpa [List.find?, hak] using ih hat
  · rw [if_neg ha]
    have hafalse : m.any (fun e => e.1 == k) = false := Bool.eq_false_iff.mpr ha
    clear ha
    induction m with
    | nil => simp [List.find?]
    | cons a t ih =>
      have hak : (a.1 == k) = false := by
        have h3 := List.any_eq_false.mp hafalse a (by simp)
        simpa using h3
      have hat : t.any (fun e => e.1 == k) = false := by
        simpa [hak] using hafalse
      simpa [List.find?, hak] using ih hat

theorem lookupAL_upsert_ne {β : Type} (m : List (String × β)) (k k2 : String) (v : β)
    (h : ¬ k2 = k) : lookupAL (upsertAL m k v) k2 = lookupAL m k2 := by
  unfold upsertAL lookupAL
  by_cases ha : m.any (fun e => e.1 == k) = true
  · rw [if_pos ha]
    clear ha
    induction m with
    | nil => rfl
    | cons a t ih =>
      by_cases hak : (a.1 == k) = true
      · have ha1 : a.1 = k := by simpa using hak
        have h1 : ((k, v).1 == k2) = false := by
          simp only []
          exact beq_false_of_ne (fun hkk => h hkk.symm)
        have h2 : (a.1 == k2) = false := by rw [ha1]; exact h1
        simpa [List.find?, hak, h1, h2] using ih
      · by_cases hak2 : (a.1 == k2) = true
        · simp [List.find?, hak, hak2]
        · simpa [List.find?, hak, hak2] using ih
  · rw [if_neg ha]
    clear ha
    induction m with
    | nil =>
      simp [List.find?, beq_false_of_ne (fun hkk => h hkk.symm)]
    | cons a t ih =>
      by_cases hak2 : (a.1 == k2) = true
      · simp [List.find?, hak2]
      · simpa [List.find?, hak2] using ih

theorem foldl_upsert_pres {β : Type} (l : List String) (v : β)
    (init : List (String × β)) (p : String) (h : lookupAL init p = some v) :
    lookupAL (l.foldl (fun r q => upsertAL r q v) init) p = some v := by
  induction l generalizing init with
  | nil => exact h
  | cons q t ih =>
    by_cases hpq : p = q
    · exact ih (upsertAL init q v) (by rw [hpq]; exact lookupAL_upsert_self init q v)
    · exact ih (upsertAL init q v) (by rw [lookupAL_upsert_ne init q p v hpq]; exact h)

theorem foldl_upsert_mem {β : Type} (l : List String) (v : β)
    (init : List (String × β)) (p : String) (hp : p ∈ l) :
    lookupAL (l.foldl (fun r q => upsertAL r q v) init) p = some v := by
  induction l generalizing init with
  | nil => cases hp
  | cons q t ih =>
    by_cases hpt : p ∈ t
    · exact ih (upsertAL init q v) hpt
    · have hpq : p = q := by
        rcases List.mem_cons.mp hp with h1 | h1
        · exact h1
        · exact absurd h1 hpt
      subst hpq
      exact foldl_upsert_pres t v (upsertAL init p v) p (lookupAL_upsert_self init p v)

theorem foldl_upsert_not_mem {β : Type} (l : List String) (v : β)
    (init : List (String × β)) (p : String) (hp : p ∉ l) :
    lookupAL (l.foldl (fun r q => upsertAL r q v) init) p = lookupAL init p := by
  induction l generalizing init with
  | nil => rfl
  | cons q t ih =>
    have hpq : ¬ p = q := fun h => hp (by rw [h]; simp)
    have hpt : p ∉ t := fun h => hp (by simp [h])
    rw [List.foldl_cons, ih (upsertAL init q v) hpt, lookupAL_upsert_ne init q p v hpq]

/-- One-step unfolding of the `findIndex` + `splice` removal. -/
theorem removeFirst_cons (a : Assignment) (A : List Assignment) (sid p : String) :
    removeFirstAssignment (a :: A) sid p =
      if (a.showId == sid && a.performer == p) = true then A
      else a :: removeFirstAssignment A sid p := by
  unfold removeFirstAssignment
  rw [List.findIdx?_cons, List.findIdx?_succ]
  by_cases h : (a.showId == sid && a.performer == p) = true
  · rw [if_pos h, if_pos h]
    rfl
  · rw [if_neg h, if_neg h]
    cases hf : List.findIdx? (fun x => x.showId == sid && x.performer == p) A with
    | none => rfl
    | some i => rfl

theorem removeFirst_sublist (A : List Assignment) (sid p : String) :
    (removeFirstAssignment A sid p).Sublist A := by
  unfold removeFirstAssignment
  cases hf : List.findIdx? (fun x => x.showId == sid && x.performer == p) A with
  | none => exact List.Sublist.refl A
  | some i => exact List.eraseIdx_sublist A i

theorem removeFirst_countP_zero (A : List Assignment) (sid p : String)
    (h : A.countP (fun a => a.showId == sid && a.performer == p) ≤ 1) :
    (removeFirstAssignment A sid p).countP
      (fun a => a.showId == sid && a.performer == p) = 0 := by
  induction A with
  | nil => rfl
  | cons a t ih =>
    rw [removeFirst_cons]
    by_cases ha : (a.showId == sid && a.performer == p) = true
    · rw [if_pos ha]
      rw [List.countP_cons, ha] at h
      simp only [if_true] at h
      omega
    · rw [if_neg ha]
      have hz : (if (a.showId == sid && a.performer == p) = true then 1 else 0) = 0 := by
        simp [ha]
      rw [List.countP_cons, hz] at h
      rw [List.countP_cons, hz]
      have hih := ih (by omega)
      omega

/-! ## The construction invariant of the assignments map -/

/-- Structural invariant maintained by both construction passes: duplicate-free
show keys, the fixed role-cell layout in every show entry, the weekly cap and
at most one role cell per performer per show. -/
structure MapInv (m : AssignMap) : Prop where
  keys : (m.map (fun e => e.1)).Nodup
  cellKeys : ∀ e ∈ m, e.2.map (fun rc => rc.1) = rolesList
  counts : ∀ p, ¬ p = "" → (performerShowIds m p).length ≤ 6
  perShow : ∀ e ∈ m, ∀ p, ¬ p = "" → (e.2.filter (fun rc => rc.2 == p)).length ≤ 1

theorem performerShowIds_length (m : AssignMap) (p : String) :
    (performerShowIds m p).length = m.countP (entryHasStage p) := by
  unfold performerShowIds
  rw [List.length_map, ← List.countP_eq_length_filter]

theorem asgSet_keys (asg : ShowAsg) (role q : String) :
    (asgSet asg role q).map (fun rc => rc.1) = asg.map (fun rc => rc.1) := by
  unfold asgSet
  rw [List.map_map]
  apply List.map_eq_map_iff.mpr
  intro rc _
  simp only [Function.comp_apply]
  by_cases h : (rc.1 == role) = true
  · rw [if_pos h]
  · rw [if_neg h]

theorem setRole_keys (m : AssignMap) (sid role q : String) :
    (setRole m sid role q).map (fun e => e.1) = m.map (fun e => e.1) := by
  unfold setRole
  rw [List.map_map]
  apply List.map_eq_map_iff.mpr
  intro e _
  simp only [Function.comp_apply]
  by_cases h : (e.1 == sid) = true
  · rw [if_pos h]
  · rw [if_neg h]

theorem entryHasStage_asgSet (e2 : ShowAsg) (k role q p : String) (hpq : ¬ p = q)
    (h : entryHasStage p (k, asgSet e2 role q) = true) : entryHasStage p (k, e2) = true := by
  unfold entryHasStage at h ⊢
  unfold asgSet at h
  simp only [List.any_eq_true] at h ⊢
  obtain ⟨rc, hrc, hp⟩ := h
  rcases List.mem_map.mp hrc with ⟨rc0, hrc0, hf⟩
  by_cases hk : (rc0.1 == role) = true
  · rw [if_pos hk] at hf
    exfalso
    rw [← hf] at hp
    have hqp : q = p ∧ ¬ rc0.1 = "OFF" := by simpa using hp
    exact hpq hqp.1.symm
  · rw [if_neg hk] at hf
    rw [← hf] at hp
    exact ⟨rc0, hrc0, hp⟩

theorem performerShowIds_setRole_ne (m : AssignMap) (sid role q p : String) (hpq : ¬ p = q) :
    (performerShowIds (setRole m sid role q) p).length ≤ (performerShowIds m p).length := by
  rw [performerShowIds_length, performerShowIds_length]
  unfold setRole
  rw [List.countP_map]
  apply List.countP_mono_left
  intro e _ h
  simp only [Function.comp_apply] at h
  by_cases hs : (e.1 == sid) = true
  · rw [if_pos hs] at h
    exact entryHasStage_asgSet e.2 e.1 role q p hpq h
  · rw [if_neg hs] at h
    exact h

theorem performerShowIds_setRole_eq (m : AssignMap) (sid role q : String)
    (hkeys : (m.map (fun e => e.1)).Nodup) :
    (performerShowIds (setRole m sid role q) q).length ≤
      (performerShowIds m q).length + 1 := by
  rw [performerShowIds_length, performerShowIds_length]
  unfold setRole
  rw [List.countP_map]
  have h1 : m.countP (fun e => entryHasStage q
        (if e.1 == sid then (e.1, asgSet e.2 role q) else e)) ≤
      m.countP (fun e => entryHasStage q e || e.1 == sid) := by
    apply List.countP_mono_left
    intro e _ h
    by_cases hs : (e.1 == sid) = true
    · simp [hs]
    · rw [if_neg hs] at h
      simp [h]
  have h2 := countP_or_le (fun e => entryHasStage q e) (fun e => e.1 == sid) m
  have h3 := countP_key_le_one m hkeys sid
  calc m.countP ((fun e => entryHasStage q e) ∘
        fun e => if e.1 == sid then (e.1, asgSet e.2 role q) else e)
      ≤ m.countP (fun e => entryHasStage q e || e.1 == sid) := h1
    _ ≤ m.countP (fun e => entryHasStage q e) + m.countP (fun e => e.1 == sid) := h2
    _ ≤ m.countP (fun e => entryHasStage q e) + 1 := by omega

/-- Committing one role under the engine's own guards (weekly cap not yet
reached, performer not already on the show) keeps the invariant. -/
theorem MapInv_setRole (m : AssignMap) (sid role q : String) (inv : MapInv m)
    (hw : hasExceededWeeklyLimit m q = false)
    (hasg : isPerformerAssignedToShow m q sid = false) :
    MapInv (setRole m sid role q) := by
  constructor
  · rw [setRole_keys]; exact inv.keys
  · intro e2 he2
    unfold setRole at he2
    rcases List.mem_map.mp he2 with ⟨e, he, hf⟩
    by_cases hs : (e.1 == sid) = true
    · rw [if_pos hs] at hf
      rw [← hf]
      show (asgSet e.2 role q).map (fun rc => rc.1) = rolesList
      rw [asgSet_keys]
      exact inv.cellKeys e he
    · rw [if_neg hs] at hf
      rw [← hf]
      exact inv.cellKeys e he
  · intro p hp
    by_cases hpq : p = q
    · subst hpq
      have h1 := performerShowIds_setRole_eq m sid role p inv.keys
      have h2 : ¬ (performerShowIds m p).length ≥ 6 := by
        unfold hasExceededWeeklyLimit at hw
        exact of_decide_eq_false hw
      omega
    · exact le_trans (performerShowIds_setRole_ne m sid role q p hpq) (inv.counts p hp)
  · intro e2 he2 p hp
    unfold setRole at he2
    rcases List.mem_map.mp he2 with ⟨e, he, hf⟩
    by_cases hs : (e.1 == sid) = true
    · rw [if_pos hs] at hf
      rw [← hf]
      show ((asgSet e.2 role q).filter (fun rc => rc.2 == p)).length ≤ 1
      rw [← List.countP_eq_length_filter]
      by_cases hpq : p = q
      · subst hpq
        have hsid : e.1 = sid := by simpa using hs
        have hlook : lookupAL m sid = some e.2 :=
          lookupAL_eq_of_mem_nodup m sid e.2 inv.keys (by rw [← hsid]; exact he)
        unfold isPerformerAssignedToShow at hasg
        rw [hlook] at hasg
        have hnone : ∀ rc ∈ e.2, ¬ (rc.2 == p) = true :=
          fun rc hrc => List.any_eq_false.mp hasg rc hrc
        have hb : (asgSet e.2 role p).countP (fun rc => rc.2 == p) ≤
            e.2.countP (fun rc => rc.1 == role) := by
          unfold asgSet
          rw [List.countP_map]
          apply List.countP_mono_left
          intro rc hrc h
          simp only [Function.comp_apply] at h
          by_cases hk : (rc.1 == role) = true
          · exact hk
          · rw [if_neg hk] at h
            exact absurd h (hnone rc hrc)
        have hc : e.2.countP (fun rc => rc.1 == role) ≤ 1 := by
          have hnd : rolesList.Nodup := by decide
          have := countP_beq_le_one rolesList hnd role
          rw [← inv.cellKeys e he, List.countP_map] at this
          exact this
        exact le_trans hb hc
      · have hb : (asgSet e.2 role q).countP (fun rc => rc.2 == p) ≤
            e.2.countP (fun rc => rc.2 == p) := by
          unfold asgSet
          rw [List.countP_map]
          apply List.countP_mono_left
          intro rc _ h
          simp only [Function.comp_apply] at h
          by_cases hk : (rc.1 == role) = true
          · rw [if_pos hk] at h
            have : q = p := by simpa using h
            exact absurd this.symm hpq
          · rw [if_neg hk] at h
            exact h
        have hc := inv.perShow e he p hp
        rw [← List.countP_eq_length_filter] at hc
        exact le_trans hb hc
    · rw [if_neg hs] at hf
      rw [← hf]
      exact inv.perShow e he p hp

theorem entryHasStage_empty (k p : String) (hp : ¬ p = "") :
    entryHasStage p (k, emptyShowAsg) = false := by
  unfold entryHasStage emptyShowAsg
  apply List.any_eq_false.mpr
  intro rc hrc
  rcases List.mem_map.mp hrc with ⟨r, _, hf⟩
  rw [← hf]
  intro hcon
  have h2 : "" = p ∧ ¬ r = "OFF" := by simpa using hcon
  exact hp h2.1.symm

/-- The fresh map of `clearAllAssignments` satisfies the invariant. -/
theorem MapInv_mkInit (shows : List Show) : MapInv (mkInit shows) := by
  have hval := mkInit_values shows
  have hkeys : ((mkInit shows).map (fun e => e.1)).Nodup := by
    unfold mkInit
    apply foldl_invariant (P := fun (m : AssignMap) => (m.map (fun e => e.1)).Nodup)
    · simp
    · intro m s _ hm
      exact upsertAL_keys_nodup m s.id emptyShowAsg hm
  constructor
  · exact hkeys
  · intro e he
    rw [hval e he]
    decide
  · intro p hp
    rw [performerShowIds_length]
    have hz : (mkInit shows).countP (entryHasStage p) = 0 := by
      apply List.countP_eq_zero.mpr
      intro e he
      have h1 : e = (e.1, emptyShowAsg) := by
        have := hval e he
        exact Prod.ext rfl this
      rw [h1]
      simp [entryHasStage_empty e.1 p hp]
    omega
  · intro e he p hp
    rw [hval e he, ← List.countP_eq_length_filter]
    have hz : emptyShowAsg.countP (fun rc => rc.2 == p) = 0 := by
      apply List.countP_eq_zero.mpr
      intro rc hrc
      unfold emptyShowAsg at hrc
      rcases List.mem_map.mp hrc with ⟨r, _, hf⟩
      rw [← hf]
      intro hcon
      have h2 : "" = p := by simpa using hcon
      exact hp h2.symm
    omega

/-! ## Invariant propagation through the construction passes -/

theorem elig_guards (shows : List Show) (cast : List CastMember) (m : AssignMap)
    (role sid : String) (mem : CastMember)
    (h : mem ∈ getEligiblePerformers shows cast m role sid) :
    hasExceededWeeklyLimit m mem.name = false ∧
      isPerformerAssignedToShow m mem.name sid = false := by
  unfold getEligiblePerformers at h
  have h2 := List.of_mem_filter h
  have h3 : ((((isPerformerAssignedToShow m mem.name sid = false ∧
      canAssignPerformerToShow shows m mem.name sid = true) ∧
      wouldViolateWeekendRule shows m mem.name sid = false) ∧
      wouldViolateBackToBackDoubleDays shows m mem.name sid = false) ∧
      hasExceededWeeklyLimit m mem.name = false) ∧
      isPerformerEligibleForRole cast mem.name role = true := by
    simpa using h2
  exact ⟨h3.1.2, h3.1.1.1.1.1⟩

theorem selectBest_mem (g : Nat → Nat) (ctr : Nat) (eligible : List CastMember)
    (p : String) (c : Nat) (h : selectBestPerformer g ctr eligible = (some p, c)) :
    ∃ mem ∈ eligible, mem.name = p := by
  unfold selectBestPerformer at h
  cases hs : shuffle g ctr eligible with
  | mk l c2 =>
    rw [hs] at h
    cases l with
    | nil => simp at h
    | cons mem t =>
      have hp : mem.name = p := by
        have := congrArg Prod.fst h
        simpa using this
      have hmem : mem ∈ (shuffle g ctr eligible).1 := by
        rw [hs]
        exact List.mem_cons_self mem t
      exact ⟨mem, (mem_shuffle g ctr eligible mem).mp hmem, hp⟩

theorem fillRolesGo_inv (g : Nat → Nat) (shows : List Show) (cast : List CastMember)
    (sid : String) (roles : List String) (m : AssignMap) (ctr : Nat) (inv : MapInv m) :
    MapInv (fillRolesGo g shows cast sid roles m ctr).2.1 := by
  induction roles generalizing m ctr with
  | nil => exact inv
  | cons role rest ih =>
    rw [fillRolesGo]
    by_cases hempty : (asgGet ((lookupAL m sid).getD emptyShowAsg) role == "") = true
    · rw [if_pos hempty]
      show MapInv (match selectBestPerformer g ctr
          (getEligiblePerformers shows cast m role sid) with
        | (some p, c2) => fillRolesGo g shows cast sid rest (setRole m sid role p) c2
        | (none, c2) => (false, m, c2)).2.1
      cases hsel : selectBestPerformer g ctr (getEligiblePerformers shows cast m role sid) with
      | mk po c2 =>
        cases po with
        | some p =>
          obtain ⟨mem, hmem, hname⟩ :=
            selectBest_mem g ctr (getEligiblePerformers shows cast m role sid) p c2 hsel
          obtain ⟨hw, hasg⟩ := elig_guards shows cast m role sid mem hmem
          rw [hname] at hw hasg
          exact ih (setRole m sid role p) c2 (MapInv_setRole m sid role p inv hw hasg)
        | none => exact inv
    · rw [if_neg hempty]
      exact ih m ctr inv

theorem assignRoles_inv (g : Nat → Nat) (shows : List Show) (cast : List CastMember)
    (st : GenState) (sid : String) (inv : MapInv st.m) :
    MapInv (assignRolesForShow g shows cast st sid).2.m := by
  unfold assignRolesForShow
  split
  · exact inv
  · split
    · exact inv
    · split
      · next m2 c2 heq =>
        have h2 := fillRolesGo_inv g shows cast sid (rolesToFillPair g st.ctr).1 st.m
          (rolesToFillPair g st.ctr).2 inv
        rw [heq] at h2
        exact h2
      · next m2 c2 heq =>
        have h2 := fillRolesGo_inv g shows cast sid (rolesToFillPair g st.ctr).1 st.m
          (rolesToFillPair g st.ctr).2 inv
        rw [heq] at h2
        exact h2

theorem attemptGo_inv (g : Nat → Nat) (shows : List Show) (cast : List CastMember)
    (todo : List Show) (st : GenState) (inv : MapInv st.m) :
    MapInv (attemptGo g shows cast todo st).2.m := by
  induction todo generalizing st with
  | nil => exact inv
  | cons s rest ih =>
    rw [attemptGo]
    have h2 := assignRoles_inv g shows cast st s.id inv
    cases ha : assignRolesForShow g shows cast st s.id with
    | mk ok st2 =>
      rw [ha] at h2
      cases ok with
      | true => exact ih st2 h2
      | false => exact h2

theorem generateAttempt_inv (g : Nat → Nat) (shows : List Show) (cast : List CastMember)
    (st : GenState) (inv : MapInv st.m) :
    MapInv (generateScheduleAttempt g shows cast st).2.m := by
  unfold generateScheduleAttempt
  exact attemptGo_inv g shows cast _ _ inv

/-- Every schedule the retry loop accepts flattens an invariant-respecting
map, and passed the critical-error filter. -/
theorem attemptLoop_sound (g : Nat → Nat) (shows : List Show) (cast : List CastMember)
    (fuel ctr : Nat) (A : List Assignment) (c : Nat)
    (h : attemptLoop g shows cast fuel ctr = some (A, c)) :
    ∃ m off, MapInv m ∧ A = convertToAssignments m off ∧
      hasCriticalErrors (validateSchedule shows cast A).errors = false := by
  induction fuel generalizing ctr with
  | zero => cases h
  | succ fuel ih =>
    rw [attemptLoop] at h
    cases hg : generateScheduleAttempt g shows cast (clearedState shows ctr) with
    | mk ok st1 =>
      rw [hg] at h
      cases ok with
      | true =>
        have h2 : (if hasCriticalErrors (validateSchedule shows cast
              (convertToAssignments st1.m st1.off)).errors = true
            then attemptLoop g shows cast fuel st1.ctr
            else some (convertToAssignments st1.m st1.off, st1.ctr)) = some (A, c) := h
        by_cases hcrit : hasCriticalErrors (validateSchedule shows cast
            (convertToAssignments st1.m st1.off)).errors = true
        · rw [if_pos hcrit] at h2
          exact ih st1.ctr h2
        · rw [if_neg hcrit] at h2
          have hsome := (Option.some.injEq _ _).mp h2
          have hA : convertToAssignments st1.m st1.off = A :=
            congrArg Prod.fst hsome
          have hinv : MapInv st1.m := by
            have h3 := generateAttempt_inv g shows cast (clearedState shows ctr)
              (MapInv_mkInit shows)
            rw [hg] at h3
            exact h3
          refine ⟨st1.m, st1.off, hinv, hA.symm, ?_⟩
          rw [← hA]
          exact Bool.eq_false_iff.mpr hcrit
      | false =>
        have h2 : attemptLoop g shows cast fuel st1.ctr = some (A, c) := h
        exact ih st1.ctr h2

/-! ## Invariant propagation through the partial fallback -/

theorem partialForRole_inv (shows : List Show) (cast : List CastMember) (role : String)
    (todo : List Show) (m : AssignMap) (errs : List String) (inv : MapInv m) :
    MapInv (partialForRole shows cast role todo m errs).1 := by
  induction todo generalizing m errs with
  | nil => exact inv
  | cons sh rest ih =>
    rw [partialForRole]
    by_cases hempty : (asgGet ((lookupAL m sh.id).getD emptyShowAsg) role == "") = true
    · rw [if_pos hempty]
      cases hsort : stableSortBy (fun a b => decide
          (getCurrentShowCount m a.name ≤ getCurrentShowCount m b.name))
          ((cast.filter (fun mem => mem.eligibleRoles.contains role)).filter (fun mem =>
            !(isPerformerAssignedToShow m mem.name sh.id) &&
            !(hasExceededWeeklyLimit m mem.name) &&
            isPerformerEligibleForRole cast mem.name role)) with
      | nil => exact ih m _ inv
      | cons best others =>
        have hmem : best ∈ (cast.filter (fun mem => mem.eligibleRoles.contains role)).filter
            (fun mem => !(isPerformerAssignedToShow m mem.name sh.id) &&
              !(hasExceededWeeklyLimit m mem.name) &&
              isPerformerEligibleForRole cast mem.name role) := by
          have hb : best ∈ stableSortBy (fun a b => decide
              (getCurrentShowCount m a.name ≤ getCurrentShowCount m b.name))
              ((cast.filter (fun mem => mem.eligibleRoles.contains role)).filter (fun mem =>
                !(isPerformerAssignedToShow m mem.name sh.id) &&
                !(hasExceededWeeklyLimit m mem.name) &&
                isPerformerEligibleForRole cast mem.name role)) := by
            rw [hsort]
            exact List.mem_cons_self best others
          exact (mem_stableSortBy _ _ best).mp hb
        have hpred := List.of_mem_filter hmem
        have hsplit : (isPerformerAssignedToShow m best.name sh.id = false ∧
            hasExceededWeeklyLimit m best.name = false) ∧
            isPerformerEligibleForRole cast best.name role = true := by
          simpa using hpred
        exact ih (setRole m sh.id role best.name) errs
          (MapInv_setRole m sh.id role best.name inv hsplit.1.2 hsplit.1.1)
    · rw [if_neg hempty]
      exact ih m errs inv

theorem partialFold_inv (shows : List Show) (cast : List CastMember)
    (roles : List String) (m0 : AssignMap) (errs0 : List String) (inv : MapInv m0) :
    MapInv (roles.foldl
      (fun acc role => partialForRole shows cast role (sortedActiveShows shows) acc.1 acc.2)
      (m0, errs0)).1 := by
  apply foldl_invariant
    (P := fun (acc : AssignMap × List String) => MapInv acc.1)
  · exact inv
  · intro acc role _ hacc
    exact partialForRole_inv shows cast role (sortedActiveShows shows) acc.1 acc.2 hacc

/-! ## From the maps to the output rows -/

theorem convert_stage_mem (m : AssignMap) (off : List (String × List String))
    (a : Assignment) (ha : a ∈ convertToAssignments m off) (hrole : ¬ a.role = "OFF") :
    ∃ e ∈ m, ∃ rc ∈ e.2, e.1 = a.showId ∧ rc.1 = a.role ∧ rc.2 = a.performer ∧
      ¬ rc.2 = "" := by
  unfold convertToAssignments at ha
  rcases List.mem_append.mp ha with h | h
  · rcases List.mem_flatMap.mp h with ⟨e, he, hae⟩
    rcases List.mem_map.mp hae with ⟨rc, hrcf, hrc⟩
    have hrcmem := List.mem_of_mem_filter hrcf
    have hrcpred := List.of_mem_filter hrcf
    have hne : ¬ rc.2 = "" := by simpa using hrcpred
    refine ⟨e, he, rc, hrcmem, ?_, ?_, ?_, hne⟩
    · rw [← hrc]
    · rw [← hrc]
    · rw [← hrc]
  · exfalso
    rcases List.mem_flatMap.mp h with ⟨e, he, hae⟩
    rcases List.mem_map.mp hae with ⟨q, hq, hqa⟩
    apply hrole
    rw [← hqa]

theorem convert_red_false (m : AssignMap) (off : List (String × List String)) :
    ∀ a ∈ convertToAssignments m off, a.isRedDay = false := by
  intro a ha
  unfold convertToAssignments at ha
  rcases List.mem_append.mp ha with h | h <;>
  · rcases List.mem_flatMap.mp h with ⟨e, _, hae⟩
    rcases List.mem_map.mp hae with ⟨rc, _, hrc⟩
    rw [← hrc]

theorem distinctCount_le_length_of_subset [DecidableEq α] (l r : List α)
    (h : ∀ x ∈ l, x ∈ r) : distinctCount l ≤ r.length := by
  unfold distinctCount
  rw [← List.toFinset_card_of_nodup (nodup_dedupKF l)]
  calc (dedupKF l).toFinset.card ≤ r.toFinset.card := by
        apply Finset.card_le_card
        intro x hx
        rw [List.mem_toFinset] at hx ⊢
        exact h x ((mem_dedupKF l x).mp hx)
    _ ≤ r.length := List.toFinset_card_le r

/-- Any row list whose stage rows all descend from an invariant-respecting
map keeps every performer within 6 distinct shows. -/
theorem distinctStage_le_six (B : List Assignment) (m : AssignMap)
    (off : List (String × List String)) (p : String) (hinv : MapInv m)
    (h : ∀ a ∈ B, a.performer = p → ¬ a.role = "OFF" →
      ∃ a2 ∈ convertToAssignments m off, a2.showId = a.showId ∧ a2.performer = p ∧
        ¬ a2.role = "OFF") :
    distinctStageShows B p ≤ 6 := by
  unfold distinctStageShows
  by_cases hp : p = ""
  · subst hp
    have hnil : B.filter (fun a => a.performer == "" && a.role != "OFF") = [] := by
      apply List.filter_eq_nil_iff.mpr
      intro a ha hcon
      have h2 : a.performer = "" ∧ ¬ a.role = "OFF" := by simpa using hcon
      obtain ⟨a2, ha2, hsid, hperf2, hrole2⟩ := h a ha h2.1 h2.2
      obtain ⟨e, he, rc, hrc, hesid, hrcrole, hrcperf, hne⟩ :=
        convert_stage_mem m off a2 ha2 hrole2
      exact hne (hrcperf.trans hperf2)
    rw [hnil]
    have hz : distinctCount (List.map (fun (a : Assignment) => a.showId) []) = 0 := rfl
    omega
  · refine le_trans ?_ (hinv.counts p hp)
    apply distinctCount_le_length_of_subset
    intro x hx
    rcases List.mem_map.mp hx with ⟨a, haf, hax⟩
    have hmem := List.mem_of_mem_filter haf
    have hpred := List.of_mem_filter haf
    have h2 : a.performer = p ∧ ¬ a.role = "OFF" := by simpa using hpred
    obtain ⟨a2, ha2, hsid, hperf2, hrole2⟩ := h a hmem h2.1 h2.2
    obtain ⟨e, he, rc, hrc, hesid, hrcrole, hrcperf, hne⟩ :=
      convert_stage_mem m off a2 ha2 hrole2
    unfold performerShowIds
    apply List.mem_map.mpr
    refine ⟨e, List.mem_filter.mpr ⟨he, ?_⟩, by rw [hesid, hsid, hax]⟩
    unfold entryHasStage
    apply List.any_eq_true.mpr
    refine ⟨rc, hrc, ?_⟩
    rw [hrcperf, hperf2, hrcrole]
    simp [hrole2]

/-! ## The RED-day pass only removes or re-flags stage rows -/

theorem redOffRows_role (shows : List Show) (cast : List CastMember)
    (stage : List Assignment) (redDays : List (String × Nat)) :
    ∀ a ∈ redOffRows shows cast stage redDays, a.role = "OFF" := by
  intro a ha
  unfold redOffRows at ha
  rcases List.mem_flatMap.mp ha with ⟨sh, _, ham⟩
  rcases List.mem_map.mp ham with ⟨q, _, hqa⟩
  rw [← hqa]

theorem redFold_eq (shows : List Show) (bd : Nat) (l : List String) :
    ∀ (b : List Assignment) (r : List (String × Nat)),
    l.foldl (fun (acc : List Assignment × List (String × Nat)) p =>
      ((showsOnDate shows bd).foldl (fun f sh => removeFirstAssignment f sh.id p) acc.1,
        upsertAL acc.2 p bd)) (b, r) =
    (l.foldl (fun f p => (showsOnDate shows bd).foldl
        (fun f sh => removeFirstAssignment f sh.id p) f) b,
      l.foldl (fun r p => upsertAL r p bd) r) := by
  induction l with
  | nil => intro b r; rfl
  | cons p t ih =>
    intro b r
    rw [List.foldl_cons, List.foldl_cons, List.foldl_cons]
    exact ih _ _

theorem removeFold_sublist (shs : List Show) (q : String) :
    ∀ (f : List Assignment),
    (shs.foldl (fun f sh => removeFirstAssignment f sh.id q) f).Sublist f := by
  induction shs with
  | nil => intro f; exact List.Sublist.refl f
  | cons sh t ih =>
    intro f
    exact List.Sublist.trans (ih (removeFirstAssignment f sh.id q))
      (removeFirst_sublist f sh.id q)

theorem removeFoldOuter_sublist (shows : List Show) (bd : Nat) (l : List String) :
    ∀ (b : List Assignment),
    (l.foldl (fun f p => (showsOnDate shows bd).foldl
      (fun f sh => removeFirstAssignment f sh.id p) f) b).Sublist b := by
  induction l with
  | nil => intro b; exact List.Sublist.refl b
  | cons p t ih =>
    intro b
    exact List.Sublist.trans (ih _) (removeFold_sublist (showsOnDate shows bd) p b)

theorem forcedFold_fst_sublist (shows : List Show) (cast : List CastMember)
    (A : List Assignment) (bd : Nat) (base : List Assignment) :
    (forcedFold shows cast A bd base).1.Sublist base := by
  unfold forcedFold
  rw [redFold_eq shows bd (performersWithoutRed shows cast A) base
    (redDaysNaturalMap shows cast A)]
  exact removeFoldOuter_sublist shows bd (performersWithoutRed shows cast A) base

/-- Every non-OFF row surviving the RED-day pass descends from a non-OFF
input row with the same show and performer. -/
theorem assignRedDays_stage (shows : List Show) (cast : List CastMember)
    (A B : List Assignment) (h : assignRedDays shows cast A = some B)
    (a : Assignment) (ha : a ∈ B) (hrole : ¬ a.role = "OFF") :
    ∃ a2 ∈ A, a2.showId = a.showId ∧ a2.performer = a.performer ∧ ¬ a2.role = "OFF" := by
  unfold assignRedDays at h
  cases hd : detectCompanyDayOff shows with
  | some cdo =>
    rw [hd] at h
    have hB : ((A ++ (companyDayOffShowIds shows).flatMap (fun sid =>
        (cast.map (fun c => c.name)).map (fun p => (⟨sid, "OFF", p, true⟩ : Assignment)))).map
        (fun x => if x.role == "OFF" && !((companyDayOffShowIds shows).contains x.showId)
          then { x with isRedDay := false } else x)) = B := Option.some.inj h
    rw [← hB] at ha
    rcases List.mem_map.mp ha with ⟨w, hw, hwa⟩
    by_cases hcond : (w.role == "OFF" &&
        !((companyDayOffShowIds shows).contains w.showId)) = true
    · exfalso
      rw [if_pos hcond] at hwa
      have hsplit : w.role = "OFF" ∧
          ((companyDayOffShowIds shows).contains w.showId) = false := by
        simpa using hcond
      apply hrole
      rw [← hwa]
      exact hsplit.1
    · rw [if_neg hcond] at hwa
      rcases List.mem_append.mp hw with hwA | hwoffs
      · exact ⟨w, hwA, by rw [hwa], by rw [hwa], by rw [hwa]; exact hrole⟩
      · exfalso
        rcases List.mem_flatMap.mp hwoffs with ⟨sid, _, hwm⟩
        rcases List.mem_map.mp hwm with ⟨q, _, hqw⟩
        apply hrole
        rw [← hwa, ← hqw]
  | none =>
    rw [hd] at h
    cases hpw : performersWithoutRed shows cast A with
    | nil =>
      rw [hpw] at h
      have h2 : some (((A.filter (fun x => x.role != "OFF")).map
            (fun x => { x with isRedDay := false })) ++
          redOffRows shows cast ((A.filter (fun x => x.role != "OFF")).map
            (fun x => { x with isRedDay := false }))
            (redDaysNaturalMap shows cast A)) = some B := h
      have hB := Option.some.inj h2
      rw [← hB] at ha
      rcases List.mem_append.mp ha with hbase | hoffr
      · rcases List.mem_map.mp hbase with ⟨a2, ha2f, ha2⟩
        have ha2mem := List.mem_of_mem_filter ha2f
        have ha2pred := List.of_mem_filter ha2f
        have ha2role : ¬ a2.role = "OFF" := by simpa using ha2pred
        exact ⟨a2, ha2mem, by rw [← ha2], by rw [← ha2], ha2role⟩
      · exfalso
        exact hrole (redOffRows_role shows cast _ _ a hoffr)
    | cons q qs =>
      rw [hpw] at h
      cases hbf : bestForcedDate shows (availableDatesOf shows) with
      | none =>
        rw [hbf] at h
        exact absurd (show (none : Option (List Assignment)) = some B from h) (by simp)
      | some bd =>
        rw [hbf] at h
        have h2 : some ((forcedFold shows cast A bd
              ((A.filter (fun x => x.role != "OFF")).map
                (fun x => { x with isRedDay := false }))).1 ++
            redOffRows shows cast (forcedFold shows cast A bd
              ((A.filter (fun x => x.role != "OFF")).map
                (fun x => { x with isRedDay := false }))).1
              (forcedFold shows cast A bd
                ((A.filter (fun x => x.role != "OFF")).map
                  (fun x => { x with isRedDay := false }))).2) = some B := h
        have hB := Option.some.inj h2
        rw [← hB] at ha
        rcases List.mem_append.mp ha with hfor | hoffr
        · have hbase : a ∈ (A.filter (fun x => x.role != "OFF")).map
              (fun x => { x with isRedDay := false }) :=
            (forcedFold_fst_sublist shows cast A bd _).subset hfor
          rcases List.mem_map.mp hbase with ⟨a2, ha2f, ha2⟩
          have ha2mem := List.mem_of_mem_filter ha2f
          have ha2pred := List.of_mem_filter ha2f
          have ha2role : ¬ a2.role = "OFF" := by simpa using ha2pred
          exact ⟨a2, ha2mem, by rw [← ha2], by rw [← ha2], ha2role⟩
        · exfalso
          exact hrole (redOffRows_role shows cast _ _ a hoffr)

/-! ## Case analysis of the generation pipeline output -/

theorem autoGenerateBody_cases (g : Nat → Nat) (shows : List Show)
    (cast : List CastMember) :
    ((autoGenerateBody g shows cast).res.assignments = [] ∧
      (autoGenerateBody g shows cast).res.success = false) ∨
    ((∃ m off, MapInv m ∧
      (autoGenerateBody g shows cast).res.assignments = convertToAssignments m off) ∧
      (autoGenerateBody g shows cast).res.success = false) ∨
    (∃ m off, MapInv m ∧
      assignRedDays shows cast (convertToAssignments m off) =
        some (autoGenerateBody g shows cast).res.assignments) := by
  unfold autoGenerateBody
  split
  · next A c2 hl =>
    obtain ⟨m, off, hinv, hA, hcrit⟩ := attemptLoop_sound g shows cast 100 0 A c2 hl
    split
    · left
      exact ⟨rfl, rfl⟩
    · next finalA hr =>
      right; right
      refine ⟨m, off, hinv, ?_⟩
      rw [← hA]
      exact hr
  · next hl =>
    have hinv := partialFold_inv shows cast (getRolesByDifficulty cast)
      (mkInit shows) [] (MapInv_mkInit shows)
    simp only
    split
    · split
      · left
        exact ⟨rfl, rfl⟩
      · next finalA hr =>
        right; right
        refine ⟨_, mkInitOff shows, hinv, ?_⟩
        exact hr
    · next hcond =>
      right; left
      refine ⟨⟨_, mkInitOff shows, hinv, rfl⟩, ?_⟩
      have hor : ((generatePartialSchedule shows cast (mkInit shows)
            (mkInitOff shows)).success ||
          !(generatePartialSchedule shows cast (mkInit shows)
            (mkInitOff shows)).assignments.isEmpty) = false :=
        Bool.eq_false_iff.mpr hcond
      exact (Bool.or_eq_false_iff.mp hor).1

theorem autoGenerateBody_success (g : Nat → Nat) (shows : List Show)
    (cast : List CastMember)
    (hs : (autoGenerateBody g shows cast).res.success = true) :
    ∃ m off, MapInv m ∧
      assignRedDays shows cast (convertToAssignments m off) =
        some (autoGenerateBody g shows cast).res.assignments := by
  rcases autoGenerateBody_cases g shows cast with ⟨_, hf⟩ | ⟨_, hf⟩ | h3
  · rw [hs] at hf
    cases hf
  · rw [hs] at hf
    cases hf
  · exact h3

theorem body_weekly_cap (g : Nat → Nat) (shows : List Show) (cast : List CastMember)
    (p : String) :
    distinctStageShows (autoGenerateBody g shows cast).res.assignments p ≤ 6 := by
  rcases autoGenerateBody_cases g shows cast with ⟨h, _⟩ | ⟨⟨m, off, hinv, h⟩, _⟩ | ⟨m, off, hinv, h⟩
  · rw [h]
    have hz : distinctStageShows ([] : List Assignment) p = 0 := rfl
    omega
  · rw [h]
    apply distinctStage_le_six (convertToAssignments m off) m off p hinv
    intro a ha hperf hrole
    exact ⟨a, ha, rfl, hperf, hrole⟩
  · apply distinctStage_le_six _ m off p hinv
    intro a ha hperf hrole
    obtain ⟨a2, ha2, hsid, hperf2, hrole2⟩ :=
      assignRedDays_stage shows cast (convertToAssignments m off) _ h a ha hrole
    exact ⟨a2, ha2, hsid, by rw [hperf2, hperf], hrole2⟩

/-- C6: in every assignments array `autoGenerate` returns — accepted attempt,
partial fallback, or any degenerate path — no performer holds a non-OFF role
in more than 6 distinct shows; the constructive engine and the partial
generator both enforce the weekly cap before granting a role, and the RED-day
pass only removes stage rows or adds OFF rows. -/
theorem C6_weekly_cap (g : Nat → Nat) (shows : List Show) (cast : List CastMember)
    (fetched : Option (List CastMember)) (p : String) :
    distinctStageShows (autoGenerate g shows cast fetched).assignments p ≤ 6 := by
  unfold autoGenerate autoGenerateAux
  by_cases hce : cast.isEmpty = true
  · simp only [hce, if_true]
    cases fetched with
    | none =>
      show distinctStageShows fetchFailResult.assignments p ≤ 6
      have hz : distinctStageShows fetchFailResult.assignments p = 0 := rfl
      omega
    | some cs => exact body_weekly_cap g shows cs p
  · have hne : cast.isEmpty = false := by
      cases hb : cast.isEmpty
      · rfl
      · exact absurd hb hce
    simp only [hne, Bool.false_eq_true, if_false]
    exact body_weekly_cap g shows cast p

/-! ## At most one stage row per show and performer -/

theorem countP_congr_eq (l : List α) (p q : α → Bool) (h : ∀ a ∈ l, p a = q a) :
    l.countP p = l.countP q :=
  Nat.le_antisymm (List.countP_mono_left (fun a ha hp => by rw [← h a ha]; exact hp))
    (List.countP_mono_left (fun a ha hq => by rw [h a ha]; exact hq))

theorem entry_rows_pair_le (e : String × ShowAsg) (sid q : String)
    (hq : ¬ q = "" → (e.2.filter (fun rc => rc.2 == q)).length ≤ 1) :
    ((e.2.filter (fun rc => rc.2 != "")).map (fun rc =>
      (⟨e.1, rc.1, rc.2, false⟩ : Assignment))).countP
        (fun a => (a.showId == sid && a.performer == q) && a.role != "OFF") ≤ 1 := by
  by_cases hqe : q = ""
  · subst hqe
    have hz : ((e.2.filter (fun rc => rc.2 != "")).map (fun rc =>
        (⟨e.1, rc.1, rc.2, false⟩ : Assignment))).countP
          (fun a => (a.showId == sid && a.performer == "") && a.role != "OFF") = 0 := by
      apply List.countP_eq_zero.mpr
      intro a ha hpred
      rcases List.mem_map.mp ha with ⟨rc, hrcf, hrc⟩
      have hne : ¬ rc.2 = "" := by simpa using List.of_mem_filter hrcf
      rw [← hrc] at hpred
      have h2 : (rc.2 = "" ∧ True) ∧ True := by
        have h3 : ((rc.2 == "")) = true := by
          have h4 := hpred
          simp only [Bool.and_eq_true] at h4
          exact h4.1.2
        exact ⟨⟨by simpa using h3, trivial⟩, trivial⟩
      exact hne h2.1.1
    omega
  · rw [List.countP_map]
    calc (e.2.filter (fun rc => rc.2 != "")).countP ((fun a =>
          (a.showId == sid && a.performer == q) && a.role != "OFF") ∘ (fun rc =>
          (⟨e.1, rc.1, rc.2, false⟩ : Assignment)))
        ≤ (e.2.filter (fun rc => rc.2 != "")).countP (fun rc => rc.2 == q) := by
          apply List.countP_mono_left
          intro rc _ h
          simp only [Function.comp_apply, Bool.and_eq_true] at h
          exact h.1.2
      _ ≤ e.2.countP (fun rc => rc.2 == q) :=
          (List.filter_sublist e.2).countP_le _
      _ = (e.2.filter (fun rc => rc.2 == q)).length :=
          List.countP_eq_length_filter _ _
      _ ≤ 1 := hq hqe

theorem stage_rows_pair_zero (m : AssignMap) (sid q : String)
    (hsid : sid ∉ m.map (fun e => e.1)) :
    (m.flatMap (fun e => (e.2.filter (fun rc => rc.2 != "")).map (fun rc =>
      (⟨e.1, rc.1, rc.2, false⟩ : Assignment)))).countP
      (fun a => (a.showId == sid && a.performer == q) && a.role != "OFF") = 0 := by
  apply List.countP_eq_zero.mpr
  intro a ha hpred
  rcases List.mem_flatMap.mp ha with ⟨e, he, hae⟩
  rcases List.mem_map.mp hae with ⟨rc, _, hrc⟩
  apply hsid
  have hid : a.showId = sid := by
    simp only [Bool.and_eq_true] at hpred
    simpa using hpred.1.1
  apply List.mem_map.mpr
  refine ⟨e, he, ?_⟩
  rw [← hid, ← hrc]

theorem stage_pair_le (m : AssignMap) (sid q : String)
    (hkeys : (m.map (fun e => e.1)).Nodup)
    (hper : ∀ e ∈ m, ¬ q = "" → (e.2.filter (fun rc => rc.2 == q)).length ≤ 1) :
    (m.flatMap (fun e => (e.2.filter (fun rc => rc.2 != "")).map (fun rc =>
      (⟨e.1, rc.1, rc.2, false⟩ : Assignment)))).countP
      (fun a => (a.showId == sid && a.performer == q) && a.role != "OFF") ≤ 1 := by
  induction m with
  | nil => simp
  | cons e t ih =>
    rw [List.flatMap_cons, List.countP_append]
    have hkeys2 : e.1 ∉ t.map (fun e2 => e2.1) ∧ (t.map (fun e2 => e2.1)).Nodup := by
      rw [List.map_cons, List.nodup_cons] at hkeys
      exact hkeys
    by_cases hs : e.1 = sid
    · have hz := stage_rows_pair_zero t sid q (by rw [← hs]; exact hkeys2.1)
      rw [hz]
      have h1 := entry_rows_pair_le e sid q (hper e (List.mem_cons_self e t))
      omega
    · have hz : ((e.2.filter (fun rc => rc.2 != "")).map (fun rc =>
          (⟨e.1, rc.1, rc.2, false⟩ : Assignment))).countP
          (fun a => (a.showId == sid && a.performer == q) && a.role != "OFF") = 0 := by
        apply List.countP_eq_zero.mpr
        intro a ha hpred
        rcases List.mem_map.mp ha with ⟨rc, _, hrc⟩
        apply hs
        have hid : a.showId = sid := by
          simp only [Bool.and_eq_true] at hpred
          simpa using hpred.1.1
        rw [← hid, ← hrc]
      rw [hz]
      have h2 := ih hkeys2.2 (fun e2 he2 => hper e2 (List.mem_cons_of_mem e he2))
      omega

theorem convert_pair_le (m : AssignMap) (off : List (String × List String))
    (hinv : MapInv m) (sid q : String) :
    (convertToAssignments m off).countP
      (fun a => (a.showId == sid && a.performer == q) && a.role != "OFF") ≤ 1 := by
  unfold convertToAssignments
  rw [List.countP_append]
  have hoff : (off.flatMap (fun e => e.2.map (fun p =>
      (⟨e.1, "OFF", p, false⟩ : Assignment)))).countP
      (fun a => (a.showId == sid && a.performer == q) && a.role != "OFF") = 0 := by
    apply List.countP_eq_zero.mpr
    intro a ha hpred
    rcases List.mem_flatMap.mp ha with ⟨e, _, hae⟩
    rcases List.mem_map.mp hae with ⟨pp, _, hp⟩
    rw [← hp] at hpred
    simp at hpred
  rw [hoff]
  have h1 := stage_pair_le m sid q hinv.keys (fun e he hq =>
    (List.countP_eq_length_filter _ _).symm.trans_le (by
      rw [List.countP_eq_length_filter]
      exact hinv.perShow e he q hq))
  omega

theorem base_pair_le (A : List Assignment) (sid q : String)
    (h : A.countP (fun a => (a.showId == sid && a.performer == q) &&
      a.role != "OFF") ≤ 1) :
    ((A.filter (fun x => x.role != "OFF")).map
      (fun x => { x with isRedDay := false })).countP
      (fun a => a.showId == sid && a.performer == q) ≤ 1 := by
  rw [List.countP_map]
  have he : (A.filter (fun x => x.role != "OFF")).countP ((fun a =>
        a.showId == sid && a.performer == q) ∘ (fun x => { x with isRedDay := false })) =
      (A.filter (fun x => x.role != "OFF")).countP
        (fun a => a.showId == sid && a.performer == q) :=
    countP_congr_eq _ _ _ (fun a _ => rfl)
  rw [he, List.countP_filter]
  exact h

/-! ## The forced RED-day deletions empty the forced performer's date -/

theorem removeFoldInner_zero (q : String) (shs : List Show) :
    ∀ (b : List Assignment),
    (∀ sh ∈ shs, b.countP (fun a => a.showId == sh.id && a.performer == q) ≤ 1) →
    ∀ sh ∈ shs,
    ((shs.foldl (fun f sh => removeFirstAssignment f sh.id q) b).countP
      (fun a => a.showId == sh.id && a.performer == q)) = 0 := by
  induction shs with
  | nil =>
    intro b _ sh hsh
    cases hsh
  | cons s t ih =>
    intro b hb sh hsh
    rw [List.foldl_cons]
    rcases List.mem_cons.mp hsh with hss | hst
    · subst hss
      have h1 : (removeFirstAssignment b sh.id q).countP
          (fun a => a.showId == sh.id && a.performer == q) = 0 :=
        removeFirst_countP_zero b sh.id q (hb sh (List.mem_cons_self sh t))
      have h2 := (removeFold_sublist t q (removeFirstAssignment b sh.id q)).countP_le
        (fun a => a.showId == sh.id && a.performer == q)
      omega
    · exact ih (removeFirstAssignment b s.id q)
        (fun sh2 hsh2 => le_trans
          ((removeFirst_sublist b s.id q).countP_le _)
          (hb sh2 (List.mem_cons_of_mem s hsh2)))
        sh hst

theorem removeFoldOuter_zero (shows : List Show) (bd : Nat) (l : List String) :
    ∀ (b : List Assignment),
    (∀ sh ∈ showsOnDate shows bd, ∀ q ∈ l,
      b.countP (fun a => a.showId == sh.id && a.performer == q) ≤ 1) →
    ∀ q ∈ l, ∀ sh ∈ showsOnDate shows bd,
    ((l.foldl (fun f p => (showsOnDate shows bd).foldl
      (fun f sh => removeFirstAssignment f sh.id p) f) b).countP
      (fun a => a.showId == sh.id && a.performer == q)) = 0 := by
  induction l with
  | nil =>
    intro b _ q hq
    cases hq
  | cons p t ih =>
    intro b hb q hq sh hsh
    rw [List.foldl_cons]
    rcases List.mem_cons.mp hq with hqp | hqt
    · subst hqp
      have h1 : ((showsOnDate shows bd).foldl
          (fun f sh => removeFirstAssignment f sh.id q) b).countP
          (fun a => a.showId == sh.id && a.performer == q) = 0 :=
        removeFoldInner_zero q (showsOnDate shows bd) b
          (fun sh2 hsh2 => hb sh2 hsh2 q (List.mem_cons_self q t)) sh hsh
      have h2 := (removeFoldOuter_sublist shows bd t
          ((showsOnDate shows bd).foldl (fun f sh => removeFirstAssignment f sh.id q) b)).countP_le
        (fun a => a.showId == sh.id && a.performer == q)
      omega
    · exact ih ((showsOnDate shows bd).foldl
          (fun f sh => removeFirstAssignment f sh.id p) b)
        (fun sh2 hsh2 q2 hq2 => le_trans
          ((removeFold_sublist (showsOnDate shows bd) p b).countP_le _)
          (hb sh2 hsh2 q2 (List.mem_cons_of_mem p hq2)))
        q hqt sh hsh

theorem forcedFold_fst_eq (shows : List Show) (cast : List CastMember)
    (A : List Assignment) (bd : Nat) (base : List Assignment) :
    (forcedFold shows cast A bd base).1 =
      (performersWithoutRed shows cast A).foldl
        (fun f p => (showsOnDate shows bd).foldl
          (fun f sh => removeFirstAssignment f sh.id p) f) base := by
  unfold forcedFold
  rw [redFold_eq shows bd (performersWithoutRed shows cast A) base
    (redDaysNaturalMap shows cast A)]

theorem forcedFold_snd_eq (shows : List Show) (cast : List CastMember)
    (A : List Assignment) (bd : Nat) (base : List Assignment) :
    (forcedFold shows cast A bd base).2 =
      (performersWithoutRed shows cast A).foldl (fun r p => upsertAL r p bd)
        (redDaysNaturalMap shows cast A) := by
  unfold forcedFold
  rw [redFold_eq shows bd (performersWithoutRed shows cast A) base
    (redDaysNaturalMap shows cast A)]

/-! ## Day-off bookkeeping lemmas for the RED-day pass -/

theorem dedupKFAux_all_seen [DecidableEq α] (seen : List α) (l : List α)
    (h : ∀ x ∈ l, x ∈ seen) : dedupKFAux seen l = [] := by
  induction l with
  | nil => rfl
  | cons x t ih =>
    rw [dedupKFAux, if_pos (h x (List.mem_cons_self x t))]
    exact ih (fun y hy => h y (List.mem_cons_of_mem x hy))

theorem dedupKF_const [DecidableEq α] (l : List α) (d : α) (hne : l ≠ [])
    (hall : ∀ x ∈ l, x = d) : dedupKF l = [d] := by
  cases l with
  | nil => exact absurd rfl hne
  | cons x t =>
    have hx : x = d := hall x (List.mem_cons_self x t)
    subst hx
    unfold dedupKF
    rw [dedupKFAux, if_neg (List.not_mem_nil x)]
    congr 1
    apply dedupKFAux_all_seen
    intro y hy
    rw [hall y (List.mem_cons_of_mem x hy)]
    exact List.mem_cons_self x []

theorem find_by_id_nodup (shows : List Show) (hnd : (shows.map (fun s => s.id)).Nodup)
    (s0 : Show) (hs : s0 ∈ shows) :
    shows.find? (fun s => s.id == s0.id) = some s0 := by
  cases hf : shows.find? (fun s => s.id == s0.id) with
  | none =>
    exfalso
    have h2 := List.find?_eq_none.mp hf s0 hs
    simp at h2
  | some s1 =>
    have hmem := List.mem_of_find?_eq_some hf
    have hpred := List.find?_some hf
    have hid : s1.id = s0.id := by simpa using hpred
    have heq : s1 = s0 := List.inj_on_of_nodup_map hnd hmem hs hid
    rw [heq]

theorem redDaysNatural_mem (shows : List Show) (cast : List CastMember)
    (A : List Assignment) (k : String) (d : Nat)
    (h : lookupAL (redDaysNaturalMap shows cast A) k = some d) :
    d ∈ naturalDaysOff shows A k := by
  unfold redDaysNaturalMap at h
  have hP := foldl_invariant (P := fun (acc : List (String × Nat)) =>
      ∀ k2 v2, lookupAL acc k2 = some v2 → v2 ∈ naturalDaysOff shows A k2)
    (fun acc p =>
      match stableSortBy (fun a b =>
          if (isWeekend a != isWeekend b) then !(isWeekend a)
          else decide (lenOr99 shows a ≤ lenOr99 shows b)) (naturalDaysOff shows A p) with
      | [] => acc
      | d :: _ => upsertAL acc p d)
    (cast.map (fun c => c.name)) [] ?_ ?_
  · exact hP k d h
  · intro k2 v2 hkv
    simp [lookupAL] at hkv
  · intro acc q _ hacc k2 v2 hkv
    have hkv1 : lookupAL (match stableSortBy (fun a b =>
        if (isWeekend a != isWeekend b) then !(isWeekend a)
        else decide (lenOr99 shows a ≤ lenOr99 shows b)) (naturalDaysOff shows A q) with
      | [] => acc
      | d :: _ => upsertAL acc q d) k2 = some v2 := hkv
    cases hsort : stableSortBy (fun a b =>
        if (isWeekend a != isWeekend b) then !(isWeekend a)
        else decide (lenOr99 shows a ≤ lenOr99 shows b)) (naturalDaysOff shows A q) with
    | nil =>
      rw [hsort] at hkv1
      exact hacc k2 v2 hkv1
    | cons d0 rest =>
      rw [hsort] at hkv1
      have hkv2 : lookupAL (upsertAL acc q d0) k2 = some v2 := hkv1
      by_cases hk2q : k2 = q
      · subst hk2q
        rw [lookupAL_upsert_self] at hkv2
        have hv : v2 = d0 := (Option.some.inj hkv2).symm
        rw [hv]
        have hd0 : d0 ∈ stableSortBy (fun a b =>
            if (isWeekend a != isWeekend b) then !(isWeekend a)
            else decide (lenOr99 shows a ≤ lenOr99 shows b)) (naturalDaysOff shows A k2) := by
          rw [hsort]
          exact List.mem_cons_self d0 rest
        exact (mem_stableSortBy _ _ d0).mp hd0
      · rw [lookupAL_upsert_ne acc q k2 d0 hk2q] at hkv2
        exact hacc k2 v2 hkv2

theorem naturalDaysOff_no_stage (shows : List Show) (A : List Assignment) (p : String)
    (d : Nat) (hd : d ∈ naturalDaysOff shows A p) (a : Assignment) (ha : a ∈ A)
    (hperf : a.performer = p) (hrole : ¬ a.role = "OFF") (s : Show)
    (hs : s ∈ showsOnDate shows d) (hsid : s.id = a.showId) : False := by
  have hpred := List.of_mem_filter hd
  have hempty : A.filter (fun a => a.performer == p && a.role != "OFF" &&
      (showsOnDate shows d).any (fun s => s.id == a.showId)) = [] :=
    List.isEmpty_iff.mp hpred
  have hmm : a ∈ A.filter (fun a => a.performer == p && a.role != "OFF" &&
      (showsOnDate shows d).any (fun s => s.id == a.showId)) := by
    apply List.mem_filter.mpr
    refine ⟨ha, ?_⟩
    have hany : (showsOnDate shows d).any (fun s2 => s2.id == a.showId) = true :=
      List.any_eq_true.mpr ⟨s, hs, by simp [hsid]⟩
    simp [hperf, hrole, hany]
  rw [hempty] at hmm
  cases hmm

theorem availableDates_show (shows : List Show) (d : Nat)
    (hd : d ∈ availableDatesOf shows) : ∃ s, s ∈ showsOnDate shows d := by
  unfold availableDatesOf at hd
  unfold sortNat at hd
  have h1 : d ∈ dedupKF ((activeShowsOf shows).map (fun s => s.date)) :=
    (mem_stableSortBy _ _ d).mp hd
  have h2 : d ∈ (activeShowsOf shows).map (fun s => s.date) := (mem_dedupKF _ d).mp h1
  rcases List.mem_map.mp h2 with ⟨s, hs, hsd⟩
  exact ⟨s, List.mem_filter.mpr ⟨hs, by simp [hsd]⟩⟩

theorem bestForcedDate_mem (shows : List Show) (dates : List Nat) (bd : Nat)
    (h : bestForcedDate shows dates = some bd) : bd ∈ dates := by
  unfold bestForcedDate at h
  cases dates with
  | nil => cases h
  | cons d0 rest =>
    have hb := Option.some.inj h
    rw [← hb]
    apply foldl_invariant (P := fun (best : Nat × Int) => best.1 ∈ d0 :: rest)
      _ (d0 :: rest) (d0, (-1 : Int)) (List.mem_cons_self d0 rest)
    intro best d hd hP
    simp only
    repeat' split
    all_goals first
      | exact hd
      | exact hP

theorem performersWithoutRed_mem (shows : List Show) (cast : List CastMember)
    (A : List Assignment) (p : String) :
    p ∈ performersWithoutRed shows cast A ↔
      p ∈ cast.map (fun c => c.name) ∧
        lookupAL (redDaysNaturalMap shows cast A) p = none := by
  unfold performersWithoutRed
  rw [List.mem_filter]
  constructor
  · rintro ⟨h1, h2⟩
    exact ⟨h1, Option.isNone_iff_eq_none.mp (by simpa using h2)⟩
  · rintro ⟨h1, h2⟩
    exact ⟨h1, by simp [h2]⟩

theorem redOffRows_mem (shows : List Show) (cast : List CastMember)
    (stage : List Assignment) (redDays : List (String × Nat)) (sh : Show)
    (hsh : sh ∈ activeShowsOf shows) (p : String)
    (hp : p ∈ cast.map (fun c => c.name))
    (hnostage : stage.countP (fun a => a.showId == sh.id && a.performer == p) = 0) :
    (⟨sh.id, "OFF", p, lookupAL redDays p == some sh.date⟩ : Assignment) ∈
      redOffRows shows cast stage redDays := by
  unfold redOffRows
  apply List.mem_flatMap.mpr
  refine ⟨sh, hsh, ?_⟩
  apply List.mem_map.mpr
  refine ⟨p, ?_, rfl⟩
  apply List.mem_filter.mpr
  refine ⟨hp, ?_⟩
  have hc : ((stage.filter (fun a => a.showId == sh.id && a.role != "OFF")).map
      (fun a => a.performer)).contains p = false := by
    by_cases hcc : ((stage.filter (fun a => a.showId == sh.id && a.role != "OFF")).map
        (fun a => a.performer)).contains p = true
    · exfalso
      have hmem : p ∈ (stage.filter (fun a => a.showId == sh.id && a.role != "OFF")).map
          (fun a => a.performer) := List.elem_iff.mp hcc
      rcases List.mem_map.mp hmem with ⟨a, haf, hap⟩
      have hamem := List.mem_of_mem_filter haf
      have hapred := List.of_mem_filter haf
      have h2 : a.showId = sh.id ∧ ¬ a.role = "OFF" := by simpa using hapred
      have hpos : 0 < stage.countP (fun a => a.showId == sh.id && a.performer == p) :=
        List.countP_pos_iff.mpr ⟨a, hamem, by simp [h2.1, hap]⟩
      omega
    · exact Bool.eq_false_iff.mpr hcc
  rw [hc]
  rfl

theorem redOffRows_red_mem (shows : List Show) (cast : List CastMember)
    (stage : List Assignment) (redDays : List (String × Nat)) (a : Assignment)
    (ha : a ∈ redOffRows shows cast stage redDays) (hred : a.isRedDay = true) :
    ∃ sh ∈ activeShowsOf shows, a.showId = sh.id ∧ a.role = "OFF" ∧
      lookupAL redDays a.performer = some sh.date := by
  unfold redOffRows at ha
  rcases List.mem_flatMap.mp ha with ⟨sh, hsh, ham⟩
  rcases List.mem_map.mp ham with ⟨p0, _, hp0⟩
  refine ⟨sh, hsh, by rw [← hp0], by rw [← hp0], ?_⟩
  rw [← hp0] at hred ⊢
  simpa using hred

theorem base_red_false (A : List Assignment) :
    ∀ a ∈ (A.filter (fun x => x.role != "OFF")).map
      (fun x => { x with isRedDay := false }), a.isRedDay = false := by
  intro a ha
  rcases List.mem_map.mp ha with ⟨x, _, hx⟩
  rw [← hx]

theorem companyIds_date (shows : List Show) (cdo : Nat)
    (hd : detectCompanyDayOff shows = some cdo) (sid : String)
    (hsid : sid ∈ companyDayOffShowIds shows) :
    ∃ s0 ∈ shows, s0.id = sid ∧ s0.date = cdo := by
  unfold companyDayOffShowIds at hsid
  rw [hd] at hsid
  rcases List.mem_map.mp hsid with ⟨s0, hs0f, hs0⟩
  have hmem := List.mem_of_mem_filter hs0f
  have hpred := List.of_mem_filter hs0f
  have h2 : s0.date = cdo ∧ s0.status = "dayoff" := by simpa using hpred
  exact ⟨s0, hmem, hs0, h2.1⟩

theorem companyIds_nonempty (shows : List Show) (cdo : Nat)
    (hd : detectCompanyDayOff shows = some cdo) :
    ∃ sid, sid ∈ companyDayOffShowIds shows := by
  have hd2 : (match stableSortBy (fun a b => decide (a.date ≤ b.date))
      (shows.filter (fun s => s.status == "dayoff")) with
    | [] => (none : Option Nat)
    | s :: _ => some s.date) = some cdo := hd
  cases hsort : stableSortBy (fun a b => decide (a.date ≤ b.date))
      (shows.filter (fun s => s.status == "dayoff")) with
  | nil =>
    rw [hsort] at hd2
    exact Option.noConfusion hd2
  | cons s rest =>
    rw [hsort] at hd2
    have hdate : s.date = cdo := Option.some.inj hd2
    have hsmem : s ∈ stableSortBy (fun a b => decide (a.date ≤ b.date))
        (shows.filter (fun s => s.status == "dayoff")) := by
      rw [hsort]
      exact List.mem_cons_self s rest
    have hsf := (mem_stableSortBy _ _ s).mp hsmem
    have hsmem2 := List.mem_of_mem_filter hsf
    have hspred := List.of_mem_filter hsf
    refine ⟨s.id, ?_⟩
    unfold companyDayOffShowIds
    rw [hd]
    apply List.mem_map.mpr
    refine ⟨s, List.mem_filter.mpr ⟨hsmem2, ?_⟩, rfl⟩
    simp [hdate, hspred]

/-! ## RED-day coverage -/

/-- One RED date for every roster performer, given one binding in the final
RED-day map and a red-flag-free stage list. -/
theorem redDates_one_generic (shows : List Show) (cast : List CastMember)
    (S : List Assignment) (redDays : List (String × Nat)) (p : String) (dp : Nat)
    (hnd : (shows.map (fun s => s.id)).Nodup)
    (hS : ∀ a ∈ S, a.isRedDay = false)
    (hlook : lookupAL redDays p = some dp)
    (hrowmem : ∃ a ∈ S ++ redOffRows shows cast S redDays,
      a.performer = p ∧ a.isRedDay = true) :
    (redDatesOf shows (S ++ redOffRows shows cast S redDays) p).length = 1 := by
  have hall : ∀ x ∈ ((S ++ redOffRows shows cast S redDays).filter
      (fun a => a.performer == p && a.isRedDay)).filterMap
      (fun a => (shows.find? (fun s => s.id == a.showId)).map (fun s => s.date)),
      x = dp := by
    intro x hx
    rcases List.mem_filterMap.mp hx with ⟨a, haf, hax⟩
    have hamem := List.mem_of_mem_filter haf
    have hapred : a.performer = p ∧ a.isRedDay = true := by
      simpa using List.of_mem_filter haf
    have haoff : a ∈ redOffRows shows cast S redDays := by
      rcases List.mem_append.mp hamem with h1 | h1
      · exact absurd hapred.2 (by rw [hS a h1]; simp)
      · exact h1
    obtain ⟨sh, hshact, hshowid, _, hlook2⟩ :=
      redOffRows_red_mem shows cast S redDays a haoff hapred.2
    rw [hapred.1] at hlook2
    rw [hlook] at hlook2
    have hdate : sh.date = dp := (Option.some.inj hlook2).symm
    have hfind : shows.find? (fun s => s.id == a.showId) = some sh := by
      rw [hshowid]
      exact find_by_id_nodup shows hnd sh (List.mem_of_mem_filter hshact)
    rw [hfind] at hax
    have hx2 : sh.date = x := by simpa using hax
    rw [← hx2]
    exact hdate
  obtain ⟨a0, ha0mem, ha0perf, ha0red⟩ := hrowmem
  have ha0off : a0 ∈ redOffRows shows cast S redDays := by
    rcases List.mem_append.mp ha0mem with h1 | h1
    · exact absurd ha0red (by rw [hS a0 h1]; simp)
    · exact h1
  obtain ⟨sh0, hsh0act, hsh0id, _, _⟩ :=
    redOffRows_red_mem shows cast S redDays a0 ha0off ha0red
  have hfind0 : shows.find? (fun s => s.id == a0.showId) = some sh0 := by
    rw [hsh0id]
    exact find_by_id_nodup shows hnd sh0 (List.mem_of_mem_filter hsh0act)
  have hx0 : sh0.date ∈ ((S ++ redOffRows shows cast S redDays).filter
      (fun a => a.performer == p && a.isRedDay)).filterMap
      (fun a => (shows.find? (fun s => s.id == a.showId)).map (fun s => s.date)) := by
    apply List.mem_filterMap.mpr
    refine ⟨a0, List.mem_filter.mpr ⟨ha0mem, by simp [ha0perf, ha0red]⟩, ?_⟩
    rw [hfind0]
    rfl
  unfold redDatesOf
  rw [dedupKF_const _ dp (List.ne_nil_of_mem hx0) hall]
  rfl

/-- The RED-day pass marks every roster performer exactly once: at least one
red row, and a single distinct red date. -/
theorem assignRedDays_red (shows : List Show) (cast : List CastMember)
    (A B : List Assignment) (p : String)
    (hnd : (shows.map (fun s => s.id)).Nodup)
    (hA : ∀ a ∈ A, a.isRedDay = false)
    (hrow : ∀ sid q, A.countP (fun a => (a.showId == sid && a.performer == q) &&
      a.role != "OFF") ≤ 1)
    (hB : assignRedDays shows cast A = some B)
    (hp : p ∈ cast.map (fun c => c.name)) :
    (∃ a ∈ B, a.performer = p ∧ a.isRedDay = true) ∧
    (redDatesOf shows B p).length = 1 := by
  unfold assignRedDays at hB
  cases hd : detectCompanyDayOff shows with
  | some cdo =>
    rw [hd] at hB
    have hB2 : some ((A ++ (companyDayOffShowIds shows).flatMap (fun sid =>
        (cast.map (fun c => c.name)).map (fun q =>
          (⟨sid, "OFF", q, true⟩ : Assignment)))).map
        (fun x => if x.role == "OFF" && !((companyDayOffShowIds shows).contains x.showId)
          then { x with isRedDay := false } else x)) = some B := hB
    have hBeq : B = (A ++ (companyDayOffShowIds shows).flatMap (fun sid =>
        (cast.map (fun c => c.name)).map (fun q =>
          (⟨sid, "OFF", q, true⟩ : Assignment)))).map
        (fun x => if x.role == "OFF" && !((companyDayOffShowIds shows).contains x.showId)
          then { x with isRedDay := false } else x) := (Option.some.inj hB2).symm
    obtain ⟨sid0, hsid0⟩ := companyIds_nonempty shows cdo hd
    obtain ⟨s0, hs0mem, hs0id, hs0date⟩ := companyIds_date shows cdo hd sid0 hsid0
    have hcontains : (companyDayOffShowIds shows).contains sid0 = true :=
      List.elem_iff.mpr hsid0
    have hw : (⟨sid0, "OFF", p, true⟩ : Assignment) ∈
        A ++ (companyDayOffShowIds shows).flatMap (fun sid =>
          (cast.map (fun c => c.name)).map (fun q =>
            (⟨sid, "OFF", q, true⟩ : Assignment))) := by
      apply List.mem_append.mpr
      right
      apply List.mem_flatMap.mpr
      refine ⟨sid0, ?_, ?_⟩
      · exact hsid0
      · exact List.mem_map.mpr ⟨p, hp, rfl⟩
    have harow : (⟨sid0, "OFF", p, true⟩ : Assignment) ∈ B := by
      rw [hBeq]
      apply List.mem_map.mpr
      refine ⟨⟨sid0, "OFF", p, true⟩, hw, ?_⟩
      split
      · next hcon =>
        exfalso
        simp at hcon
        exact hcon hsid0
      · rfl
    refine ⟨⟨⟨sid0, "OFF", p, true⟩, harow, rfl, rfl⟩, ?_⟩
    have hall : ∀ x ∈ (B.filter (fun a => a.performer == p && a.isRedDay)).filterMap
        (fun a => (shows.find? (fun s => s.id == a.showId)).map (fun s => s.date)),
        x = cdo := by
      intro x hx
      rcases List.mem_filterMap.mp hx with ⟨a, haf, hax⟩
      have hamem := List.mem_of_mem_filter haf
      have hapred : a.performer = p ∧ a.isRedDay = true := by
        simpa using List.of_mem_filter haf
      rw [hBeq] at hamem
      rcases List.mem_map.mp hamem with ⟨w2, hw2, hw2a⟩
      by_cases hcond : (w2.role == "OFF" &&
          !((companyDayOffShowIds shows).contains w2.showId)) = true
      · exfalso
        rw [if_pos hcond] at hw2a
        rw [← hw2a] at hapred
        exact absurd hapred.2 (by simp)
      · rw [if_neg hcond] at hw2a
        rcases List.mem_append.mp hw2 with hwA | hwoffs
        · exfalso
          have := hA w2 hwA
          rw [hw2a] at this
          rw [this] at hapred
          exact absurd hapred.2 (by simp)
        · rcases List.mem_flatMap.mp hwoffs with ⟨sid, hsid, hwm⟩
          rcases List.mem_map.mp hwm with ⟨q, hq, hqw⟩
          obtain ⟨s1, hs1mem, hs1id, hs1date⟩ := companyIds_date shows cdo hd sid hsid
          have hsid2 : a.showId = s1.id := by
            rw [← hw2a, ← hqw]
            exact hs1id.symm
          have hfind : shows.find? (fun s => s.id == a.showId) = some s1 := by
            rw [hsid2]
            exact find_by_id_nodup shows hnd s1 hs1mem
          rw [hfind] at hax
          have hx2 : s1.date = x := by simpa using hax
          rw [← hx2]
          exact hs1date
    have hfind0 : shows.find? (fun s =>
        s.id == (⟨sid0, "OFF", p, true⟩ : Assignment).showId) = some s0 := by
      show shows.find? (fun s => s.id == sid0) = some s0
      rw [← hs0id]
      exact find_by_id_nodup shows hnd s0 hs0mem
    have hx0 : s0.date ∈ (B.filter (fun a => a.performer == p && a.isRedDay)).filterMap
        (fun a => (shows.find? (fun s => s.id == a.showId)).map (fun s => s.date)) := by
      apply List.mem_filterMap.mpr
      refine ⟨⟨sid0, "OFF", p, true⟩,
        List.mem_filter.mpr ⟨harow, by simp⟩, ?_⟩
      rw [hfind0]
      rfl
    unfold redDatesOf
    rw [dedupKF_const _ cdo (List.ne_nil_of_mem hx0) hall]
    rfl
  | none =>
    rw [hd] at hB
    have hbase_red := base_red_false A
    have hbase_pair : ∀ sid q, ((A.filter (fun x => x.role != "OFF")).map
        (fun x => { x with isRedDay := false })).countP
        (fun a => a.showId == sid && a.performer == q) ≤ 1 :=
      fun sid q => base_pair_le A sid q (hrow sid q)
    cases hpw : performersWithoutRed shows cast A with
    | nil =>
      rw [hpw] at hB
      have hB2 : some (((A.filter (fun x => x.role != "OFF")).map
            (fun x => { x with isRedDay := false })) ++
          redOffRows shows cast ((A.filter (fun x => x.role != "OFF")).map
            (fun x => { x with isRedDay := false }))
            (redDaysNaturalMap shows cast A)) = some B := hB
      have hBeq := (Option.some.inj hB2).symm
      have hdp : ∃ dp, lookupAL (redDaysNaturalMap shows cast A) p = some dp := by
        cases hl : lookupAL (redDaysNaturalMap shows cast A) p with
        | some dp => exact ⟨dp, rfl⟩
        | none =>
          exfalso
          have hmem : p ∈ performersWithoutRed shows cast A :=
            (performersWithoutRed_mem shows cast A p).mpr ⟨hp, hl⟩
          rw [hpw] at hmem
          cases hmem
      obtain ⟨dp, hl⟩ := hdp
      have hnat := redDaysNatural_mem shows cast A p dp hl
      obtain ⟨sh0, hsh0⟩ := availableDates_show shows dp (List.mem_of_mem_filter hnat)
      have hsh0date : sh0.date = dp := by
        simpa using List.of_mem_filter hsh0
      have hnostage : ((A.filter (fun x => x.role != "OFF")).map
          (fun x => { x with isRedDay := false })).countP
          (fun a => a.showId == sh0.id && a.performer == p) = 0 := by
        apply List.countP_eq_zero.mpr
        intro a ha hpred
        rcases List.mem_map.mp ha with ⟨a2, ha2f, ha2⟩
        have hpred2 : a.showId = sh0.id ∧ a.performer = p := by simpa using hpred
        have ha2role : ¬ a2.role = "OFF" := by
          simpa using List.of_mem_filter ha2f
        apply naturalDaysOff_no_stage shows A p dp hnat a2
          (List.mem_of_mem_filter ha2f) (by rw [← ha2] at hpred2; exact hpred2.2)
          ha2role sh0 hsh0
        rw [← ha2] at hpred2
        exact hpred2.1.symm
      have hmem0 := redOffRows_mem shows cast ((A.filter (fun x => x.role != "OFF")).map
          (fun x => { x with isRedDay := false })) (redDaysNaturalMap shows cast A)
          sh0 (List.mem_of_mem_filter hsh0) p hp hnostage
      have hflag : (lookupAL (redDaysNaturalMap shows cast A) p == some sh0.date) = true := by
        rw [hl, hsh0date]
        simp
      have hrowmem : ∃ a ∈ B, a.performer = p ∧ a.isRedDay = true := by
        refine ⟨⟨sh0.id, "OFF", p,
          lookupAL (redDaysNaturalMap shows cast A) p == some sh0.date⟩, ?_, rfl, hflag⟩
        rw [hBeq]
        exact List.mem_append.mpr (Or.inr hmem0)
      refine ⟨hrowmem, ?_⟩
      rw [hBeq]
      apply redDates_one_generic shows cast _ _ p dp hnd hbase_red hl
      rw [← hBeq]
      exact hrowmem
    | cons q qs =>
      rw [hpw] at hB
      cases hbf : bestForcedDate shows (availableDatesOf shows) with
      | none =>
        rw [hbf] at hB
        exact Option.noConfusion (show (none : Option (List Assignment)) = some B from hB)
      | some bd =>
        rw [hbf] at hB
        have hB2 : some ((forcedFold shows cast A bd
              ((A.filter (fun x => x.role != "OFF")).map
                (fun x => { x with isRedDay := false }))).1 ++
            redOffRows shows cast (forcedFold shows cast A bd
              ((A.filter (fun x => x.role != "OFF")).map
                (fun x => { x with isRedDay := false }))).1
              (forcedFold shows cast A bd
                ((A.filter (fun x => x.role != "OFF")).map
                  (fun x => { x with isRedDay := false }))).2) = some B := hB
        have hBeq := (Option.some.inj hB2).symm
        have hfsub := forcedFold_fst_sublist shows cast A bd
          ((A.filter (fun x => x.role != "OFF")).map (fun x => { x with isRedDay := false }))
        have hfred : ∀ a ∈ (forcedFold shows cast A bd
            ((A.filter (fun x => x.role != "OFF")).map
              (fun x => { x with isRedDay := false }))).1, a.isRedDay = false :=
          fun a ha => hbase_red a (hfsub.subset ha)
        cases hl : lookupAL (redDaysNaturalMap shows cast A) p with
        | some dn =>
          have hpnot : p ∉ performersWithoutRed shows cast A := by
            intro hmem
            have h2 := (performersWithoutRed_mem shows cast A p).mp hmem
            rw [hl] at h2
            exact Option.noConfusion h2.2
          have hlook2 : lookupAL (forcedFold shows cast A bd
              ((A.filter (fun x => x.role != "OFF")).map
                (fun x => { x with isRedDay := false }))).2 p = some dn := by
            rw [forcedFold_snd_eq]
            rw [foldl_upsert_not_mem (performersWithoutRed shows cast A) bd
              (redDaysNaturalMap shows cast A) p hpnot]
            exact hl
          have hnat := redDaysNatural_mem shows cast A p dn hl
          obtain ⟨sh0, hsh0⟩ := availableDates_show shows dn (List.mem_of_mem_filter hnat)
          have hsh0date : sh0.date = dn := by
            simpa using List.of_mem_filter hsh0
          have hnostage_base : ((A.filter (fun x => x.role != "OFF")).map
              (fun x => { x with isRedDay := false })).countP
              (fun a => a.showId == sh0.id && a.performer == p) = 0 := by
            apply List.countP_eq_zero.mpr
            intro a ha hpred
            rcases List.mem_map.mp ha with ⟨a2, ha2f, ha2⟩
            have hpred2 : a.showId = sh0.id ∧ a.performer = p := by simpa using hpred
            have ha2role : ¬ a2.role = "OFF" := by
              simpa using List.of_mem_filter ha2f
            apply naturalDaysOff_no_stage shows A p dn hnat a2
              (List.mem_of_mem_filter ha2f) (by rw [← ha2] at hpred2; exact hpred2.2)
              ha2role sh0 hsh0
            rw [← ha2] at hpred2
            exact hpred2.1.symm
          have hnostage : (forcedFold shows cast A bd
              ((A.filter (fun x => x.role != "OFF")).map
                (fun x => { x with isRedDay := false }))).1.countP
              (fun a => a.showId == sh0.id && a.performer == p) = 0 := by
            have hle := hfsub.countP_le (fun a => a.showId == sh0.id && a.performer == p)
            omega
          have hmem0 := redOffRows_mem shows cast (forcedFold shows cast A bd
              ((A.filter (fun x => x.role != "OFF")).map
                (fun x => { x with isRedDay := false }))).1
              (forcedFold shows cast A bd
                ((A.filter (fun x => x.role != "OFF")).map
                  (fun x => { x with isRedDay := false }))).2
              sh0 (List.mem_of_mem_filter hsh0) p hp hnostage
          have hflag : (lookupAL (forcedFold shows cast A bd
              ((A.filter (fun x => x.role != "OFF")).map
                (fun x => { x with isRedDay := false }))).2 p == some sh0.date) = true := by
            rw [hlook2, hsh0date]
            simp
          have hrowmem : ∃ a ∈ B, a.performer = p ∧ a.isRedDay = true := by
            refine ⟨⟨sh0.id, "OFF", p, lookupAL (forcedFold shows cast A bd
              ((A.filter (fun x => x.role != "OFF")).map
                (fun x => { x with isRedDay := false }))).2 p == some sh0.date⟩,
              ?_, rfl, hflag⟩
            rw [hBeq]
            exact List.mem_append.mpr (Or.inr hmem0)
          refine ⟨hrowmem, ?_⟩
          rw [hBeq]
          apply redDates_one_generic shows cast _ _ p dn hnd hfred hlook2
          rw [← hBeq]
          exact hrowmem
        | none =>
          have hpforced : p ∈ performersWithoutRed shows cast A :=
            (performersWithoutRed_mem shows cast A p).mpr ⟨hp, hl⟩
          have hlookf : lookupAL (forcedFold shows cast A bd
              ((A.filter (fun x => x.role != "OFF")).map
                (fun x => { x with isRedDay := false }))).2 p = some bd := by
            rw [forcedFold_snd_eq]
            exact foldl_upsert_mem (performersWithoutRed shows cast A) bd
              (redDaysNaturalMap shows cast A) p hpforced
          have hbd_mem := bestForcedDate_mem shows (availableDatesOf shows) bd hbf
          obtain ⟨shb, hshb⟩ := availableDates_show shows bd hbd_mem
          have hshbdate : shb.date = bd := by
            simpa using List.of_mem_filter hshb
          have hzero := removeFoldOuter_zero shows bd (performersWithoutRed shows cast A)
            ((A.filter (fun x => x.role != "OFF")).map (fun x => { x with isRedDay := false }))
            (fun sh _ q2 _ => hbase_pair sh.id q2) p hpforced shb hshb
          have hz2 : (forcedFold shows cast A bd
              ((A.filter (fun x => x.role != "OFF")).map
                (fun x => { x with isRedDay := false }))).1.countP
              (fun a => a.showId == shb.id && a.performer == p) = 0 := by
            rw [forcedFold_fst_eq]
            exact hzero
          have hmem0 := redOffRows_mem shows cast (forcedFold shows cast A bd
              ((A.filter (fun x => x.role != "OFF")).map
                (fun x => { x with isRedDay := false }))).1
              (forcedFold shows cast A bd
                ((A.filter (fun x => x.role != "OFF")).map
                  (fun x => { x with isRedDay := false }))).2
              shb (List.mem_of_mem_filter hshb) p hp hz2
          have hflag : (lookupAL (forcedFold shows cast A bd
              ((A.filter (fun x => x.role != "OFF")).map
                (fun x => { x with isRedDay := false }))).2 p == some shb.date) = true := by
            rw [hlookf, hshbdate]
            simp
          have hrowmem : ∃ a ∈ B, a.performer = p ∧ a.isRedDay = true := by
            refine ⟨⟨shb.id, "OFF", p, lookupAL (forcedFold shows cast A bd
              ((A.filter (fun x => x.role != "OFF")).map
                (fun x => { x with isRedDay := false }))).2 p == some shb.date⟩,
              ?_, rfl, hflag⟩
            rw [hBeq]
            exact List.mem_append.mpr (Or.inr hmem0)
          refine ⟨hrowmem, ?_⟩
          rw [hBeq]
          apply redDates_one_generic shows cast _ _ p bd hnd hfred hlookf
          rw [← hBeq]
          exact hrowmem

/-- C2: on every successful `autoGenerate` run (main accepted path or partial
fallback, both of which end in the RED-day pass), every roster performer has
at least one `isRedDay = true` assignment, and the set of distinct dates of
that performer's red assignments has size exactly 1; stated for a supplied
(non-empty) roster and duplicate-free show ids, which the date resolution
reads through. -/
theorem C2_red_coverage (g : Nat → Nat) (shows : List Show) (cast : List CastMember)
    (fetched : Option (List CastMember)) (p : String)
    (hnd : (shows.map (fun s => s.id)).Nodup)
    (hc : cast.isEmpty = false)
    (hs : (autoGenerate g shows cast fetched).success = true)
    (hp : p ∈ cast.map (fun c => c.name)) :
    (∃ a ∈ (autoGenerate g shows cast fetched).assignments,
      a.performer = p ∧ a.isRedDay = true) ∧
    (redDatesOf shows (autoGenerate g shows cast fetched).assignments p).length = 1 := by
  have hgen : autoGenerate g shows cast fetched = (autoGenerateBody g shows cast).res := by
    unfold autoGenerate autoGenerateAux
    simp [hc]
  rw [hgen] at hs ⊢
  obtain ⟨m, off, hinv, hred⟩ := autoGenerateBody_success g shows cast hs
  exact assignRedDays_red shows cast (convertToAssignments m off) _ p hnd
    (convert_red_false m off) (fun sid q => convert_pair_le m off hinv sid q) hred hp

/-- Witness for C2: the two-show, eight-performer week is accepted on the
main path, and its returned schedule gives performer SA exactly one red
date. -/
theorem C2_witness :
    (autoGenerate tape0 showsC1 castC1 none).success = true ∧
    (redDatesOf showsC1 (autoGenerate tape0 showsC1 castC1 none).assignments "SA").length = 1 :=
  ⟨by decide, (C2_red_coverage tape0 showsC1 castC1 none "SA" (by decide) (by decide)
    (by decide) (by decide)).2⟩

theorem detect_some_of_dayoff (shows : List Show)
    (h : ∃ s ∈ shows, s.status = "dayoff") :
    ∃ d, detectCompanyDayOff shows = some d := by
  obtain ⟨s, hs, hst⟩ := h
  unfold detectCompanyDayOff
  show ∃ d, (match stableSortBy (fun a b => decide (a.date ≤ b.date))
      (shows.filter (fun s => s.status == "dayoff")) with
    | [] => (none : Option Nat)
    | s :: _ => some s.date) = some d
  cases hsort : stableSortBy (fun a b => decide (a.date ≤ b.date))
      (shows.filter (fun s => s.status == "dayoff")) with
  | nil =>
    exfalso
    have hsmem : s ∈ shows.filter (fun s => s.status == "dayoff") :=
      List.mem_filter.mpr ⟨hs, by simp [hst]⟩
    have h2 := (mem_stableSortBy (fun a b => decide (a.date ≤ b.date)) _ s).mpr hsmem
    rw [hsort] at h2
    cases h2
  | cons s0 rest => exact ⟨s0.date, rfl⟩

/-- C7 (amended): when a `dayoff`-status show exists and the run succeeds,
every roster performer receives a red OFF row on a company-day-off show (a
dayoff show on the earliest dayoff date), and every OFF row on any other
show is non-red.  (The original claim asserted this of every run; a failed
run returns an empty assignment list.) -/
theorem C7_amended (g : Nat → Nat) (shows : List Show) (cast : List CastMember)
    (fetched : Option (List CastMember)) (p : String)
    (hc : cast.isEmpty = false)
    (hd : ∃ s ∈ shows, s.status = "dayoff")
    (hs : (autoGenerate g shows cast fetched).success = true)
    (hp : p ∈ cast.map (fun c => c.name)) :
    (∃ a ∈ (autoGenerate g shows cast fetched).assignments,
      a.performer = p ∧ a.role = "OFF" ∧ a.isRedDay = true ∧
        a.showId ∈ companyDayOffShowIds shows) ∧
    (∀ a ∈ (autoGenerate g shows cast fetched).assignments,
      a.role = "OFF" → a.showId ∉ companyDayOffShowIds shows → a.isRedDay = false) := by
  have hgen : autoGenerate g shows cast fetched = (autoGenerateBody g shows cast).res := by
    unfold autoGenerate autoGenerateAux
    simp [hc]
  rw [hgen] at hs ⊢
  obtain ⟨m, off, hinv, hred⟩ := autoGenerateBody_success g shows cast hs
  obtain ⟨cdo, hcdo⟩ := detect_some_of_dayoff shows hd
  unfold assignRedDays at hred
  rw [hcdo] at hred
  have hB2 : some ((convertToAssignments m off ++
      (companyDayOffShowIds shows).flatMap (fun sid =>
        (cast.map (fun c => c.name)).map (fun q =>
          (⟨sid, "OFF", q, true⟩ : Assignment)))).map
      (fun x => if x.role == "OFF" && !((companyDayOffShowIds shows).contains x.showId)
        then { x with isRedDay := false } else x)) =
      some (autoGenerateBody g shows cast).res.assignments := hred
  have hBeq : (autoGenerateBody g shows cast).res.assignments =
      (convertToAssignments m off ++
        (companyDayOffShowIds shows).flatMap (fun sid =>
          (cast.map (fun c => c.name)).map (fun q =>
            (⟨sid, "OFF", q, true⟩ : Assignment)))).map
        (fun x => if x.role == "OFF" && !((companyDayOffShowIds shows).contains x.showId)
          then { x with isRedDay := false } else x) := (Option.some.inj hB2).symm
  obtain ⟨sid0, hsid0⟩ := companyIds_nonempty shows cdo hcdo
  constructor
  · have hw : (⟨sid0, "OFF", p, true⟩ : Assignment) ∈
        convertToAssignments m off ++ (companyDayOffShowIds shows).flatMap (fun sid =>
          (cast.map (fun c => c.name)).map (fun q =>
            (⟨sid, "OFF", q, true⟩ : Assignment))) := by
      apply List.mem_append.mpr
      right
      apply List.mem_flatMap.mpr
      refine ⟨sid0, ?_, ?_⟩
      · exact hsid0
      · exact List.mem_map.mpr ⟨p, hp, rfl⟩
    have harow : (⟨sid0, "OFF", p, true⟩ : Assignment) ∈
        (autoGenerateBody g shows cast).res.assignments := by
      rw [hBeq]
      apply List.mem_map.mpr
      refine ⟨⟨sid0, "OFF", p, true⟩, hw, ?_⟩
      split
      · next hcon =>
        exfalso
        simp at hcon
        exact hcon hsid0
      · rfl
    exact ⟨⟨sid0, "OFF", p, true⟩, harow, rfl, rfl, rfl, hsid0⟩
  · intro a ha hoff hnotin
    rw [hBeq] at ha
    rcases List.mem_map.mp ha with ⟨w, hw, hwa⟩
    by_cases hcond : (w.role == "OFF" &&
        !((companyDayOffShowIds shows).contains w.showId)) = true
    · rw [if_pos hcond] at hwa
      rw [← hwa]
    · rw [if_neg hcond] at hwa
      exfalso
      apply hnotin
      have hwrole : (w.role == "OFF") = true := by
        rw [hwa, hoff]
        simp
      have hcond2 : (w.role == "OFF" &&
          !((companyDayOffShowIds shows).contains w.showId)) = false :=
        Bool.eq_false_iff.mpr hcond
      rw [hwrole] at hcond2
      have hcontains : (companyDayOffShowIds shows).contains w.showId = true := by
        cases hcc : (companyDayOffShowIds shows).contains w.showId
        · rw [hcc] at hcond2
          simp at hcond2
        · rfl
      rw [← hwa]
      exact List.elem_iff.mp hcontains

/-- One staffable show followed by a company day off; the eight-member
one-role roster fills it deterministically. -/
def showsW7 : List Show :=
  [⟨"w1", 20003, 1140, "show"⟩, ⟨"d1", 20004, 0, "dayoff"⟩]

/-- Witness for C7: the amended statement evaluated at the one-show week
with a company day off. -/
theorem C7_witness :
    (autoGenerate tape0 showsW7 castC1 none).success = true ∧
    (∃ a ∈ (autoGenerate tape0 showsW7 castC1 none).assignments,
      a.performer = "SA" ∧ a.role = "OFF" ∧ a.isRedDay = true ∧
        a.showId ∈ companyDayOffShowIds showsW7) :=
  ⟨by decide, (C7_amended tape0 showsW7 castC1 none "SA" (by decide)
    ⟨⟨"d1", 20004, 0, "dayoff"⟩, by decide, rfl⟩ (by decide) (by decide)).1⟩

/-! ## Headcount of an accepted schedule -/

theorem filter_map_eq {β : Type} (f : α → β) (l : List α) (p : β → Bool) :
    (l.map f).filter p = (l.filter (fun a => p (f a))).map f := by
  induction l with
  | nil => rfl
  | cons a t ih =>
    rw [List.map_cons, List.filter_cons, List.filter_cons]
    by_cases h : p (f a) = true
    · rw [if_pos h, if_pos h, List.map_cons, ih]
    · rw [if_neg h, if_neg h, ih]

theorem under_error_pattern (d : String) (n : Nat) :
    strIncludes "exactly 8" (mkUnderCountError d n) = true := by
  unfold mkUnderCountError
  repeat apply strIncludes_append_right
  decide

theorem hasCrit_false_all (errs : List String) (h : hasCriticalErrors errs = false)
    (e : String) (he : e ∈ errs) : strIncludes "exactly 8" e = false := by
  unfold hasCriticalErrors at h
  have h2 := List.any_eq_false.mp h e he
  by_cases hx : strIncludes "exactly 8" e = true
  · exfalso
    apply h2
    simp [hx]
  · exact Bool.eq_false_iff.mpr hx

theorem perShowErrorsFor_under (cast : List CastMember) (A : List Assignment) (s : Show)
    (hlt : stagePerformerCount A s.id < 8) :
    mkUnderCountError (showDateStr s) (8 - stagePerformerCount A s.id) ∈
      perShowErrorsFor cast A s := by
  have hne : stagePerformerCount A s.id ≠ 8 := Nat.ne_of_lt hlt
  simp only [perShowErrorsFor]
  rw [if_pos hne, if_pos hlt]
  apply List.mem_append_left
  apply List.mem_append_left
  apply List.mem_append_left
  exact List.mem_cons_self _ _

theorem errors_mem (shows : List Show) (cast : List CastMember) (A : List Assignment)
    (s : Show) (hs : s ∈ shows) (hst : s.status = "show")
    (e : String) (he : e ∈ perShowErrorsFor cast A s) :
    e ∈ (validateSchedule shows cast A).errors := by
  unfold validateSchedule validateSt validateCore
  show e ∈ perShowErrors shows cast A ++
    consecErrorsOf (analyzeConsecutiveShows shows cast A) ++
    cast.flatMap (btbErrorsFor (shows.filter (fun s => s.status == "show")) A) ++
    cast.flatMap (weekendErrorsFor (shows.filter (fun s => s.status == "show")) A) ++
    (redSection (shows.filter (fun s => s.status == "show")) cast A).1
  apply List.mem_append_left
  apply List.mem_append_left
  apply List.mem_append_left
  apply List.mem_append_left
  unfold perShowErrors
  apply List.mem_flatMap.mpr
  exact ⟨s, List.mem_filter.mpr ⟨hs, by simp [hst]⟩, he⟩

theorem entry_rows_show_le (e : String × ShowAsg) (sid : String)
    (hcells : e.2.map (fun rc => rc.1) = rolesList) :
    ((e.2.filter (fun rc => rc.2 != "")).map (fun rc =>
      (⟨e.1, rc.1, rc.2, false⟩ : Assignment))).countP
      (fun a => a.showId == sid && a.role != "OFF") ≤ 8 := by
  calc ((e.2.filter (fun rc => rc.2 != "")).map (fun rc =>
        (⟨e.1, rc.1, rc.2, false⟩ : Assignment))).countP
        (fun a => a.showId == sid && a.role != "OFF")
      ≤ ((e.2.filter (fun rc => rc.2 != "")).map (fun rc =>
        (⟨e.1, rc.1, rc.2, false⟩ : Assignment))).length := List.countP_le_length _
    _ = (e.2.filter (fun rc => rc.2 != "")).length := List.length_map _ _
    _ ≤ e.2.length := (List.filter_sublist e.2).length_le
    _ = (e.2.map (fun rc => rc.1)).length := (List.length_map _ _).symm
    _ = rolesList.length := by rw [hcells]
    _ = 8 := rfl

theorem stage_rows_show_zero (m : AssignMap) (sid : String)
    (hsid : sid ∉ m.map (fun e => e.1)) :
    (m.flatMap (fun e => (e.2.filter (fun rc => rc.2 != "")).map (fun rc =>
      (⟨e.1, rc.1, rc.2, false⟩ : Assignment)))).countP
      (fun a => a.showId == sid && a.role != "OFF") = 0 := by
  apply List.countP_eq_zero.mpr
  intro a ha hpred
  rcases List.mem_flatMap.mp ha with ⟨e, he, hae⟩
  rcases List.mem_map.mp hae with ⟨rc, _, hrc⟩
  apply hsid
  have hid : a.showId = sid := by
    simp only [Bool.and_eq_true] at hpred
    simpa using hpred.1
  apply List.mem_map.mpr
  refine ⟨e, he, ?_⟩
  rw [← hid, ← hrc]

theorem convert_show_rows_le (m : AssignMap) (off : List (String × List String))
    (hinv : MapInv m) (sid : String) :
    (convertToAssignments m off).countP
      (fun a => a.showId == sid && a.role != "OFF") ≤ 8 := by
  unfold convertToAssignments
  rw [List.countP_append]
  have hoff : (off.flatMap (fun e => e.2.map (fun p =>
      (⟨e.1, "OFF", p, false⟩ : Assignment)))).countP
      (fun a => a.showId == sid && a.role != "OFF") = 0 := by
    apply List.countP_eq_zero.mpr
    intro a ha hpred
    rcases List.mem_flatMap.mp ha with ⟨e, _, hae⟩
    rcases List.mem_map.mp hae with ⟨pp, _, hp⟩
    rw [← hp] at hpred
    simp at hpred
  rw [hoff]
  have hstage : ∀ (m2 : AssignMap), (m2.map (fun e => e.1)).Nodup →
      (∀ e ∈ m2, e.2.map (fun rc => rc.1) = rolesList) →
      (m2.flatMap (fun e => (e.2.filter (fun rc => rc.2 != "")).map (fun rc =>
        (⟨e.1, rc.1, rc.2, false⟩ : Assignment)))).countP
        (fun a => a.showId == sid && a.role != "OFF") ≤ 8 := by
    intro m2
    induction m2 with
    | nil => intro _ _; simp
    | cons e t ih =>
      intro hkeys hcells
      rw [List.flatMap_cons, List.countP_append]
      have hkeys2 : e.1 ∉ t.map (fun e2 => e2.1) ∧ (t.map (fun e2 => e2.1)).Nodup := by
        rw [List.map_cons, List.nodup_cons] at hkeys
        exact hkeys
      by_cases hs : e.1 = sid
      · have hz := stage_rows_show_zero t sid (by rw [← hs]; exact hkeys2.1)
        rw [hz]
        have h1 := entry_rows_show_le e sid (hcells e (List.mem_cons_self e t))
        omega
      · have hz : ((e.2.filter (fun rc => rc.2 != "")).map (fun rc =>
            (⟨e.1, rc.1, rc.2, false⟩ : Assignment))).countP
            (fun a => a.showId == sid && a.role != "OFF") = 0 := by
          apply List.countP_eq_zero.mpr
          intro a ha hpred
          rcases List.mem_map.mp ha with ⟨rc, _, hrc⟩
          apply hs
          have hid : a.showId = sid := by
            simp only [Bool.and_eq_true] at hpred
            simpa using hpred.1
          rw [← hid, ← hrc]
        rw [hz]
        have h2 := ih hkeys2.2 (fun e2 he2 => hcells e2 (List.mem_cons_of_mem e he2))
        omega
  have h3 := hstage m hinv.keys hinv.cellKeys
  omega

theorem stageRowsOf_length (A : List Assignment) (sid : String) :
    (stageRowsOf A sid).length =
      A.countP (fun a => a.showId == sid && a.role != "OFF") := by
  unfold stageRowsOf
  rw [← List.countP_eq_length_filter, List.countP_filter]
  apply countP_congr_eq
  intro a _
  exact Bool.and_comm _ _

theorem stageCount_convert_le (m : AssignMap) (off : List (String × List String))
    (hinv : MapInv m) (sid : String) :
    stagePerformerCount (convertToAssignments m off) sid ≤ 8 := by
  unfold stagePerformerCount distinctCount
  have h1 := length_dedupKF_le ((stageRowsOf (convertToAssignments m off) sid).map
    (fun a => a.performer))
  have h2 : ((stageRowsOf (convertToAssignments m off) sid).map
      (fun a => a.performer)).length = (stageRowsOf (convertToAssignments m off) sid).length :=
    List.length_map _ _
  have h3 := stageRowsOf_length (convertToAssignments m off) sid
  have h4 := convert_show_rows_le m off hinv sid
  omega

theorem accepted_count_eight (shows : List Show) (cast : List CastMember)
    (A : List Assignment) (s : Show)
    (hs : s ∈ shows) (hst : s.status = "show")
    (hle : stagePerformerCount A s.id ≤ 8)
    (hcrit : hasCriticalErrors (validateSchedule shows cast A).errors = false) :
    stagePerformerCount A s.id = 8 := by
  by_contra hne
  have hlt : stagePerformerCount A s.id < 8 := Nat.lt_of_le_of_ne hle hne
  have herr := errors_mem shows cast A s hs hst _ (perShowErrorsFor_under cast A s hlt)
  have hpat := under_error_pattern (showDateStr s) (8 - stagePerformerCount A s.id)
  have hall := hasCrit_false_all _ hcrit _ herr
  rw [hpat] at hall
  cases hall

/-! ## Deletions on other dates leave a show's rows unchanged -/

theorem removeFirst_filter_ne (f : List Assignment) (sid t q : String) (hne : ¬ t = sid) :
    (removeFirstAssignment f sid q).filter (fun a => a.showId == t) =
      f.filter (fun a => a.showId == t) := by
  induction f with
  | nil => rfl
  | cons a rest ih =>
    rw [removeFirst_cons]
    by_cases hpred : (a.showId == sid && a.performer == q) = true
    · rw [if_pos hpred]
      have hsplit : a.showId = sid ∧ a.performer = q := by simpa using hpred
      have hat : (a.showId == t) = false := by
        rw [hsplit.1]
        exact beq_false_of_ne (fun h => hne h.symm)
      rw [List.filter_cons, hat]
      simp
    · rw [if_neg hpred]
      rw [List.filter_cons, List.filter_cons, ih]

theorem removeFoldInner_filter_ne (q : String) (shs : List Show) (t : String)
    (hne : ∀ sh ∈ shs, ¬ t = sh.id) :
    ∀ f, ((shs.foldl (fun f sh => removeFirstAssignment f sh.id q) f).filter
      (fun a => a.showId == t)) = f.filter (fun a => a.showId == t) := by
  induction shs with
  | nil => intro f; rfl
  | cons sh rest ih =>
    intro f
    rw [List.foldl_cons]
    rw [ih (fun s2 hs2 => hne s2 (List.mem_cons_of_mem sh hs2))]
    exact removeFirst_filter_ne f sh.id t q (hne sh (List.mem_cons_self sh rest))

theorem removeFoldOuter_filter_ne (shows : List Show) (bd : Nat) (l : List String)
    (t : String) (hne : ∀ sh ∈ showsOnDate shows bd, ¬ t = sh.id) :
    ∀ b, ((l.foldl (fun f p => (showsOnDate shows bd).foldl
      (fun f sh => removeFirstAssignment f sh.id p) f) b).filter
      (fun a => a.showId == t)) = b.filter (fun a => a.showId == t) := by
  induction l with
  | nil => intro b; rfl
  | cons p rest ih =>
    intro b
    rw [List.foldl_cons]
    rw [ih ((showsOnDate shows bd).foldl (fun f sh => removeFirstAssignment f sh.id p) b)]
    exact removeFoldInner_filter_ne p (showsOnDate shows bd) t hne b

theorem stageRowsOf_append_off (S R : List Assignment) (sid : String)
    (hR : ∀ a ∈ R, a.role = "OFF") :
    stageRowsOf (S ++ R) sid = stageRowsOf S sid := by
  unfold stageRowsOf
  rw [List.filter_append, List.filter_append]
  have hnil : ((R.filter (fun a => a.showId == sid)).filter
      (fun a => a.role != "OFF")) = [] := by
    apply List.filter_eq_nil_iff.mpr
    intro a ha hcon
    have h2 := hR a (List.mem_of_mem_filter ha)
    rw [h2] at hcon
    simp at hcon
  rw [hnil, List.append_nil]

theorem filter_idem (l : List α) (p : α → Bool) : (l.filter p).filter p = l.filter p :=
  List.filter_eq_self.mpr (fun a ha => List.of_mem_filter ha)

theorem filter_red0 (p : Assignment → Bool)
    (hp : ∀ a : Assignment, p { a with isRedDay := false } = p a) (l : List Assignment) :
    (l.map (fun x => ({ x with isRedDay := false } : Assignment))).filter p =
      (l.filter p).map (fun x => ({ x with isRedDay := false } : Assignment)) := by
  rw [filter_map_eq]
  rw [List.filter_congr (fun a _ => hp a)]

theorem stageRowsOf_base_map (A : List Assignment) (sid : String) :
    (stageRowsOf ((A.filter (fun x => x.role != "OFF")).map
      (fun x => { x with isRedDay := false })) sid).map (fun a => a.performer) =
    (stageRowsOf A sid).map (fun a => a.performer) := by
  unfold stageRowsOf
  rw [filter_red0 (fun a => a.showId == sid) (fun a => rfl)]
  rw [filter_red0 (fun a => a.role != "OFF") (fun a => rfl)]
  rw [List.map_map]
  have h1 : (((A.filter (fun x => x.role != "OFF")).filter
        (fun a => a.showId == sid)).filter (fun a => a.role != "OFF")) =
      ((A.filter (fun a => a.showId == sid)).filter (fun a => a.role != "OFF")) := by
    calc ((A.filter (fun x => x.role != "OFF")).filter
          (fun a => a.showId == sid)).filter (fun a => a.role != "OFF")
        = ((A.filter (fun x => x.role != "OFF")).filter
          (fun a => a.role != "OFF")).filter (fun a => a.showId == sid) :=
          List.filter_comm (fun a => a.role != "OFF") (fun a => a.showId == sid)
            (A.filter (fun x => x.role != "OFF"))
      _ = (A.filter (fun x => x.role != "OFF")).filter (fun a => a.showId == sid) := by
          rw [filter_idem]
      _ = (A.filter (fun a => a.showId == sid)).filter (fun a => a.role != "OFF") :=
          List.filter_comm (fun a => a.showId == sid) (fun a => a.role != "OFF") A
  rw [h1]
  apply List.map_eq_map_iff.mpr
  intro a _
  rfl

theorem base_role (A : List Assignment) :
    ∀ a ∈ (A.filter (fun x => x.role != "OFF")).map
      (fun x => { x with isRedDay := false }), ¬ a.role = "OFF" := by
  intro a ha
  rcases List.mem_map.mp ha with ⟨x, hx, hxa⟩
  have h2 := List.of_mem_filter hx
  rw [← hxa]
  simpa using h2

/-- A main-path run is exactly an accepted attempt followed by a successful
RED-day pass. -/
theorem autoGenerateBody_main (g : Nat → Nat) (shows : List Show)
    (cast : List CastMember)
    (hpath : (autoGenerateBody g shows cast).path = GPath.main) :
    ∃ A c, attemptLoop g shows cast 100 0 = some (A, c) ∧
      (autoGenerateBody g shows cast).accA = A ∧
      assignRedDays shows cast A =
        some (autoGenerateBody g shows cast).res.assignments := by
  unfold autoGenerateBody at hpath ⊢
  split at hpath
  · next A c hl =>
    split at hpath
    · simp at hpath
    · next finalA hr =>
      exact ⟨A, c, hl, rfl, hr⟩
  · next hl =>
    exfalso
    have hp0 : (if ((generatePartialSchedule shows cast (mkInit shows)
          (mkInitOff shows)).success ||
        !(generatePartialSchedule shows cast (mkInit shows)
          (mkInitOff shows)).assignments.isEmpty) = true
      then (match assignRedDays shows cast
          (generatePartialSchedule shows cast (mkInit shows) (mkInitOff shows)).assignments with
        | none => (⟨caughtResult, GPath.caught,
            (generatePartialSchedule shows cast (mkInit shows)
              (mkInitOff shows)).assignments⟩ : AuxOut)
        | some finalA => ⟨⟨true, finalA,
            (generatePartialSchedule shows cast (mkInit shows) (mkInitOff shows)).errors,
            some (validateDayOffFairness shows cast finalA).1,
            some (validateDayOffFairness shows cast finalA).2⟩, GPath.partialFull,
            (generatePartialSchedule shows cast (mkInit shows) (mkInitOff shows)).assignments⟩)
      else ⟨generatePartialSchedule shows cast (mkInit shows) (mkInitOff shows),
        GPath.partialBare, []⟩).path = GPath.main := hpath
    by_cases hcond : ((generatePartialSchedule shows cast (mkInit shows)
          (mkInitOff shows)).success ||
        !(generatePartialSchedule shows cast (mkInit shows)
          (mkInitOff shows)).assignments.isEmpty) = true
    · rw [if_pos hcond] at hp0
      split at hp0 <;> simp at hp0
    · rw [if_neg hcond] at hp0
      simp at hp0

/-- C1 (amended): for a run accepted through the main path, a status-show
show keeps exactly 8 distinct performers on stage and every roster performer
off its stage receives an OFF row, provided no company day off exists and
the show's date is not the forced RED-day date on which the pass deletes
role assignments (that date being computed from the pre-pass accepted
schedule). -/
theorem C1_amended (g : Nat → Nat) (shows : List Show) (cast : List CastMember)
    (fetched : Option (List CastMember)) (s : Show)
    (hnd : (shows.map (fun x => x.id)).Nodup)
    (hc : cast.isEmpty = false)
    (hpath : (autoGenerateAux g shows cast fetched).path = GPath.main)
    (hnocdo : ∀ sh ∈ shows, ¬ sh.status = "dayoff")
    (hsmem : s ∈ shows) (hst : s.status = "show")
    (hdate : s.date ∉ forcedRedDates shows cast (autoGenerateAux g shows cast fetched).accA) :
    stagePerformerCount (autoGenerate g shows cast fetched).assignments s.id = 8 ∧
    (∀ p ∈ cast.map (fun c => c.name),
      (¬ ∃ a ∈ (autoGenerate g shows cast fetched).assignments,
        a.showId = s.id ∧ a.performer = p ∧ ¬ a.role = "OFF") →
      ∃ a ∈ (autoGenerate g shows cast fetched).assignments,
        a.showId = s.id ∧ a.performer = p ∧ a.role = "OFF") := by
  have hgaux : autoGenerateAux g shows cast fetched = autoGenerateBody g shows cast := by
    unfold autoGenerateAux
    simp [hc]
  have hgen : autoGenerate g shows cast fetched = (autoGenerateBody g shows cast).res := by
    unfold autoGenerate
    rw [hgaux]
  rw [hgaux] at hpath hdate
  rw [hgen]
  obtain ⟨A, c, hl, haccA, hred⟩ := autoGenerateBody_main g shows cast hpath
  obtain ⟨m, off, hinv, hAeq, hcrit⟩ := attemptLoop_sound g shows cast 100 0 A c hl
  have hle : stagePerformerCount A s.id ≤ 8 := by
    rw [hAeq]
    exact stageCount_convert_le m off hinv s.id
  have h8 : stagePerformerCount A s.id = 8 :=
    accepted_count_eight shows cast A s hsmem hst hle hcrit
  have hdet : detectCompanyDayOff shows = none := detect_none shows hnocdo
  have hsact : s ∈ activeShowsOf shows := List.mem_filter.mpr ⟨hsmem, by simp [hst]⟩
  unfold assignRedDays at hred
  rw [hdet] at hred
  rw [haccA] at hdate
  cases hpw : performersWithoutRed shows cast A with
  | nil =>
    rw [hpw] at hred
    have hB2 : some (((A.filter (fun x => x.role != "OFF")).map
          (fun x => { x with isRedDay := false })) ++
        redOffRows shows cast ((A.filter (fun x => x.role != "OFF")).map
          (fun x => { x with isRedDay := false }))
          (redDaysNaturalMap shows cast A)) =
        some (autoGenerateBody g shows cast).res.assignments := hred
    have hBeq := (Option.some.inj hB2).symm
    constructor
    · rw [hBeq]
      unfold stagePerformerCount
      rw [stageRowsOf_append_off _ _ s.id (redOffRows_role shows cast _ _)]
      rw [stageRowsOf_base_map]
      exact h8
    · intro p hp hnostage
      have hz : ((A.filter (fun x => x.role != "OFF")).map
          (fun x => { x with isRedDay := false })).countP
          (fun a => a.showId == s.id && a.performer == p) = 0 := by
        by_contra hnz
        obtain ⟨a, ha, hpred⟩ := List.countP_pos_iff.mp (Nat.pos_of_ne_zero hnz)
        apply hnostage
        have hsplit : a.showId = s.id ∧ a.performer = p := by simpa using hpred
        have harole : ¬ a.role = "OFF" := base_role A a ha
        refine ⟨a, ?_, hsplit.1, hsplit.2, harole⟩
        rw [hBeq]
        exact List.mem_append.mpr (Or.inl ha)
      have hmem0 := redOffRows_mem shows cast ((A.filter (fun x => x.role != "OFF")).map
          (fun x => { x with isRedDay := false })) (redDaysNaturalMap shows cast A)
          s hsact p hp hz
      refine ⟨⟨s.id, "OFF", p,
        lookupAL (redDaysNaturalMap shows cast A) p == some s.date⟩, ?_, rfl, rfl, rfl⟩
      rw [hBeq]
      exact List.mem_append.mpr (Or.inr hmem0)
  | cons q qs =>
    rw [hpw] at hred
    cases hbf : bestForcedDate shows (availableDatesOf shows) with
    | none =>
      rw [hbf] at hred
      exact Option.noConfusion (show (none : Option (List Assignment)) = some _ from hred)
    | some bd =>
      rw [hbf] at hred
      have hfrd : forcedRedDates shows cast A = [bd] := by
        unfold forcedRedDates
        rw [hdet, hpw, hbf]
      rw [hfrd] at hdate
      have hsbd : ¬ s.date = bd := by
        intro h
        exact hdate (by rw [h]; exact List.mem_cons_self bd [])
      have hidne : ∀ sh ∈ showsOnDate shows bd, ¬ s.id = sh.id := by
        intro sh hsh hid
        have hshmem : sh ∈ shows := List.mem_of_mem_filter (List.mem_of_mem_filter hsh)
        have hshdate : sh.date = bd := by simpa using List.of_mem_filter hsh
        have heq : s = sh := List.inj_on_of_nodup_map hnd hsmem hshmem hid
        rw [heq] at hsbd
        exact hsbd hshdate
      have hB2 : some ((forcedFold shows cast A bd
            ((A.filter (fun x => x.role != "OFF")).map
              (fun x => { x with isRedDay := false }))).1 ++
          redOffRows shows cast (forcedFold shows cast A bd
            ((A.filter (fun x => x.role != "OFF")).map
              (fun x => { x with isRedDay := false }))).1
            (forcedFold shows cast A bd
              ((A.filter (fun x => x.role != "OFF")).map
                (fun x => { x with isRedDay := false }))).2) =
          some (autoGenerateBody g shows cast).res.assignments := hred
      have hBeq := (Option.some.inj hB2).symm
      have hfilter : (forcedFold shows cast A bd
            ((A.filter (fun x => x.role != "OFF")).map
              (fun x => { x with isRedDay := false }))).1.filter
            (fun a => a.showId == s.id) =
          ((A.filter (fun x => x.role != "OFF")).map
            (fun x => { x with isRedDay := false })).filter
            (fun a => a.showId == s.id) := by
        rw [forcedFold_fst_eq]
        exact removeFoldOuter_filter_ne shows bd (performersWithoutRed shows cast A)
          s.id hidne _
      have hfsub := forcedFold_fst_sublist shows cast A bd
        ((A.filter (fun x => x.role != "OFF")).map (fun x => { x with isRedDay := false }))
      constructor
      · rw [hBeq]
        unfold stagePerformerCount
        rw [stageRowsOf_append_off _ _ s.id (redOffRows_role shows cast _ _)]
        unfold stageRowsOf
        rw [hfilter]
        have hsp := stageRowsOf_base_map A s.id
        unfold stageRowsOf at hsp
        rw [hsp]
        exact h8
      · intro p hp hnostage
        have hz : (forcedFold shows cast A bd
            ((A.filter (fun x => x.role != "OFF")).map
              (fun x => { x with isRedDay := false }))).1.countP
            (fun a => a.showId == s.id && a.performer == p) = 0 := by
          by_contra hnz
          obtain ⟨a, ha, hpred⟩ := List.countP_pos_iff.mp (Nat.pos_of_ne_zero hnz)
          apply hnostage
          have hsplit : a.showId = s.id ∧ a.performer = p := by simpa using hpred
          have harole : ¬ a.role = "OFF" := base_role A a (hfsub.subset ha)
          refine ⟨a, ?_, hsplit.1, hsplit.2, harole⟩
          rw [hBeq]
          exact List.mem_append.mpr (Or.inl ha)
        have hmem0 := redOffRows_mem shows cast (forcedFold shows cast A bd
            ((A.filter (fun x => x.role != "OFF")).map
              (fun x => { x with isRedDay := false }))).1
            (forcedFold shows cast A bd
              ((A.filter (fun x => x.role != "OFF")).map
                (fun x => { x with isRedDay := false }))).2
            s hsact p hp hz
        refine ⟨⟨s.id, "OFF", p, lookupAL (forcedFold shows cast A bd
            ((A.filter (fun x => x.role != "OFF")).map
              (fun x => { x with isRedDay := false }))).2 p == some s.date⟩,
          ?_, rfl, rfl, rfl⟩
        rw [hBeq]
        exact List.mem_append.mpr (Or.inr hmem0)

/-- Witness for C1: the two-show eight-performer week runs through the main
path, the forced RED date is the first show's date, and the second show
keeps its 8 distinct performers. -/
theorem C1_witness :
    (autoGenerateAux tape0 showsC1 castC1 none).path = GPath.main ∧
    stagePerformerCount (autoGenerate tape0 showsC1 castC1 none).assignments "s2" = 8 :=
  ⟨by decide, (C1_amended tape0 showsC1 castC1 none ⟨"s2", 20005, 1140, "show"⟩
    (by decide) (by decide) (by decide) (by decide) (by decide) (by decide)
    (by decide)).1⟩

end Stomp
